import Mathlib

/-!
# TIFF tree visitors of Exiv2 (`src/tiffvisitor_int.cpp`)

A shallow embedding of `TiffFinder`, `TiffReader`, `TiffDecoder` and
`TiffEncoder`, and the theorems that settle the claims of the specification
about them.

Conventions of the embedding

* A pointer (`const byte*`) is a natural number, the address; addresses are
  not above `Env.sizeMax`. A pointer sum the source guards is exact; the sums
  `pData_ + baseOffset() + offset` of `visitDirectory` and `visitSubIfd`, whose
  offset is not guarded by a checked addition, yield the address modulo
  `sizeMax + 1`, as the unchecked `size_t` sum tested before them does.
* `size_t` values are natural numbers not above `Env.sizeMax`; an unchecked
  `size_t` addition wraps modulo `sizeMax + 1`, `Safe::add` throws instead.
  `uint32_t` and `uint16_t` values read from the buffer are below `2^32` and
  `2^16`; the size type is at least as wide as `uint32_t`, so the conversion of
  such a value to `size_t` keeps it.
* A function that can throw returns `Except Exception _`.
* Collaborators whose code is not part of `tiffvisitor_int.cpp` (type tables,
  the component factory, `Value`) are fields of `Env`, and those of decoder
  and encoder are fields of `ExifEnv`.
-/

namespace Exiv2

/-- Byte order of multi-byte values (`types.hpp`). -/
inductive ByteOrder where
  | invalidByteOrder
  | littleEndian
  | bigEndian
  deriving DecidableEq, Repr

/-- Group identifier, the enumeration `IfdId`. -/
abbrev IfdId := Nat

/-- Exiv2 type identifier, the enumeration `TypeId`. -/
abbrev TypeId := Nat

/-- TIFF type code as stored in a directory entry (`uint16_t`). -/
abbrev TiffType := Nat

/-- Error codes of `Exiv2::Error` thrown by the reader. -/
inductive ErrorCode where
  | kerArithmeticOverflow
  | kerCorruptedMetadata
  | kerValueNotSet
  deriving DecidableEq, Repr

/-- The exceptions that occur: the raw `std::overflow_error` of `Safe::add`, the
`std::out_of_range` of `at()` and the structured `Exiv2::Error`. -/
inductive Exception where
  | overflow_error
  | out_of_range
  | Error (code : ErrorCode)
  deriving DecidableEq, Repr

/-- Read/write state: byte order and base offset (`TiffRwState`). -/
structure TiffRwState where
  byteOrder : ByteOrder
  baseOffset : Nat
  deriving DecidableEq, Repr

/-- Which of its two states `TiffReader::pState_` points to. -/
inductive PState where
  | orig
  | mn
  deriving DecidableEq, Repr

/-- Modelled from the spec: `Value` of `value.cpp`, which is not under src/; the
typed value of an entry, represented by its type, the bytes handed to
`Value::read` and the byte order they were read with. -/
structure Value where
  typeId : TypeId
  bytes : List Nat
  byteOrder : ByteOrder
  deriving DecidableEq, Repr

/-- The members of `TiffComponent` and `TiffEntryBase` the reader uses.
`start` is `pStart_`, the address of the 12-byte directory slot; `pData` and
`size` are the recorded data span. -/
structure TiffEntryBase where
  tag : Nat
  group : IfdId
  start : Nat
  tiffType : TiffType
  count : Nat
  offset : Nat
  size : Nat
  pData : Nat
  idx : Int
  pValue : Option Value
  deriving DecidableEq, Repr

/-- A `TiffDirectory`: its children in insertion order and the next link. -/
structure TiffDirectory where
  tag : Nat
  group : IfdId
  start : Nat
  hasNext : Bool
  components_ : List TiffEntryBase
  pNext_ : Option TiffEntryBase
  deriving DecidableEq, Repr

/-- A `TiffSubIfd`: an entry, the group of its first sub-directory and the
sub-directories linked so far (only tag, group and start of a child directory
are recorded). -/
structure TiffSubIfd where
  entry : TiffEntryBase
  newGroup_ : IfdId
  ifds_ : List TiffDirectory
  deriving DecidableEq, Repr

/-- A `TiffBinaryElement`: an entry with the byte order and TIFF type of its
element definition; `storage` holds the bytes `start` points to, which live in
the data of the owning binary array. -/
structure TiffBinaryElement where
  entry : TiffEntryBase
  elByteOrder : ByteOrder
  elTiffType : TiffType
  storage : List Nat
  deriving DecidableEq, Repr

/-- The two write methods (`WriteMethod` of `types.hpp`). -/
inductive WriteMethod where
  | wmIntrusive
  | wmNonIntrusive
  deriving DecidableEq, Repr

/-- The functions an entry of the encoder registry can name: `EncoderFct` is a
pointer to a member function of `TiffEncoder` that takes a `TiffEntryBase*` and
a record, and the encoder has two of them. -/
inductive EncoderFct where
  | encodeTiffEntryBase
  | encodeOffsetEntry
  deriving DecidableEq, Repr

/-- The dynamic type of an entry node. -/
inductive TiffKind where
  | entry
  | dataEntry
  | imageEntry
  | sizeEntry
  | subIfd
  | mnEntry
  | binaryArray
  | binaryElement
  deriving DecidableEq, Repr

/-- A cipher function of a binary array (`CryptFct`); the two Sony functions
are told apart by the source. -/
inductive CryptFct where
  | sonyTagDecipher
  | sonyTagEncipher
  | other (id : Nat)
  deriving DecidableEq, Repr

/-- An element definition of a binary array (`ArrayDef`): the position in the
array, the TIFF type and the count of components. -/
structure ArrayDef where
  idx_ : Nat
  tiffType_ : TiffType
  count_ : Nat
  deriving DecidableEq, Repr

/-- The part of the layout of a binary array (`ArrayCfg`) that reader and
encoder use: the cipher, if one is declared, whether runs of default elements
are concatenated, and the default element definition. -/
structure ArrayCfg where
  cryptFct_ : Option CryptFct
  concat_ : Bool := false
  elDefaultDef_ : ArrayDef := { idx_ := 0, tiffType_ := 0, count_ := 0 }
  deriving DecidableEq, Repr

/-- An entry node as the encoder sees it: the members of `TiffEntryBase`, the
dynamic type, and the members of the derived classes that the encoder reads
or writes. `mn_` tells whether a `TiffMnEntry` owns a makernote, and
`mnByteOrder` is the byte order of that makernote; a strip is a data pointer
with a size; `data` are the bytes at `pData()` and `origData_` the stored
bytes of a binary array. -/
structure TiffNode where
  kind : TiffKind
  entry : TiffEntryBase
  mn_ : Bool
  szTag : Nat
  szGroup : IfdId
  sizeDataArea_ : Nat
  strips_ : List (Nat × Nat)
  elByteOrder : ByteOrder
  cfg : Option ArrayCfg
  decoded : Bool
  data : List Nat
  origData_ : List Nat
  mnByteOrder : ByteOrder := .invalidByteOrder
  deriving DecidableEq, Repr

/-- A `TiffBinaryArray` as the reader sees it: the entry node, the table of
explicit element definitions `def()` (`none` for the null pointer) and the
element children in insertion order. -/
structure TiffBinaryArray where
  node : TiffNode
  def_ : Option (List ArrayDef)
  elements_ : List TiffBinaryElement
  deriving DecidableEq, Repr

/-- A component of the tree: an entry node with its sub-components (the
directories of a sub-IFD, the makernote of a makernote entry, the elements of
a binary array), or a component that is not an entry, a directory or an IFD
makernote, with its tag, its group and its sub-components (the entries of a
directory, then its next directory). Sub-components are in traversal order. -/
inductive TiffComponent where
  | entry (object : TiffNode) (children : List TiffComponent)
  | directory (tag : Nat) (group : IfdId) (children : List TiffComponent)
  deriving Repr

/-- One call of a visit function of the reader during a pass over the tree:
`entry` stands for `visitEntry` and for the `readTiffEntry` step with which
the visit functions of all other entry kinds begin, `mnState` for the
`setMnState` call of `visitIfdMakernote` and `postProcess`, `origState` for
`visitIfdMakernoteEnd`. -/
inductive Visit where
  | entry (object : TiffEntryBase)
  | binaryElement (object : TiffBinaryElement)
  | directory (object : TiffDirectory)
  | mnState (state : Option TiffRwState)
  | origState
  deriving DecidableEq, Repr

/-- The platform and the collaborators of the reader that are declared outside
`tiffvisitor_int.cpp`. -/
structure Env where
  /-- `std::numeric_limits<size_t>::max()`. -/
  sizeMax : Nat
  /-- The size type has at least the 32 bits of the `uint32_t` fields that are
  converted to it. -/
  sizeMax_ge : 4294967295 ≤ sizeMax
  /-- `toTypeId(tiffType, tag, group)`. -/
  toTypeId : TiffType → Nat → IfdId → TypeId
  /-- `TypeInfo::typeSize(typeId)`. -/
  typeSize : TypeId → Nat
  /-- The type id `undefined`. -/
  undefined : TypeId
  /-- Whether `std::string(groupName(group)) == "Sony1"`. -/
  isSony1 : IfdId → Bool
  /-- Whether `Value::create(typeId)` returns a non-null pointer. -/
  valueCreate : TypeId → Bool
  /-- `toTiffType(typeId)`, the type `setValue` stores in the entry. -/
  toTiffType : TypeId → TiffType
  /-- `Value::count()` of a value of the given type read from `size` bytes. -/
  valueCount : TypeId → Nat → Nat
  /-- `TiffCreator::create(tag, group)`: the freshly constructed component. -/
  create : Nat → IfdId → Option TiffEntryBase
  /-- The special tag `Tag::next`. -/
  tagNext : Nat
  /-- The group `IfdId::ifd1Id`. -/
  ifd1Id : IfdId
  /-- The TIFF type `ttUnsignedLong`. -/
  ttUnsignedLong : TiffType
  /-- The TIFF type `ttSignedLong`. -/
  ttSignedLong : TiffType
  /-- The TIFF type `ttTiffIfd`. -/
  ttTiffIfd : TiffType
  /-- The default of the `hasNext` argument of the `TiffDirectory` constructor. -/
  dirHasNext : Bool

/-- The state of a `TiffReader`. `data_` holds the bytes at the addresses
`pData_ .. pData_ + size_ - 1`; `dirList_` and `idxSeq_` are the two maps;
`postList_` is the queue of binary arrays, empty after construction. -/
structure TiffReader where
  pData_ : Nat
  data_ : List Nat
  origState_ : TiffRwState
  mnState_ : TiffRwState
  pState_ : PState
  dirList_ : Nat → Option IfdId
  idxSeq_ : IfdId → Int
  postProc_ : Bool
  postList_ : List TiffBinaryArray := []

namespace Safe

/-- Modelled from the spec: `Safe::add<size_t>` of `safe_op.hpp`, which is not
under src/; the overflow-checked addition, throwing `std::overflow_error` when
the sum does not fit the size type. -/
def add (env : Env) (a b : Nat) : Except Exception Nat :=
  if a + b > env.sizeMax then .error .overflow_error else .ok (a + b)

end Safe

namespace TiffReader

/-- `TiffReader::TiffReader(pData, size, pRoot, state)`; the maps start empty. -/
def new (pData : Nat) (data : List Nat) (state : TiffRwState) : TiffReader :=
  { pData_ := pData, data_ := data, origState_ := state, mnState_ := state,
    pState_ := .orig, dirList_ := fun _ => none, idxSeq_ := fun _ => 0,
    postProc_ := false }

/-- The member `size_`. -/
def size_ (r : TiffReader) : Nat := r.data_.length

/-- The member `pLast_ = pData + size`. -/
def pLast_ (r : TiffReader) : Nat := r.pData_ + r.size_

/-- The state `*pState_`. -/
def state (r : TiffReader) : TiffRwState :=
  match r.pState_ with
  | .orig => r.origState_
  | .mn => r.mnState_

/-- `TiffReader::byteOrder`. -/
def byteOrder (r : TiffReader) : ByteOrder := r.state.byteOrder

/-- `TiffReader::baseOffset`. -/
def baseOffset (r : TiffReader) : Nat := r.state.baseOffset

/-- `TiffReader::setOrigState`. -/
def setOrigState (r : TiffReader) : TiffReader := { r with pState_ := .orig }

/-- `TiffReader::setMnState(state)`; `none` is the null pointer default. -/
def setMnState (r : TiffReader) (state : Option TiffRwState) : TiffReader :=
  match state with
  | some s =>
    if s.byteOrder = .invalidByteOrder then
      { r with mnState_ := { byteOrder := r.origState_.byteOrder, baseOffset := s.baseOffset },
               pState_ := .mn }
    else { r with mnState_ := s, pState_ := .mn }
  | none => { r with pState_ := .mn }

/-- The byte stored at address `a`; `0` outside the buffer, where the source
never reads. -/
def byteAt (r : TiffReader) (a : Nat) : Nat :=
  if r.pData_ ≤ a then r.data_.getD (a - r.pData_) 0 % 256 else 0

/-- The `n` bytes at the addresses `a .. a + n - 1`. -/
def bytes (r : TiffReader) (a n : Nat) : List Nat :=
  (List.range n).map fun i => r.byteAt (a + i)

/-- Modelled from the spec: `getUShort` of `types.cpp`, which is not under
src/; the 16-bit value at `p` in the given byte order. -/
def getUShort (r : TiffReader) (p : Nat) (bo : ByteOrder) : Nat :=
  if bo = .littleEndian then r.byteAt (p + 1) * 256 + r.byteAt p
  else r.byteAt p * 256 + r.byteAt (p + 1)

/-- Modelled from the spec: `getULong` of `types.cpp`, which is not under
src/; the 32-bit value at `p` in the given byte order. -/
def getULong (r : TiffReader) (p : Nat) (bo : ByteOrder) : Nat :=
  if bo = .littleEndian then
    r.byteAt (p + 3) * 16777216 + r.byteAt (p + 2) * 65536 + r.byteAt (p + 1) * 256 + r.byteAt p
  else
    r.byteAt p * 16777216 + r.byteAt (p + 1) * 65536 + r.byteAt (p + 2) * 256 + r.byteAt (p + 3)

/-- The assignment `dirList_[start] = group`. -/
def recordDir (r : TiffReader) (start : Nat) (group : IfdId) : TiffReader :=
  { r with dirList_ := fun a => if a = start then some group else r.dirList_ a }

/-- `TiffReader::circularReference`: the answer and the reader with the start
address recorded. -/
def circularReference (r : TiffReader) (start : Nat) (group : IfdId) : Bool × TiffReader :=
  match r.dirList_ start with
  | some _ => (true, r)
  | none => (false, r.recordDir start group)

/-- `TiffReader::nextIdx`: `++idxSeq_[group]`. -/
def nextIdx (r : TiffReader) (group : IfdId) : Int × TiffReader :=
  (r.idxSeq_ group + 1,
   { r with idxSeq_ := fun g => if g = group then r.idxSeq_ group + 1 else r.idxSeq_ g })

end TiffReader

namespace TiffEntryBase

/-- Modelled from the spec: `TiffEntryBase::setValue` of
`tiffcomposite_int.cpp`, which is not under src/, for a non-null value; the
entry takes the value and the TIFF type and count of the value. -/
def setValue (env : Env) (object : TiffEntryBase) (v : Value) : TiffEntryBase :=
  { object with tiffType := env.toTiffType v.typeId,
                count := env.valueCount v.typeId v.bytes.length,
                pValue := some v }

/-- Modelled from the spec: `TiffEntryBase::setData(pData, size, storage)` of
`tiffcomposite_int.cpp`, which is not under src/; records the raw byte span of
the entry. -/
def setData (object : TiffEntryBase) (pData size : Nat) : TiffEntryBase :=
  { object with pData := pData, size := size }

/-- Modelled from the spec: `TiffEntryBase::setOffset` of
`tiffcomposite_int.hpp`, which is not under src/; records the offset. -/
def setOffset (object : TiffEntryBase) (offset : Nat) : TiffEntryBase :=
  { object with offset := offset }

/-- Modelled from the spec: `TiffEntryBase::setIdx` of `tiffcomposite_int.hpp`,
which is not under src/; records the duplicate index. -/
def setIdx (object : TiffEntryBase) (idx : Int) : TiffEntryBase :=
  { object with idx := idx }

/-- Modelled from the spec: `TiffComponent::setStart` of `tiffcomposite_int.hpp`,
which is not under src/; sets the start address. -/
def setStart (object : TiffEntryBase) (p : Nat) : TiffEntryBase :=
  { object with start := p }

end TiffEntryBase

namespace TiffDirectory

/-- Modelled from the spec: the constructor `TiffDirectory(tag, group, hasNext)`
of `tiffcomposite_int.hpp`, which is not under src/; a directory without
children and without next link. -/
def new (tag : Nat) (group : IfdId) (hasNext : Bool) : TiffDirectory :=
  { tag := tag, group := group, start := 0, hasNext := hasNext, components_ := [],
    pNext_ := none }

/-- Modelled from the spec: `TiffComponent::setStart` of `tiffcomposite_int.hpp`,
which is not under src/; sets the start address. -/
def setStart (object : TiffDirectory) (p : Nat) : TiffDirectory :=
  { object with start := p }

/-- Modelled from the spec: `TiffDirectory::addChild` of
`tiffcomposite_int.cpp`, which is not under src/; children are kept in
insertion order. -/
def addChild (object : TiffDirectory) (tc : TiffEntryBase) : TiffDirectory :=
  { object with components_ := object.components_ ++ [tc] }

/-- Modelled from the spec: `TiffDirectory::addNext` of `tiffcomposite_int.cpp`,
which is not under src/; sets the next directory link. -/
def addNext (object : TiffDirectory) (tc : TiffEntryBase) : TiffDirectory :=
  { object with pNext_ := some tc }

end TiffDirectory

namespace TiffSubIfd

/-- Modelled from the spec: `TiffSubIfd::addChild` of `tiffcomposite_int.cpp`,
which is not under src/; child directories are kept in insertion order. -/
def addChild (object : TiffSubIfd) (td : TiffDirectory) : TiffSubIfd :=
  { object with ifds_ := object.ifds_ ++ [td] }

end TiffSubIfd

namespace Visit

/-- The triple (group, tag, duplicate index) of a visited entry node. -/
def key : Visit → Option (IfdId × Nat × Int)
  | .entry object => some (object.group, object.tag, object.idx)
  | .binaryElement object => some (object.entry.group, object.entry.tag, object.entry.idx)
  | _ => none

end Visit

namespace TiffReader

/-- The type id and type size `readTiffEntry` derives from the slot of the
entry: `toTypeId` of the type field, and a type size of `0` replaced by `1`. -/
def entryTypeId (env : Env) (r : TiffReader) (object : TiffEntryBase) : TypeId :=
  env.toTypeId (r.getUShort (object.start + 2) r.byteOrder) object.tag object.group

/-- The type size used by `readTiffEntry`. -/
def entryTypeSize (env : Env) (r : TiffReader) (object : TiffEntryBase) : Nat :=
  if env.typeSize (entryTypeId env r object) = 0 then 1 else env.typeSize (entryTypeId env r object)

/-- The count field of the slot of the entry. -/
def entryCount (r : TiffReader) (object : TiffEntryBase) : Nat :=
  r.getULong (object.start + 4) r.byteOrder

/-- The offset field of the slot of the entry. -/
def entryOffset (r : TiffReader) (object : TiffEntryBase) : Nat :=
  r.getULong (object.start + 8) r.byteOrder

/-- First bounds block of `readTiffEntry`: for `size > 4` with
`Safe::add(baseOffset(), offset) >= size_` the size becomes `0` (and the type
`undefined` for tag `0x2001` of group Sony1). Yields type id and size. -/
def truncateOutOfBounds (env : Env) (r : TiffReader) (object : TiffEntryBase)
    (typeId : TypeId) (size offset : Nat) : Except Exception (TypeId × Nat) :=
  if size > 4 then
    match Safe.add env r.baseOffset offset with
    | .error e => .error e
    | .ok s =>
      if s ≥ r.size_ then
        if object.tag = 0x2001 ∧ env.isSony1 object.group = true then .ok (env.undefined, 0)
        else .ok (typeId, 0)
      else .ok (typeId, size)
  else .ok (typeId, size)

/-- Second bounds block of `readTiffEntry`: for `size > 4` the data pointer is
moved to `pData_ + baseOffset() + offset`, and a size that passes `pLast_`
becomes `0`. Yields data pointer and size. -/
def locateData (env : Env) (r : TiffReader) (pData size offset : Nat) :
    Except Exception (Nat × Nat) :=
  if size > 4 then
    match Safe.add env r.baseOffset offset with
    | .error e => .error e
    | .ok s =>
      if s > r.pLast_ - r.pData_ then .error (.Error .kerCorruptedMetadata)
      else
        let pData := r.pData_ + r.baseOffset + offset
        if size > r.pLast_ - pData then .ok (pData, 0) else .ok (pData, size)
  else .ok (pData, size)

/-- The body of the `try` block of `TiffReader::readTiffEntry`. -/
def readTiffEntryBody (env : Env) (r : TiffReader) (object : TiffEntryBase) :
    Except Exception (TiffEntryBase × TiffReader) :=
  let p := object.start
  if p + 12 > r.pLast_ then .ok (object, r)
  else
    let typeId := entryTypeId env r object
    let typeSize := entryTypeSize env r object
    let count := entryCount r object
    if count ≥ 0x10000000 then .ok (object, r)
    else
      let p := p + 8
      if count > env.sizeMax / typeSize then .error (.Error .kerArithmeticOverflow)
      else
        let size := typeSize * count
        let offset := r.getULong p r.byteOrder
        match truncateOutOfBounds env r object typeId size offset with
        | .error e => .error e
        | .ok (typeId, size) =>
          match locateData env r p size offset with
          | .error e => .error e
          | .ok (pData, size) =>
            if env.valueCreate typeId = false then .error (.Error .kerCorruptedMetadata)
            else
              let v : Value := { typeId := typeId, bytes := r.bytes pData size,
                                 byteOrder := r.byteOrder }
              let object := ((object.setValue env v).setData pData size).setOffset offset
              let ir := r.nextIdx object.group
              .ok (object.setIdx ir.1, ir.2)

/-- `TiffReader::readTiffEntry`: the body, with `std::overflow_error` caught
and rethrown as `Error(kerCorruptedMetadata)`. -/
def readTiffEntry (env : Env) (r : TiffReader) (object : TiffEntryBase) :
    Except Exception (TiffEntryBase × TiffReader) :=
  match readTiffEntryBody env r object with
  | .error .overflow_error => .error (.Error .kerCorruptedMetadata)
  | res => res

end TiffReader

namespace TiffReader

/-- The entry loop of `visitDirectory` with `k` entries left and the read
position `p`: the directory with the children added, and the position after
the last slot, or `none` when a slot lies outside the buffer and
`visitDirectory` returns from inside the loop. -/
def visitDirectoryEntries (env : Env) (r : TiffReader) :
    Nat → Nat → TiffDirectory → TiffDirectory × Option Nat
  | 0, p, object => (object, some p)
  | k + 1, p, object =>
    if p + 12 > r.pLast_ then (object, none)
    else
      let tag := r.getUShort p r.byteOrder
      match env.create tag object.group with
      | some tc => visitDirectoryEntries env r k (p + 12) (object.addChild (tc.setStart p))
      | none => visitDirectoryEntries env r k (p + 12) object

/-- The part of `visitDirectory` after the entry loop: the next pointer at `p`.
The sum `baseOffset() + next` is an unchecked `size_t` addition, and the
pointer sum `pData_ + baseOffset() + next` yields the address modulo
`sizeMax + 1`. -/
def linkNext (env : Env) (r : TiffReader) (object : TiffDirectory) (p : Nat) :
    TiffDirectory :=
  if object.hasNext then
    if p + 4 > r.pLast_ then object
    else
      match (if r.getULong p r.byteOrder ≠ 0 then env.create env.tagNext object.group
             else none) with
      | some tc =>
        if (r.baseOffset + r.getULong p r.byteOrder) % (env.sizeMax + 1) > r.size_ then object
        else object.addNext (tc.setStart
          ((r.pData_ + r.baseOffset + r.getULong p r.byteOrder) % (env.sizeMax + 1)))
      | none => object
  else object

/-- `TiffReader::visitDirectory`. No statement of it throws; the result type is
that of the visit functions. -/
def visitDirectory (env : Env) (r : TiffReader) (object : TiffDirectory) :
    Except Exception (TiffDirectory × TiffReader) :=
  let p := object.start
  let cr := r.circularReference object.start object.group
  if cr.1 = true then .ok (object, cr.2)
  else
    let r := cr.2
    if p + 2 > r.pLast_ then .ok (object, r)
    else
      let n := r.getUShort p r.byteOrder
      let p := p + 2
      if n > 256 then .ok (object, r)
      else
        match visitDirectoryEntries env r n p object with
        | (object, none) => .ok (object, r)
        | (object, some p) => .ok (linkNext env r object p, r)

/-- `TiffReader::visitBinaryElement`. -/
def visitBinaryElement (env : Env) (r : TiffReader) (object : TiffBinaryElement) :
    Except Exception (TiffBinaryElement × TiffReader) :=
  let size := object.entry.size
  let bo := if object.elByteOrder = .invalidByteOrder then r.byteOrder else object.elByteOrder
  let typeId := env.toTypeId object.elTiffType object.entry.tag object.entry.group
  if env.valueCreate typeId = false then .error (.Error .kerCorruptedMetadata)
  else
    let v : Value := { typeId := typeId
                       bytes := (List.range size).map fun i => object.storage.getD i 0 % 256
                       byteOrder := bo }
    let entry := (object.entry.setValue env v).setOffset 0
    let ir := r.nextIdx entry.group
    .ok ({ object with entry := entry.setIdx ir.1 }, ir.2)

/-- One visit of a pass: the visited node after the call and the reader. -/
def visit (env : Env) (r : TiffReader) : Visit → Except Exception (Visit × TiffReader)
  | .entry object =>
    match readTiffEntry env r object with
    | .error e => .error e
    | .ok (object, r) => .ok (.entry object, r)
  | .binaryElement object =>
    match visitBinaryElement env r object with
    | .error e => .error e
    | .ok (object, r) => .ok (.binaryElement object, r)
  | .directory object =>
    match visitDirectory env r object with
    | .error e => .error e
    | .ok (object, r) => .ok (.directory object, r)
  | .mnState state => .ok (.mnState state, r.setMnState state)
  | .origState => .ok (.origState, r.setOrigState)

/-- A pass: the visits in order, each on the reader the previous one left; an
exception ends the pass. -/
def pass (env : Env) (r : TiffReader) : List Visit → Except Exception (List Visit × TiffReader)
  | [] => .ok ([], r)
  | v :: vs =>
    match visit env r v with
    | .error e => .error e
    | .ok (v, r) =>
      match pass env r vs with
      | .error e => .error e
      | .ok (vs, r) => .ok (v :: vs, r)

/-- The group in which a visit assigns a duplicate index when it returns:
`readTiffEntry` assigns one unless it skips the entry (slot outside the
buffer, or count of `0x10000000` or more), `visitBinaryElement` always does,
the other visits never do. -/
def assigns (r : TiffReader) : Visit → Option IfdId
  | .entry object =>
    if object.start + 12 > r.pLast_ ∨ entryCount r object ≥ 0x10000000 then none
    else some object.group
  | .binaryElement object => some object.entry.group
  | _ => none

/-- The number of index assignments in group `g` during a pass from `r`. -/
def assignCount (env : Env) (g : IfdId) : TiffReader → List Visit → Nat
  | _, [] => 0
  | r, v :: vs =>
    (if assigns r v = some g then 1 else 0) +
      match visit env r v with
      | .ok (_, r') => assignCount env g r' vs
      | .error _ => 0

end TiffReader

/-! ## The tree and the finder -/

namespace TiffComponent

mutual
/-- Equality of components is decidable. -/
def decEq : (a b : TiffComponent) → Decidable (a = b)
  | .entry o1 c1, .entry o2 c2 =>
    match (inferInstance : Decidable (o1 = o2)), decEqList c1 c2 with
    | isTrue h1, isTrue h2 => isTrue (by rw [h1, h2])
    | isFalse h1, _ => isFalse (by intro h; injection h with h3 h4; exact h1 h3)
    | _, isFalse h2 => isFalse (by intro h; injection h with h3 h4; exact h2 h4)
  | .directory t1 g1 c1, .directory t2 g2 c2 =>
    match (inferInstance : Decidable (t1 = t2)), (inferInstance : Decidable (g1 = g2)),
      decEqList c1 c2 with
    | isTrue h1, isTrue h2, isTrue h3 => isTrue (by rw [h1, h2, h3])
    | isFalse h1, _, _ => isFalse (by intro h; injection h with h3 h4 h5; exact h1 h3)
    | _, isFalse h1, _ => isFalse (by intro h; injection h with h3 h4 h5; exact h1 h4)
    | _, _, isFalse h1 => isFalse (by intro h; injection h with h3 h4 h5; exact h1 h5)
  | .entry _ _, .directory _ _ _ => isFalse (by intro h; cases h)
  | .directory _ _ _, .entry _ _ => isFalse (by intro h; cases h)
/-- Equality of lists of components is decidable. -/
def decEqList : (a b : List TiffComponent) → Decidable (a = b)
  | [], [] => isTrue rfl
  | [], _ :: _ => isFalse (by intro h; cases h)
  | _ :: _, [] => isFalse (by intro h; cases h)
  | x :: xs, y :: ys =>
    match decEq x y, decEqList xs ys with
    | isTrue h1, isTrue h2 => isTrue (by rw [h1, h2])
    | isFalse h1, _ => isFalse (by intro h; injection h with h3 h4; exact h1 h3)
    | _, isFalse h2 => isFalse (by intro h; injection h with h3 h4; exact h2 h4)
end

instance : DecidableEq TiffComponent := decEq

/-- `TiffComponent::tag`. -/
def tag : TiffComponent → Nat
  | .entry object _ => object.entry.tag
  | .directory tag _ _ => tag

/-- `TiffComponent::group`. -/
def group : TiffComponent → IfdId
  | .entry object _ => object.entry.group
  | .directory _ group _ => group

/-- The sub-components of a component, in traversal order. -/
def children : TiffComponent → List TiffComponent
  | .entry _ children => children
  | .directory _ _ children => children

mutual
/-- The components of a tree in depth-first pre-order: the component, then
the pre-order of each of its sub-components in turn. -/
def preorder : TiffComponent → List TiffComponent
  | .entry object children => .entry object children :: preorderList children
  | .directory tag group children => .directory tag group children :: preorderList children
/-- The pre-order of a list of trees, one after the other. -/
def preorderList : List TiffComponent → List TiffComponent
  | [] => []
  | c :: cs => preorder c ++ preorderList cs
end

end TiffComponent

/-- The state of a `TiffFinder`: the key, the result (`none` for the null
pointer) and the traversal flag `go_[geTraverse]`. -/
structure TiffFinder where
  tag_ : Nat
  group_ : IfdId
  tiffComponent_ : Option TiffComponent
  goTraverse : Bool
  deriving DecidableEq, Repr

namespace TiffFinder

/-- Modelled from the spec: the constructor `TiffFinder(tag, group)` of
`tiffvisitor_int.hpp`, which is not under src/; a finder for the key without
result, with the traversal flag set as `TiffVisitor` sets all flags. -/
def new (tag : Nat) (group : IfdId) : TiffFinder :=
  { tag_ := tag, group_ := group, tiffComponent_ := none, goTraverse := true }

/-- `TiffFinder::init`. -/
def init (_f : TiffFinder) (tag : Nat) (group : IfdId) : TiffFinder :=
  { tag_ := tag, group_ := group, tiffComponent_ := none, goTraverse := true }

/-- `TiffFinder::findObject`, which every visit function of the finder calls
with the visited component. -/
def findObject (f : TiffFinder) (object : TiffComponent) : TiffFinder :=
  if object.tag = f.tag_ ∧ object.group = f.group_ then
    { f with tiffComponent_ := some object, goTraverse := false }
  else f

/-- `TiffFinder::result`. -/
def result (f : TiffFinder) : Option TiffComponent := f.tiffComponent_

mutual
/-- Modelled from the spec: `TiffComponent::accept` and the `doAccept` of the
component classes, of `tiffcomposite_int.cpp`, which is not under src/, for a
finder: depth-first, pre-order; a component is visited only while the
traversal flag is set, and then its sub-components are accepted in order. -/
def accept (f : TiffFinder) : TiffComponent → TiffFinder
  | .entry object children =>
    if f.goTraverse = true then
      acceptList (f.findObject (.entry object children)) children
    else f
  | .directory tag group children =>
    if f.goTraverse = true then
      acceptList (f.findObject (.directory tag group children)) children
    else f
/-- The loop of `doAccept` over the sub-components, which ends when the
traversal flag is cleared. -/
def acceptList (f : TiffFinder) : List TiffComponent → TiffFinder
  | [] => f
  | c :: cs => if f.goTraverse = true then acceptList (accept f c) cs else f
end

/-- The finder idiom of the source: a finder constructed for the key and
accepted by the root, and its result. -/
def find (pRoot : TiffComponent) (tag : Nat) (group : IfdId) : Option TiffComponent :=
  (accept (new tag group) pRoot).result

/-- Whether tag and group of a component both equal the key of the finder. -/
def isMatch (tag : Nat) (group : IfdId) (c : TiffComponent) : Bool :=
  decide (c.tag = tag ∧ c.group = group)

end TiffFinder

/-! ## Metadata records and the decoder -/

/-- Modelled from the spec: `ExifKey` of `tags.cpp`, which is not under src/; the
key of a metadata record: group name, tag name, tag number and duplicate
index. The key string `Exif.<group name>.<tag name>` is represented by the
pair of the two names. -/
structure ExifKey where
  groupName : String
  tagName : String
  tag : Nat
  idx : Int
  deriving DecidableEq, Repr

/-- Modelled from the spec: `Exifdatum` of `exif.cpp`, which is not under src/; a
metadata record, a key with a value (`none` while no value is set). -/
structure Exifdatum where
  key : ExifKey
  value : Option Value
  deriving DecidableEq, Repr

/-- Modelled from the spec: `ExifData` of `exif.cpp`, which is not under src/; the
ordered collection of metadata records. -/
abbrev ExifData := List Exifdatum

/-- An entry of a tag table (`TagInfo` of `tags.hpp`): tag number and name. -/
structure TagInfo where
  tag_ : Nat
  name_ : String
  deriving DecidableEq, Repr

/-- A `TiffIfdMakernote`: its offset in the buffer and its byte order. -/
structure TiffIfdMakernote where
  mnOffset_ : Nat
  byteOrder : ByteOrder
  deriving DecidableEq, Repr

/-- The functions an entry of the decoder registry can name: `DecoderFct` is a
pointer to a member function of `TiffDecoder` that takes a `const
TiffEntryBase*`; `decodeTiffEntry` itself, which consults the registry, is not
among the registered ones. -/
inductive DecoderFct where
  | decodeStdTiffEntry
  | decodeCanonAFInfo
  | decodeXmp
  | decodeIptc
  deriving DecidableEq, Repr

/-- The collaborators of the decoder and of the encoder that are declared
outside `tiffvisitor_int.cpp`, on top of those of the reader. -/
structure ExifEnv extends Env where
  /-- `groupName(group)`. -/
  groupName : IfdId → String
  /-- The tag name in the key `ExifKey(tag, groupName)`. -/
  tagName : Nat → String → String
  /-- The tag number of the key `ExifKey("Exif.<groupName>.<tagName>")`. -/
  tagNumber : String → String → Nat
  /-- The value a record holds after `Exifdatum::operator=(const uint32_t&)`. -/
  uint32Value : Nat → Value
  /-- The value a record holds after `Exifdatum::operator=(const std::string&)`. -/
  textValue : String → Value
  /-- The value `Value::create(typeId)` holds after `read` of the text of the
  given numbers, each written as a blank and the number. -/
  numbersValue : TypeId → List Int → Value
  /-- The type id `unsignedShort`. -/
  unsignedShort : TypeId
  /-- The type id `signedShort`. -/
  signedShort : TypeId
  /-- The tag table `ExifTags::tagList("Canon")`, up to its end marker. -/
  canonTags : List TagInfo
  /-- `Value::size()`, the serialized size of a value. -/
  valueSize : Value → Nat
  /-- `Value::toString()`. -/
  valueToString : Value → String
  /-- `Value::sizeDataArea()`. -/
  sizeDataArea : Value → Nat
  /-- The components `toUint32(i)` of a value, for `i` below `count()`. -/
  toUint32s : Value → List Nat
  /-- `pHeader_->isImageTag(tag, group, pPrimaryGroups_)`. -/
  isImageTag : Nat → IfdId → Bool
  /-- The registry `findEncoderFct_(make, tag, group)`. -/
  findEncoderFct : String → Nat → IfdId → Option EncoderFct
  /-- A cipher function applied to a tag and bytes: the bytes of the buffer it
  returns, none for an empty buffer. -/
  crypt : CryptFct → Nat → List Nat → List Nat
  /-- Whether `TiffBinaryArray::initialize(pRoot_)` returns true. -/
  initOk : TiffNode → Bool
  /-- Whether `TiffBinaryArray::updOrigDataBuf` can install the bytes as the
  stored bytes of the array (its return value). -/
  canInstall : TiffNode → List Nat → Bool
  /-- The group `IfdId::ifd0Id`. -/
  ifd0Id : IfdId
  /-- The TIFF type `ttUndefined`. -/
  ttUndefined : TiffType
  /-- `ArrayCfg::tagStep()`, the size of the default element. -/
  tagStep : ArrayCfg → Nat
  /-- `TiffBinaryArray::addElement(idx, def)`: the element it constructs and
  adds as the last child of the array, and the size it returns. -/
  addElement : TiffNode → Nat → ArrayDef → TiffBinaryElement × Nat
  /-- The registry `findDecoderFct_(make, tag, group)`. -/
  findDecoderFct : String → Nat → IfdId → Option DecoderFct
  /-- The return value of `IptcParser::decode` for a block, `0` for success. -/
  iptcDecode : List Nat → Int
  /-- `Photoshop::locateIptcIrb` for a block: the return value, `0` for found,
  the position of the record in the block, the size of its header and the
  size of its data. -/
  locateIptcIrb : List Nat → Int × Nat × Nat × Nat
  /-- The return value of `XmpParser::decode` for a packet, `0` for success. -/
  xmpDecode : List Nat → Int
  /-- The function `groupId(groupName)`. -/
  groupId : String → IfdId
  /-- The group `IfdId::mnId`. -/
  mnId : IfdId
  /-- The group `IfdId::exifId`. -/
  exifId : IfdId
  /-- The call `pRootDir->addPath(tag, TiffCreator::getPath(tag, group, root),
  pRootDir)`: the tree with the path to the tag added, and the position of the
  component it returns, as the indices of the sub-components to follow from
  the root; none for a null pointer. -/
  addPath : TiffComponent → Nat → IfdId → Nat → TiffComponent × Option (List Nat)
  /-- The type id `unsignedLong`. -/
  unsignedLong : TypeId
  /-- The type id `unsignedByte`. -/
  unsignedByte : TypeId
  /-- The bytes `Value::copy(buf, byteOrder)` writes. -/
  valueCopy : Value → ByteOrder → List Nat
  /-- The bytes of the buffer `IptcParser::encode(iptcData)` returns, for IPTC
  data represented as in the decoder. -/
  iptcEncode : List (List Nat) → List Nat
  /-- The bytes of the buffer `Photoshop::setIptcIrb` returns for the bytes of
  an image resource block and IPTC data. -/
  setIptcIrb : List Nat → List (List Nat) → List Nat
  /-- Whether `EXV_HAVE_XMP_TOOLKIT` is defined. -/
  haveXmpToolkit : Bool
  /-- The packet `encodeXmp` obtains from XMP data, represented as in the
  decoder: `xmpData_.xmpPacket()` when `xmpData_.usePacket()`, else the packet
  `XmpParser::encode` writes. -/
  xmpPacket : List (List Nat) → List Nat

/-- The state of a `TiffDecoder`: the output collection, the camera make and
the flag of `decodeIptc`. The IPTC and the XMP data, which only the packet
parsers write, are represented by the blocks handed to `IptcParser::decode`
and the packets handed to `XmpParser::decode`, in order. -/
structure TiffDecoder where
  exifData_ : ExifData
  make_ : String
  decodedIptc_ : Bool
  iptcData_ : List (List Nat) := []
  xmpData_ : List (List Nat) := []
  deriving DecidableEq, Repr

namespace ExifKey

/-- Modelled from the spec: `ExifKey::key()` of `tags.cpp`, which is not under
src/; the key string, as the pair of group name and tag name. -/
def key (k : ExifKey) : String × String := (k.groupName, k.tagName)

/-- Modelled from the spec: the constructor `ExifKey(tag, groupName)` of
`tags.cpp`, which is not under src/; the key of a tag of a group, with index 0. -/
def ofTag (penv : ExifEnv) (tag : Nat) (groupName : String) : ExifKey :=
  { groupName := groupName, tagName := penv.tagName tag groupName, tag := tag, idx := 0 }

/-- Modelled from the spec: the constructor `ExifKey(key)` of `tags.cpp`, which is
not under src/, for the key string `Exif.<groupName>.<tagName>`. -/
def ofName (penv : ExifEnv) (groupName tagName : String) : ExifKey :=
  { groupName := groupName, tagName := tagName, tag := penv.tagNumber groupName tagName,
    idx := 0 }

/-- Modelled from the spec: `ExifKey::setIdx` of `tags.cpp`, which is not under
src/; sets the duplicate index. -/
def setIdx (k : ExifKey) (idx : Int) : ExifKey := { k with idx := idx }

end ExifKey

namespace ExifData

/-- Modelled from the spec: `ExifData::add(key, pValue)` of `exif.cpp`, which is
not under src/; appends a record with a copy of the value to the collection. -/
def add (d : ExifData) (key : ExifKey) (pValue : Option Value) : ExifData :=
  d ++ [{ key := key, value := pValue }]

/-- The position of the first record that satisfies `p` (`std::find_if` from
`begin()`); `none` stands for `end()`. -/
def findPos (p : Exifdatum → Bool) : ExifData → Option Nat
  | [] => none
  | x :: xs => if p x = true then some 0 else (findPos p xs).map (· + 1)

/-- Modelled from the spec: `ExifData::findKey` of `exif.cpp`, which is not under
src/; the position of the first record with the key string of `key`. -/
def findKey (d : ExifData) (key : ExifKey) : Option Nat :=
  findPos (fun x => decide (x.key.key = key.key)) d

/-- The first record with the key string of `key`. -/
def lookup (d : ExifData) (key : ExifKey) : Option Exifdatum :=
  d.find? fun x => decide (x.key.key = key.key)

/-- Modelled from the spec: `ExifData::operator[]` followed by an assignment to
the record, of `exif.cpp`, which is not under src/; the first record with the
key string of `key` takes the value, and when there is none a record with the
key and the value is appended. -/
def assign (key : ExifKey) (v : Value) : ExifData → ExifData
  | [] => [{ key := key, value := some v }]
  | x :: xs =>
    if x.key.key = key.key then { x with value := some v } :: xs
    else x :: assign key v xs

end ExifData

namespace Value

/-- Modelled from the spec: `Value::toInt64(i)` of an `unsignedShort` value, of
`value.hpp`, which is not under src/; the `i`-th 16-bit word of the value in
the byte order it was read with. -/
def ushortAt (v : Value) (i : Nat) : Nat :=
  if v.byteOrder = .littleEndian then
    v.bytes.getD (2 * i + 1) 0 % 256 * 256 + v.bytes.getD (2 * i) 0 % 256
  else v.bytes.getD (2 * i) 0 % 256 * 256 + v.bytes.getD (2 * i + 1) 0 % 256

end Value

/-- The conversion of an integer value to `int16_t`. -/
def toInt16 (n : Nat) : Int :=
  if n % 65536 < 32768 then (n % 65536 : Nat) else ((n % 65536 : Nat) : Int) - 65536

/-- The function `findTag`: the entry of the tag in a tag table that ends with
the marker `0xffff`. -/
def findTag : List TagInfo → Nat → Option TagInfo
  | [], _ => none
  | t :: rest, tag =>
    if t.tag_ ≠ 0xffff ∧ t.tag_ ≠ tag then findTag rest tag
    else if t.tag_ ≠ 0xffff then some t else none

namespace TiffDecoder

/-- `TiffDecoder::decodeStdTiffEntry`. -/
def decodeStdTiffEntry (penv : ExifEnv) (dec : TiffDecoder) (object : TiffEntryBase) :
    TiffDecoder :=
  let key := (ExifKey.ofTag penv object.tag (penv.groupName object.group)).setIdx object.idx
  { dec with exifData_ := dec.exifData_.add key object.pValue }

/-- `TiffDecoder::visitIfdMakernote`. -/
def visitIfdMakernote (penv : ExifEnv) (dec : TiffDecoder) (object : TiffIfdMakernote) :
    TiffDecoder :=
  let d := ExifData.assign (ExifKey.ofName penv "MakerNote" "Offset")
    (penv.uint32Value (object.mnOffset_ % 4294967296)) dec.exifData_
  match object.byteOrder with
  | .littleEndian =>
    { dec with exifData_ :=
        ExifData.assign (ExifKey.ofName penv "MakerNote" "ByteOrder") (penv.textValue "II") d }
  | .bigEndian =>
    { dec with exifData_ :=
        ExifData.assign (ExifKey.ofName penv "MakerNote" "ByteOrder") (penv.textValue "MM") d }
  | .invalidByteOrder => { dec with exifData_ := d }

/-- The table `records` of `decodeCanonAFInfo`: tag, number of words, signed. -/
def afRecords (nPoints nMasks : Nat) : List (Nat × Nat × Bool) :=
  [(0x2600, 1, true), (0x2601, 1, true), (0x2602, 1, true), (0x2603, 1, true),
   (0x2604, 1, true), (0x2605, 1, true), (0x2606, 1, true), (0x2607, 1, true),
   (0x2608, nPoints, true), (0x2609, nPoints, true), (0x260a, nPoints, true),
   (0x260b, nPoints, true), (0x260c, nMasks, false), (0x260d, nMasks, false),
   (0x260e, nMasks, false)]

/-- The loop "check we have enough data" of `decodeCanonAFInfo` over the rest
of the records, with the running sum `count`, a `uint16_t`, and `size` the
number of words: whether the function goes on. -/
def enoughData (size : Nat) : List (Nat × Nat × Bool) → Nat → Bool
  | [], _ => true
  | (_, sz, _) :: rest, count =>
    if (count + sz) % 65536 > size then false else enoughData size rest ((count + sz) % 65536)

/-- The second loop of `decodeCanonAFInfo` over the rest of the records, with
the read position `nStart`; `size` is the number of words of the array and
`ints` and `uint` give its words. Reading a word at a position that is not
below `size` is the `std::out_of_range` of `at()`. -/
def splitRecords (penv : ExifEnv) (size : Nat) (ints : Nat → Int) (uint : Nat → Nat)
    (groupName : String) :
    List (Nat × Nat × Bool) → Nat → ExifData → Except Exception ExifData
  | [], _, d => .ok d
  | (tag, sz, bSigned) :: rest, nStart, d =>
    match findTag penv.canonTags tag with
    | some pTag =>
      if sz > 0 ∧ nStart + sz > size then .error .out_of_range
      else
        let v :=
          if bSigned = true then
            penv.numbersValue penv.signedShort ((List.range sz).map fun k => ints (nStart + k))
          else
            penv.numbersValue penv.unsignedShort
              ((List.range sz).map fun k => (uint (nStart + k) : Int))
        splitRecords penv size ints uint groupName rest (nStart + sz)
          (ExifData.assign (ExifKey.ofName penv groupName pTag.name_) v d)
    | none => splitRecords penv size ints uint groupName rest nStart d

/-- The value `decodeCanonAFInfo` creates from the `sz` words from position `o`
on, signed or unsigned. -/
def afValue (penv : ExifEnv) (ints : Nat → Int) (uint : Nat → Nat) (o sz : Nat)
    (bSigned : Bool) : Value :=
  if bSigned = true then
    penv.numbersValue penv.signedShort ((List.range sz).map fun k => ints (o + k))
  else penv.numbersValue penv.unsignedShort ((List.range sz).map fun k => (uint (o + k) : Int))

/-- The sub-records by the words of the specification, as names with values:
a record of the layout whose tag is in the tag table is made of its `sz` words
from position `o`, the sum of the lengths of all records that precede it in
the layout. -/
def subRecordsLayout (penv : ExifEnv) (ints : Nat → Int) (uint : Nat → Nat) :
    List (Nat × Nat × Bool) → Nat → List (String × Value)
  | [], _ => []
  | (tag, sz, bSigned) :: rest, o =>
    (match findTag penv.canonTags tag with
     | some pTag => [(pTag.name_, afValue penv ints uint o sz bSigned)]
     | none => []) ++ subRecordsLayout penv ints uint rest (o + sz)

/-- The sub-records with positions that count emitted records only: a record
of the layout whose tag is in the tag table is made of its `sz` words from
position `o`, the sum of the lengths of the preceding records of the layout
whose tag is in the tag table. -/
def subRecordsEmitted (penv : ExifEnv) (ints : Nat → Int) (uint : Nat → Nat) :
    List (Nat × Nat × Bool) → Nat → List (String × Value)
  | [], _ => []
  | (tag, sz, bSigned) :: rest, o =>
    match findTag penv.canonTags tag with
    | some pTag =>
      (pTag.name_, afValue penv ints uint o sz bSigned) ::
        subRecordsEmitted penv ints uint rest (o + sz)
    | none => subRecordsEmitted penv ints uint rest o

/-- `TiffDecoder::decodeCanonAFInfo`. The source is called for entries with a
value only (`decodeTiffEntry`); for an entry without value, where it would
dereference a null pointer, the model stops after the generic record. -/
def decodeCanonAFInfo (penv : ExifEnv) (dec : TiffDecoder) (object : TiffEntryBase) :
    Except Exception TiffDecoder :=
  let dec := decodeStdTiffEntry penv dec object
  match object.pValue with
  | none => .ok dec
  | some v =>
    let count := penv.valueCount v.typeId v.bytes.length
    if count < 3 ∨ v.typeId ≠ penv.unsignedShort then .ok dec
    else if toInt16 (v.ushortAt 0) ≠ toInt16 count * 2 then .ok dec
    else
      let nPoints := v.ushortAt 2
      let nMasks := (nPoints + 15) / 16 % 65536
      if enoughData count (afRecords nPoints nMasks) 0 = false then .ok dec
      else
        match splitRecords penv count (fun i => toInt16 (v.ushortAt i)) (fun i => v.ushortAt i)
            (penv.groupName object.group) (afRecords nPoints nMasks) 0 dec.exifData_ with
        | .error e => .error e
        | .ok d => .ok { dec with exifData_ := d }

/-- `TiffDecoder::getObjData`: data pointer, size and the bytes at the data
pointer, which are those given unless `object` has the tag and the group or
the finder finds an entry with them in the tree; `none` for `object` is the
null pointer. -/
def getObjData (pRoot : TiffComponent) (pData size : Nat) (bytes : List Nat) (tag : Nat)
    (group : IfdId) (object : Option TiffNode) : Nat × Nat × List Nat :=
  match (match object with
         | some o => if o.entry.tag = tag ∧ o.entry.group = group then some o else none
         | none => none) with
  | some o => (o.entry.pData, o.entry.size, o.data)
  | none =>
    match TiffFinder.find pRoot tag group with
    | some (.entry te _) => (te.entry.pData, te.entry.size, te.data)
    | _ => (pData, size, bytes)

/-- `TiffDecoder::decodeXmp`; the byte `60` is the character `<`. -/
def decodeXmp (penv : ExifEnv) (pRoot : TiffComponent) (dec : TiffDecoder) (object : TiffNode) :
    TiffDecoder :=
  let dec := decodeStdTiffEntry penv dec object.entry
  let d := getObjData pRoot 0 0 [] 0x02bc penv.ifd0Id (some object)
  if d.1 ≠ 0 then
    let xmpPacket := d.2.2.take d.2.1
    let xmpPacket :=
      match xmpPacket.findIdx? fun b => b == 60 with
      | some idx => if idx > 0 then xmpPacket.drop idx else xmpPacket
      | none => xmpPacket
    { dec with xmpData_ := dec.xmpData_ ++ [xmpPacket] }
  else dec

/-- The first choice of `decodeIptc`, the block of tag `0x83bb` of IFD0: the
decoder, and whether `decodeIptc` returns after it. -/
def decodeIptcNaa (penv : ExifEnv) (pRoot : TiffComponent) (dec : TiffDecoder)
    (object : TiffNode) : TiffDecoder × Bool :=
  let d := getObjData pRoot 0 0 [] 0x83bb penv.ifd0Id (some object)
  if d.1 ≠ 0 then
    ({ dec with iptcData_ := dec.iptcData_ ++ [d.2.2.take d.2.1] },
      decide (penv.iptcDecode (d.2.2.take d.2.1) = 0))
  else (dec, false)

/-- The second choice of `decodeIptc`, the block of tag `0x8649` of IFD0. -/
def decodeIptcIrb (penv : ExifEnv) (pRoot : TiffComponent) (dec : TiffDecoder)
    (object : TiffNode) : TiffDecoder :=
  let d := getObjData pRoot 0 0 [] 0x8649 penv.ifd0Id (some object)
  if d.1 ≠ 0 then
    let loc := penv.locateIptcIrb (d.2.2.take d.2.1)
    if loc.1 ≠ 0 then dec
    else
      { dec with iptcData_ := dec.iptcData_ ++
          [(((d.2.2.take d.2.1).drop (loc.2.1 + loc.2.2.1)).take loc.2.2.2)] }
  else dec

/-- `TiffDecoder::decodeIptc`. -/
def decodeIptc (penv : ExifEnv) (pRoot : TiffComponent) (dec : TiffDecoder) (object : TiffNode) :
    TiffDecoder :=
  let dec := decodeStdTiffEntry penv dec object.entry
  if dec.decodedIptc_ = true then dec
  else
    let r := decodeIptcNaa penv pRoot { dec with decodedIptc_ := true } object
    if r.2 = true then r.1 else decodeIptcIrb penv pRoot r.1 object

/-- `TiffDecoder::decodeTiffEntry`. -/
def decodeTiffEntry (penv : ExifEnv) (pRoot : TiffComponent) (dec : TiffDecoder)
    (object : TiffNode) : Except Exception TiffDecoder :=
  match object.entry.pValue with
  | none => .ok dec
  | some _ =>
    match penv.findDecoderFct dec.make_ object.entry.tag object.entry.group with
    | some .decodeStdTiffEntry => .ok (decodeStdTiffEntry penv dec object.entry)
    | some .decodeCanonAFInfo => decodeCanonAFInfo penv dec object.entry
    | some .decodeXmp => .ok (decodeXmp penv pRoot dec object)
    | some .decodeIptc => .ok (decodeIptc penv pRoot dec object)
    | none => .ok dec

end TiffDecoder

/-! ## The encoder -/

/-- The state of a `TiffEncoder`: the collection, the dirty flag, the traversal
flag `go_[geTraverse]`, the mode `del_` in which consumed records are erased,
the active and the original byte order, and the source tree of `add`. -/
structure TiffEncoder where
  exifData_ : ExifData
  dirty_ : Bool
  goTraverse : Bool
  del_ : Bool
  byteOrder_ : ByteOrder
  origByteOrder_ : ByteOrder
  isNewImage_ : Bool
  writeMethod_ : WriteMethod
  make_ : String
  pSourceTree_ : Option TiffComponent
  deriving DecidableEq, Repr

/-- One call of a visit function of the encoder during a pass over the tree;
`component` stands for `visitEntry`, `visitDataEntry`, `visitImageEntry`,
`visitSizeEntry` and `visitSubIfd`, which all call `encodeTiffComponent`. -/
inductive EncVisit where
  | component (object : TiffNode)
  | mnEntry (object : TiffNode)
  | ifdMakernote (object : TiffIfdMakernote)
  | ifdMakernoteEnd
  | binaryArray (object : TiffNode)
  | binaryArrayEnd (object : TiffNode)
  | binaryElement (object : TiffNode)
  deriving DecidableEq, Repr

/-- The function `stringToByteOrder`. -/
def stringToByteOrder (val : String) : ByteOrder :=
  if val = "II" then .littleEndian
  else if val = "MM" then .bigEndian
  else .invalidByteOrder

/-- The predicate `FindExifdatum2(group, idx)`: index and group name match. -/
def FindExifdatum2 (penv : ExifEnv) (group : IfdId) (idx : Int) (md : Exifdatum) : Bool :=
  decide (idx = md.key.idx ∧ md.key.groupName = penv.groupName group)

namespace Exifdatum

/-- Modelled from the spec: `Exifdatum::size()` of `exif.cpp`, which is not under
src/; the serialized size of the value of the record, 0 without a value. -/
def size (penv : ExifEnv) (d : Exifdatum) : Nat :=
  match d.value with
  | some v => penv.valueSize v
  | none => 0

/-- Modelled from the spec: `Exifdatum::toString()` of `exif.cpp`, which is not
under src/; the text of the value of the record, empty without a value. -/
def toString (penv : ExifEnv) (d : Exifdatum) : String :=
  match d.value with
  | some v => penv.valueToString v
  | none => ""

end Exifdatum

namespace TiffIfdMakernote

/-- Modelled from the spec: `TiffIfdMakernote::setByteOrder` of
`tiffcomposite_int.cpp`, which is not under src/; sets the byte order of the
makernote. -/
def setByteOrder (object : TiffIfdMakernote) (bo : ByteOrder) : TiffIfdMakernote :=
  { object with byteOrder := bo }

end TiffIfdMakernote

namespace TiffEntryBase

/-- Modelled from the spec: `TiffEntryBase::updateValue` of
`tiffcomposite_int.cpp`, which is not under src/; without a value nothing
changes; a value larger than the storage gets storage of its size, otherwise
the storage is overwritten and the size stays; the node takes the value. -/
def updateValue (penv : ExifEnv) (object : TiffEntryBase) (value : Option Value)
    (_byteOrder : ByteOrder) : TiffEntryBase :=
  match value with
  | none => object
  | some v =>
    (if penv.valueSize v > object.size then
      { object with size := penv.valueSize v } else object).setValue penv.toEnv v

/-- Modelled from the spec: `TiffEntryBase::setValue` of `tiffcomposite_int.cpp`,
which is not under src/, for a pointer that may be null: without a value
nothing changes. -/
def setValuePtr (penv : ExifEnv) (object : TiffEntryBase) (value : Option Value) :
    TiffEntryBase :=
  match value with
  | none => object
  | some v => object.setValue penv.toEnv v

end TiffEntryBase

namespace TiffNode

/-- An entry node of the given dynamic type without further members set. -/
def ofEntry (kind : TiffKind) (entry : TiffEntryBase) : TiffNode :=
  { kind := kind, entry := entry, mn_ := false, szTag := 0, szGroup := 0, sizeDataArea_ := 0,
    strips_ := [], elByteOrder := .invalidByteOrder, cfg := none, decoded := false, data := [],
    origData_ := [] }

end TiffNode

namespace TiffEncoder

/-- An encoder with the given collection and camera make whose other members
are as the member initialisers of the constructor `TiffEncoder::TiffEncoder`
leave them: active and original byte order are the byte order of the header.
The constructor itself, whose body changes the collection (`encodeIptc`,
`encodeXmp`) and finds the make, is `construct`. Modelled from the spec for the
members the constructor does not name, whose initial values are declared in
`tiffvisitor_int.hpp`, which is not under src/: the encoder is not dirty,
traverses, erases consumed records and writes non-intrusively, and has no
source tree. -/
def new (exifData : ExifData) (headerByteOrder : ByteOrder) (isNewImage : Bool)
    (make : String) : TiffEncoder :=
  { exifData_ := exifData, dirty_ := false, goTraverse := true, del_ := true,
    byteOrder_ := headerByteOrder, origByteOrder_ := headerByteOrder,
    isNewImage_ := isNewImage, writeMethod_ := .wmNonIntrusive, make_ := make,
    pSourceTree_ := none }

/-- `TiffEncoder::setDirty(flag)`. -/
def setDirty (e : TiffEncoder) (flag : Bool) : TiffEncoder :=
  { e with dirty_ := flag, goTraverse := !flag }

/-- `TiffEncoder::dirty`. -/
def dirty (e : TiffEncoder) : Bool := e.dirty_ || !e.exifData_.isEmpty

/-- `TiffEncoder::byteOrder`. -/
def byteOrder (e : TiffEncoder) : ByteOrder := e.byteOrder_

/-- `TiffEncoder::writeMethod`. -/
def writeMethod (e : TiffEncoder) : WriteMethod := e.writeMethod_

/-- `TiffEncoder::isImageTag`. -/
def isImageTag (penv : ExifEnv) (e : TiffEncoder) (tag : Nat) (group : IfdId) : Bool :=
  !e.isNewImage_ && penv.isImageTag tag group

/-- `TiffEncoder::encodeTiffEntryBase`. -/
def encodeTiffEntryBase (penv : ExifEnv) (e : TiffEncoder) (object : TiffEntryBase)
    (datum : Exifdatum) : TiffEncoder × TiffEntryBase :=
  let e := if datum.size penv > object.size then e.setDirty true else e
  (e, object.updateValue penv datum.value e.byteOrder)

/-- `TiffEncoder::encodeOffsetEntry`. -/
def encodeOffsetEntry (penv : ExifEnv) (e : TiffEncoder) (object : TiffEntryBase)
    (datum : Exifdatum) : TiffEncoder × TiffEntryBase :=
  let newSize := datum.size penv
  if newSize > object.size then
    let e := e.setDirty true
    (e, object.updateValue penv datum.value e.byteOrder)
  else (e, object.setValuePtr penv datum.value)

/-- `TiffEncoder::encodeDataEntry`; the write of the data area into the buffer
is not part of the state. Without a value, where the source would dereference
a null pointer, the model stops after `encodeOffsetEntry`. -/
def encodeDataEntry (penv : ExifEnv) (e : TiffEncoder) (object : TiffNode)
    (datum : Exifdatum) : TiffEncoder × TiffNode :=
  let r := encodeOffsetEntry penv e object.entry datum
  let e := r.1
  let object := { object with entry := r.2 }
  if e.dirty_ = false ∧ e.writeMethod = .wmNonIntrusive then
    match object.entry.pValue with
    | none => (e, object)
    | some v =>
      if object.sizeDataArea_ < penv.sizeDataArea v then (e.setDirty true, object)
      else (e, object)
  else (e, object)

/-- The strips `encodeImageEntry` takes from the source tree: those of the
result of a finder for the tag and group, if there is a source tree and the
result is an image entry. -/
def sourceStrips (e : TiffEncoder) (tag : Nat) (group : IfdId) : Option (List (Nat × Nat)) :=
  match e.pSourceTree_ with
  | none => none
  | some pSourceTree =>
    match TiffFinder.find pSourceTree tag group with
    | some (.entry ti _) => if ti.kind = .imageEntry then some ti.strips_ else none
    | _ => none

/-- `TiffEncoder::encodeImageEntry`. Without a value, where the source would
dereference a null pointer, the model stops after `encodeOffsetEntry`. -/
def encodeImageEntry (penv : ExifEnv) (e : TiffEncoder) (object : TiffNode)
    (datum : Exifdatum) : TiffEncoder × TiffNode :=
  let r := encodeOffsetEntry penv e object.entry datum
  let e := r.1
  let object := { object with entry := r.2 }
  match object.entry.pValue with
  | none => (e, object)
  | some v =>
    let sizeDataArea := penv.sizeDataArea v
    let e := if sizeDataArea > 0 ∧ e.writeMethod = .wmNonIntrusive then e.setDirty true else e
    let object :=
      if sizeDataArea > 0 ∧ e.writeMethod = .wmIntrusive then
        match e.exifData_.lookup (ExifKey.ofTag penv object.szTag (penv.groupName object.szGroup))
        with
        | none => { object with strips_ := [(0, sizeDataArea)] }
        | some pos =>
          { object with strips_ :=
              (match pos.value with
               | some sv => penv.toUint32s sv
               | none => []).map fun len => (0, len) }
      else object
    let object :=
      if sizeDataArea = 0 ∧ e.writeMethod = .wmIntrusive then
        match sourceStrips e object.entry.tag object.entry.group with
        | some strips => { object with strips_ := strips }
        | none => object
      else object
    (e, object)

/-- `TiffEncoder::encodeMnEntry`. -/
def encodeMnEntry (penv : ExifEnv) (e : TiffEncoder) (object : TiffNode)
    (datum : Exifdatum) : TiffEncoder × TiffNode :=
  if object.mn_ = false then
    let r := encodeTiffEntryBase penv e object.entry datum
    (r.1, { object with entry := r.2 })
  else (e, object)

/-- Modelled from the spec: the virtual `encode` of the entry classes, of
`tiffcomposite_int.cpp`, which is not under src/; the double dispatch to the
encode function of the encoder for the dynamic type of the node
(`encodeTiffEntry`, `encodeDataEntry`, `encodeImageEntry`, `encodeSizeEntry`,
`encodeSubIfd`, `encodeMnEntry`, `encodeBinaryArray`, `encodeBinaryElement`). -/
def encode (penv : ExifEnv) (e : TiffEncoder) (object : TiffNode) (datum : Exifdatum) :
    TiffEncoder × TiffNode :=
  match object.kind with
  | .entry | .sizeEntry | .binaryElement =>
    let r := encodeTiffEntryBase penv e object.entry datum
    (r.1, { object with entry := r.2 })
  | .subIfd | .binaryArray =>
    let r := encodeOffsetEntry penv e object.entry datum
    (r.1, { object with entry := r.2 })
  | .dataEntry => encodeDataEntry penv e object datum
  | .imageEntry => encodeImageEntry penv e object datum
  | .mnEntry => encodeMnEntry penv e object datum

/-- The search of `encodeTiffComponent` for the record of a node, lines
"find matching tag" and "try to find exact match": the position `pos`. -/
def selectRecord (penv : ExifEnv) (e : TiffEncoder) (object : TiffEntryBase) : Option Nat :=
  let key := ExifKey.ofTag penv object.tag (penv.groupName object.group)
  match e.exifData_.findKey key with
  | some pos =>
    match e.exifData_[pos]? with
    | some ed =>
      if object.idx ≠ ed.key.idx then
        match ExifData.findPos (FindExifdatum2 penv object.group object.idx) e.exifData_ with
        | some pos2 =>
          match e.exifData_[pos2]? with
          | some ed2 => if ed2.key.key = key.key then some pos2 else some pos
          | none => some pos
        | none => some pos
      else some pos
    | none => some pos
  | none => none

/-- The step of `encodeTiffComponent` that encodes the record `ed` into the
node unless the tag is an image tag of an existing image: by the registered
function if there is one, else by the `encode` of the node. -/
def encodeWith (penv : ExifEnv) (e : TiffEncoder) (object : TiffNode) (ed : Exifdatum) :
    TiffEncoder × TiffNode :=
  if isImageTag penv e object.entry.tag object.entry.group = false then
    match penv.findEncoderFct e.make_ object.entry.tag object.entry.group with
    | some .encodeTiffEntryBase =>
      let r := encodeTiffEntryBase penv e object.entry ed
      (r.1, { object with entry := r.2 })
    | some .encodeOffsetEntry =>
      let r := encodeOffsetEntry penv e object.entry ed
      (r.1, { object with entry := r.2 })
    | none => encode penv e object ed
  else (e, object)

/-- `TiffEncoder::encodeTiffComponent(object, datum)`. -/
def encodeTiffComponent (penv : ExifEnv) (e : TiffEncoder) (object : TiffNode)
    (datum : Option Exifdatum) : TiffEncoder × TiffNode :=
  match datum with
  | none =>
    match selectRecord penv e object.entry with
    | some pos =>
      match e.exifData_[pos]? with
      | some ed =>
        let r := encodeWith penv e object ed
        if r.1.del_ = true then
          ({ r.1 with exifData_ := r.1.exifData_.eraseIdx pos }, r.2)
        else r
      | none => (e, object)
    | none => (e.setDirty true, object)
  | some ed =>
    encodeWith penv e { object with entry := object.entry.setIdx ed.key.idx } ed

/-- The erasure of the record at a position found by `findKey`, if any. -/
def eraseKey (e : TiffEncoder) (key : ExifKey) : TiffEncoder :=
  match e.exifData_.findKey key with
  | some pos => { e with exifData_ := e.exifData_.eraseIdx pos }
  | none => e

/-- `TiffEncoder::visitMnEntry`. -/
def visitMnEntry (penv : ExifEnv) (e : TiffEncoder) (object : TiffNode) :
    TiffEncoder × TiffNode :=
  if object.mn_ = false then encodeTiffComponent penv e object none
  else if e.del_ = true then
    (eraseKey e (ExifKey.ofTag penv object.entry.tag (penv.groupName object.entry.group)), object)
  else (e, object)

/-- The first block of `TiffEncoder::visitIfdMakernote`, "Set Makernote byte
order": what the record `Exif.MakerNote.ByteOrder` does to the encoder and to
the makernote. -/
def makernoteByteOrder (penv : ExifEnv) (e : TiffEncoder) (object : TiffIfdMakernote) :
    TiffEncoder × TiffIfdMakernote :=
  match e.exifData_.findKey (ExifKey.ofName penv "MakerNote" "ByteOrder") with
  | some pos =>
    let bo := stringToByteOrder
      (match e.exifData_[pos]? with
       | some ed => ed.toString penv
       | none => "")
    let r : TiffEncoder × TiffIfdMakernote :=
      if bo ≠ .invalidByteOrder ∧ bo ≠ object.byteOrder then
        (e.setDirty true, object.setByteOrder bo)
      else (e, object)
    if r.1.del_ = true then
      ({ r.1 with exifData_ := r.1.exifData_.eraseIdx pos }, r.2)
    else r
  | none => (e, object)

/-- `TiffEncoder::visitIfdMakernote`. -/
def visitIfdMakernote (penv : ExifEnv) (e : TiffEncoder) (object : TiffIfdMakernote) :
    TiffEncoder × TiffIfdMakernote :=
  let r := makernoteByteOrder penv e object
  let e := if r.1.del_ = true then eraseKey r.1 (ExifKey.ofName penv "MakerNote" "Offset")
    else r.1
  ({ e with byteOrder_ := r.2.byteOrder }, r.2)

/-- `TiffEncoder::visitIfdMakernoteEnd`. -/
def visitIfdMakernoteEnd (e : TiffEncoder) : TiffEncoder :=
  { e with byteOrder_ := e.origByteOrder_ }

/-- `TiffEncoder::visitBinaryArray`. -/
def visitBinaryArray (penv : ExifEnv) (e : TiffEncoder) (object : TiffNode) :
    TiffEncoder × TiffNode :=
  if object.cfg = none ∨ object.decoded = false then encodeTiffComponent penv e object none
  else (e, object)

/-- Modelled from the spec: `TiffBinaryArray::updOrigDataBuf` of
`tiffcomposite_int.cpp`, which is not under src/; installs the bytes as the
stored bytes of the array when that is possible, and tells whether it was. -/
def updOrigDataBuf (penv : ExifEnv) (object : TiffNode) (bytes : List Nat) : Bool × TiffNode :=
  if penv.canInstall object bytes = true then (true, { object with origData_ := bytes })
  else (false, object)

/-- `TiffEncoder::visitBinaryArrayEnd`. -/
def visitBinaryArrayEnd (penv : ExifEnv) (e : TiffEncoder) (object : TiffNode) :
    TiffEncoder × TiffNode :=
  match object.cfg with
  | none => (e, object)
  | some cfg =>
    if object.decoded = false then (e, object)
    else
      let size := object.entry.size
      if size = 0 then (e, object)
      else if penv.initOk object = false then (e, object)
      else
        let cryptFct :=
          if cfg.cryptFct_ = some .sonyTagDecipher then some CryptFct.sonyTagEncipher
          else cfg.cryptFct_
        match cryptFct with
        | some f =>
          let pData := object.data.take size
          let buf := penv.crypt f object.entry.tag pData
          let pData := if buf ≠ [] then buf else pData
          let r := updOrigDataBuf penv object pData
          if r.1 = false then (e.setDirty true, r.2) else (e, r.2)
        | none => (e, object)

/-- `TiffEncoder::visitBinaryElement`. -/
def visitBinaryElement (penv : ExifEnv) (e : TiffEncoder) (object : TiffNode) :
    TiffEncoder × TiffNode :=
  let boOrig := e.byteOrder_
  let e := if object.elByteOrder ≠ .invalidByteOrder then
    { e with byteOrder_ := object.elByteOrder } else e
  let r := encodeTiffComponent penv e object none
  ({ r.1 with byteOrder_ := boOrig }, r.2)

/-- What an encode function can do to the encoder: nothing, or `setDirty()`. -/
def Marks (e e' : TiffEncoder) : Prop := e' = e ∨ e' = e.setDirty true

/-- What a visit can do to the encoder, for a set `K` of key strings: a set
dirty flag stays set, the original byte order and the erase mode stay, and
every record whose key string is not in `K` stays in the collection. -/
def Keeps (K : String × String → Prop) (e e' : TiffEncoder) : Prop :=
  (e.dirty_ = true → e'.dirty_ = true) ∧ e'.origByteOrder_ = e.origByteOrder_ ∧
    e'.del_ = e.del_ ∧ ∀ x ∈ e.exifData_, ¬ K x.key.key → x ∈ e'.exifData_

/-- The entry node a visit is about, if it is about one. -/
def visitedNode : EncVisit → Option TiffNode
  | .component object => some object
  | .mnEntry object => some object
  | .ifdMakernote _ => none
  | .ifdMakernoteEnd => none
  | .binaryArray object => some object
  | .binaryArrayEnd object => some object
  | .binaryElement object => some object

/-- The key strings of the records a pass over the visits can consume: the two
provenance keys of the makernote and the keys of the visited entry nodes. -/
def passKeys (penv : ExifEnv) (vs : List EncVisit) (k : String × String) : Prop :=
  k = ("MakerNote", "ByteOrder") ∨ k = ("MakerNote", "Offset") ∨
    ∃ v ∈ vs, ∃ n, visitedNode v = some n ∧
      k = (ExifKey.ofTag penv n.entry.tag (penv.groupName n.entry.group)).key

/-- One visit of an encoder pass: the visited node after the call and the
encoder. -/
def visit (penv : ExifEnv) (e : TiffEncoder) : EncVisit → EncVisit × TiffEncoder
  | .component object =>
    let r := encodeTiffComponent penv e object none
    (.component r.2, r.1)
  | .mnEntry object =>
    let r := visitMnEntry penv e object
    (.mnEntry r.2, r.1)
  | .ifdMakernote object =>
    let r := visitIfdMakernote penv e object
    (.ifdMakernote r.2, r.1)
  | .ifdMakernoteEnd => (.ifdMakernoteEnd, visitIfdMakernoteEnd e)
  | .binaryArray object =>
    let r := visitBinaryArray penv e object
    (.binaryArray r.2, r.1)
  | .binaryArrayEnd object =>
    let r := visitBinaryArrayEnd penv e object
    (.binaryArrayEnd r.2, r.1)
  | .binaryElement object =>
    let r := visitBinaryElement penv e object
    (.binaryElement r.2, r.1)

/-- An encoder pass: the visits in order, each on the encoder the previous one
left. -/
def pass (penv : ExifEnv) (e : TiffEncoder) : List EncVisit → List EncVisit × TiffEncoder
  | [] => ([], e)
  | v :: vs =>
    let r := visit penv e v
    let rs := pass penv r.2 vs
    (r.1 :: rs.1, rs.2)

end TiffEncoder

/-! ## Binary arrays in the reader -/

namespace TiffNode

/-- Modelled from the spec: `TiffEntryBase::setData(buf)` of
`tiffcomposite_int.cpp`, which is not under src/, for a buffer: the bytes of the
entry become those of the buffer and its size the size of the buffer. The
address of the buffer, which is outside the buffer of the reader, is not
modelled: `pData` stays. -/
def setDataBuf (object : TiffNode) (buf : List Nat) : TiffNode :=
  { object with data := buf, entry := { object.entry with size := buf.length } }

/-- Modelled from the spec: `TiffBinaryArray::iniOrigDataBuf` of
`tiffcomposite_int.cpp`, which is not under src/; the bytes of the array become
its stored bytes. -/
def iniOrigDataBuf (object : TiffNode) : TiffNode :=
  { object with origData_ := object.data }

/-- Modelled from the spec: `TiffBinaryArray::setDecoded` of
`tiffcomposite_int.hpp`, which is not under src/. -/
def setDecoded (object : TiffNode) (decoded : Bool) : TiffNode :=
  { object with decoded := decoded }

end TiffNode

namespace TiffBinaryArray

/-- Modelled from the spec: `TiffBinaryArray::addElement(idx, def)` of
`tiffcomposite_int.cpp`, which is not under src/; the element for the position
and the definition becomes the last child of the array; yields the array and
the size of the element. -/
def addElement (penv : ExifEnv) (object : TiffBinaryArray) (idx : Nat) (d : ArrayDef) :
    TiffBinaryArray × Nat :=
  ({ object with elements_ := object.elements_ ++ [(penv.addElement object.node idx d).1] },
    (penv.addElement object.node idx d).2)

end TiffBinaryArray

namespace TiffReader

/-- The search `std::find(defs, defsEnd, idx)` of `visitBinaryArray`: the first
definition of the table whose position is `idx`. -/
def findDef (defs : List ArrayDef) (idx : Nat) : Option ArrayDef :=
  defs.find? fun d => d.idx_ == idx

/-- The block "Determine gap-size" of `visitBinaryArray`: the scan stops at the
first definition of the table whose position is not `idx` or below. -/
def gapSize (defs : List ArrayDef) (size idx : Nat) : Nat :=
  match defs.find? fun xdef => !decide (xdef.idx_ ≤ idx) with
  | some xdef => if xdef.idx_ > idx then xdef.idx_ - idx else size - idx
  | none => size - idx

/-- The body of the loop of `visitBinaryArray` before `addElement`: the element
definition for the position `idx` of an array of `size` bytes. `none` stands
for the division `gapSize / cfg->tagStep()` by a `tagStep()` of `0`, for which
the program has no result. -/
def elementDef (penv : ExifEnv) (cfg : ArrayCfg) (defs : Option (List ArrayDef))
    (size idx : Nat) : Option ArrayDef :=
  match defs with
  | none => some cfg.elDefaultDef_
  | some defs =>
    match findDef defs idx with
    | some d => some d
    | none =>
      if cfg.concat_ = true then
        let gapSize := gapSize defs size idx
        if penv.tagStep cfg = 0 then none
        else
          let gap : ArrayDef :=
            { idx_ := idx, tiffType_ := cfg.elDefaultDef_.tiffType_,
              count_ := gapSize / penv.tagStep cfg }
          if gap.count_ * penv.tagStep cfg ≠ gapSize then
            some { gap with tiffType_ := penv.ttUndefined, count_ := gapSize }
          else some gap
      else some cfg.elDefaultDef_

/-- The loop of `visitBinaryArray` from position `idx` on, with `fuel`
iterations at most; `none` stands for a loop that yields no result: an element
of size `0` leaves the position where it is, and the source goes on adding
elements for ever; and a division by a `tagStep()` of `0` has no result. -/
def addElements (penv : ExifEnv) (cfg : ArrayCfg) :
    Nat → Nat → TiffBinaryArray → Option TiffBinaryArray
  | 0, idx, object => if idx < object.node.entry.size then none else some object
  | fuel + 1, idx, object =>
    if idx < object.node.entry.size then
      match elementDef penv cfg object.def_ object.node.entry.size idx with
      | none => none
      | some d =>
        let r := object.addElement penv idx d
        if r.2 = 0 then none else addElements penv cfg fuel (idx + r.2) r.1
    else some object

/-- What a visit that at most assigns an index leaves of the reader: the two
states, the active state, the post-processing flag and the queue. -/
def SameState (r r' : TiffReader) : Prop :=
  r'.origState_ = r.origState_ ∧ r'.mnState_ = r.mnState_ ∧ r'.pState_ = r.pState_ ∧
    r'.postProc_ = r.postProc_ ∧ r'.postList_ = r.postList_

/-- The block of `visitBinaryArray` for the main pass, `if (!postProc_)`: the
array is read as an entry, its bytes, those of the buffer at its data pointer,
become its stored bytes, and it is queued. -/
def readBinaryArray (penv : ExifEnv) (r : TiffReader) (object : TiffBinaryArray) :
    Except Exception (TiffBinaryArray × TiffReader) :=
  match readTiffEntry penv.toEnv r object.node.entry with
  | .error e => .error e
  | .ok (entry, r1) =>
    let object : TiffBinaryArray :=
      { object with node :=
          ({ object.node with entry := entry, data := r1.bytes entry.pData entry.size } :
            TiffNode).iniOrigDataBuf }
    .ok (object, { r1 with postList_ := r1.postList_ ++ [object] })

/-- The block "Check duplicates" of `visitBinaryArray`: whether the finder
finds an entry with the tag and the group of the array whose index is not
that of the array. -/
def isDuplicate (pRoot : TiffComponent) (object : TiffBinaryArray) : Bool :=
  match TiffFinder.find pRoot object.node.entry.tag object.node.entry.group with
  | some (.entry te _) => decide (te.entry.idx ≠ object.node.entry.idx)
  | _ => false

/-- The cipher block of `visitBinaryArray`: a cipher of the layout is applied
to the bytes of the array, and a result that is not empty becomes its data. -/
def decipher (penv : ExifEnv) (cfg : ArrayCfg) (object : TiffBinaryArray) : TiffBinaryArray :=
  match cfg.cryptFct_ with
  | some cryptFct =>
    if penv.crypt cryptFct object.node.entry.tag
        (object.node.data.take object.node.entry.size) ≠ [] then
      { object with node := object.node.setDataBuf (penv.crypt cryptFct object.node.entry.tag
          (object.node.data.take object.node.entry.size)) }
    else object
  | none => object

/-- The part of `visitBinaryArray` for the post-processing pass, after the
block `if (!postProc_)`; it does not use the reader. `none` stands for a loop
that yields no result. -/
def decodeBinaryArray (penv : ExifEnv) (pRoot : TiffComponent) (object : TiffBinaryArray) :
    Option TiffBinaryArray :=
  if isDuplicate pRoot object = true then
    some { object with node := object.node.setDecoded false }
  else if object.node.entry.size = 0 then some object
  else if penv.initOk object.node = false then some object
  else
    match object.node.cfg with
    | none => some object
    | some cfg =>
      addElements penv cfg (decipher penv cfg object).node.entry.size 0
        (decipher penv cfg object)

/-- `TiffReader::visitBinaryArray`. `.ok none` stands for a call that does not
return. -/
def visitBinaryArray (penv : ExifEnv) (pRoot : TiffComponent) (r : TiffReader)
    (object : TiffBinaryArray) : Except Exception (Option (TiffBinaryArray × TiffReader)) :=
  if r.postProc_ = false then
    match readBinaryArray penv r object with
    | .error e => .error e
    | .ok res => .ok (some res)
  else
    match decodeBinaryArray penv pRoot object with
    | some object => .ok (some (object, r))
    | none => .ok none

/-- The visits of the elements of a binary array, in order. -/
def visitElements (env : Env) :
    TiffReader → List TiffBinaryElement → Except Exception (List TiffBinaryElement × TiffReader)
  | r, [] => .ok ([], r)
  | r, el :: els =>
    match visitBinaryElement env r el with
    | .error e => .error e
    | .ok (el, r) =>
      match visitElements env r els with
      | .error e => .error e
      | .ok (els, r) => .ok (el :: els, r)

/-- Modelled from the spec: `TiffBinaryArray::doAccept` of
`tiffcomposite_int.cpp`, which is not under src/, for the reader, which never
clears the traversal flag: `visitBinaryArray`, then the elements in order;
`visitBinaryArrayEnd` does nothing for the reader. -/
def acceptBinaryArray (penv : ExifEnv) (pRoot : TiffComponent) (r : TiffReader)
    (object : TiffBinaryArray) : Except Exception (Option (TiffBinaryArray × TiffReader)) :=
  match visitBinaryArray penv pRoot r object with
  | .error e => .error e
  | .ok none => .ok none
  | .ok (some (object, r)) =>
    match visitElements penv.toEnv r object.elements_ with
    | .error e => .error e
    | .ok (els, r) => .ok (some ({ object with elements_ := els }, r))

/-- The loop of `postProcess` over the rest of the queue. -/
def postProcessLoop (penv : ExifEnv) (pRoot : TiffComponent) :
    TiffReader → List TiffBinaryArray →
      Except Exception (Option (List TiffBinaryArray × TiffReader))
  | r, [] => .ok (some ([], r))
  | r, pos :: rest =>
    match acceptBinaryArray penv pRoot r pos with
    | .error e => .error e
    | .ok none => .ok none
    | .ok (some (pos, r)) =>
      match postProcessLoop penv pRoot r rest with
      | .error e => .error e
      | .ok none => .ok none
      | .ok (some (rest, r)) => .ok (some (pos :: rest, r))

/-- `TiffReader::postProcess`: the queued arrays as the pass leaves them, and
the reader, whose queue holds these arrays. `pRoot` is the tree as the finder
sees it during the pass. -/
def postProcess (penv : ExifEnv) (pRoot : TiffComponent) (r : TiffReader) :
    Except Exception (Option (List TiffBinaryArray × TiffReader)) :=
  let r := r.setMnState none
  let r := { r with postProc_ := true }
  match postProcessLoop penv pRoot r r.postList_ with
  | .error e => .error e
  | .ok none => .ok none
  | .ok (some (res, r)) =>
    .ok (some (res, ({ r with postProc_ := false, postList_ := res } : TiffReader).setOrigState))

end TiffReader

/-! ## The round trip of decoder and encoder -/

namespace EncVisit

end EncVisit

namespace TiffDecoder

/-- One visit of a decoder pass over the tree, which visits the components the
encoder visits: `component` stands for `visitEntry`, `visitDataEntry`,
`visitImageEntry`, `visitSizeEntry` and `visitSubIfd`, which all call
`decodeTiffEntry`. The decoder declares no `visitIfdMakernoteEnd` and no
`visitBinaryArrayEnd`; modelled from the spec, the inherited functions of
`TiffVisitor`, of `tiffvisitor_int.hpp`, which is not under src/, do nothing. -/
def visit (penv : ExifEnv) (pRoot : TiffComponent) (dec : TiffDecoder) :
    EncVisit → Except Exception TiffDecoder
  | .component object => decodeTiffEntry penv pRoot dec object
  | .mnEntry object => decodeTiffEntry penv pRoot dec object
  | .ifdMakernote object => .ok (visitIfdMakernote penv dec object)
  | .ifdMakernoteEnd => .ok dec
  | .binaryArray object =>
    if object.cfg = none ∨ object.decoded = false then decodeTiffEntry penv pRoot dec object
    else .ok dec
  | .binaryArrayEnd _ => .ok dec
  | .binaryElement object => decodeTiffEntry penv pRoot dec object

/-- A decoder pass: the visits in order, each on the decoder the previous one
left; an exception ends the pass. -/
def pass (penv : ExifEnv) (pRoot : TiffComponent) (dec : TiffDecoder) :
    List EncVisit → Except Exception TiffDecoder
  | [] => .ok dec
  | v :: vs =>
    match visit penv pRoot dec v with
    | .error e => .error e
    | .ok dec' => pass penv pRoot dec' vs

end TiffDecoder

namespace TiffEncoder

end TiffEncoder

/-! ## The directory slots the encoder rewrites -/

/-- The buffer the encoder writes to in place: the byte at each address. -/
abbrev Memory := Nat → Nat

namespace Memory

/-- The store of one byte. -/
def set (mem : Memory) (a b : Nat) : Memory := fun x => if x = a then b else mem x

/-- The call `memset(p, c, n)`: the `n` bytes from `p` on become `c`. -/
def memset (mem : Memory) (p c n : Nat) : Memory :=
  fun x => if p ≤ x ∧ x < p + n then c else mem x

/-- The call `std::copy_n(src, n, dst)`: the bytes `src + i` are copied to
`dst + i` for `i` from `0` to `n - 1`, in this order. -/
def copy_n (mem : Memory) (src : Nat) : Nat → Nat → Memory
  | 0, _ => mem
  | n + 1, dst => (copy_n mem src n dst).set (dst + n) (copy_n mem src n dst (src + n))

/-- Modelled from the spec: `us2Data` of `types.cpp`, which is not under src/;
writes a 16-bit value at `buf` in the given byte order. -/
def us2Data (mem : Memory) (buf s : Nat) (bo : ByteOrder) : Memory :=
  if bo = .littleEndian then (mem.set buf (s % 256)).set (buf + 1) (s / 256 % 256)
  else (mem.set buf (s / 256 % 256)).set (buf + 1) (s % 256)

/-- Modelled from the spec: `ul2Data` of `types.cpp`, which is not under src/;
writes a 32-bit value at `buf` in the given byte order. -/
def ul2Data (mem : Memory) (buf l : Nat) (bo : ByteOrder) : Memory :=
  if bo = .littleEndian then
    (((mem.set buf (l % 256)).set (buf + 1) (l / 256 % 256)).set (buf + 2)
      (l / 65536 % 256)).set (buf + 3) (l / 16777216 % 256)
  else
    (((mem.set buf (l / 16777216 % 256)).set (buf + 1) (l / 65536 % 256)).set (buf + 2)
      (l / 256 % 256)).set (buf + 3) (l % 256)

end Memory

namespace TiffEncoder

/-- `TiffEncoder::updateDirEntry`: the buffer after the call and the return
value; `none` is a component that is not an entry. The type is a 16-bit value
and the count is converted to `uint32_t`. -/
def updateDirEntry (mem : Memory) (buf : Nat) (byteOrder : ByteOrder)
    (pTiffComponent : Option TiffEntryBase) : Memory × Nat :=
  match pTiffComponent with
  | none => (mem, 0)
  | some pTiffEntry =>
    let mem := mem.us2Data (buf + 2) (pTiffEntry.tiffType % 65536) byteOrder
    let mem := mem.ul2Data (buf + 4) (pTiffEntry.count % 4294967296) byteOrder
    if pTiffEntry.size ≤ 4 ∧ buf + 8 ≠ pTiffEntry.pData then
      let mem := mem.memset (buf + 8) 0 4
      if pTiffEntry.size > 0 then
        ((mem.copy_n pTiffEntry.pData pTiffEntry.size (buf + 8)).memset pTiffEntry.pData 0
          pTiffEntry.size, 12)
      else (mem, 12)
    else (mem, 12)

/-- The loop of `TiffEncoder::visitDirectoryNext` over the remaining children,
with the write position `p`. -/
def visitDirectoryLoop (byteOrder : ByteOrder) : List TiffEntryBase → Nat → Memory → Memory
  | [], _, mem => mem
  | component :: rest, p, mem =>
    visitDirectoryLoop byteOrder rest
      (p + (updateDirEntry mem p byteOrder (some component)).2)
      (updateDirEntry mem p byteOrder (some component)).1

/-- `TiffEncoder::visitDirectoryNext`: the buffer after the call. -/
def visitDirectoryNext (e : TiffEncoder) (mem : Memory) (object : TiffDirectory) : Memory :=
  visitDirectoryLoop e.byteOrder object.components_ (object.start + 2) mem

end TiffEncoder

/-! ## Adding records to a tree -/

namespace TiffComponent

/-- The component with its sub-components replaced. -/
def setChildren : TiffComponent → List TiffComponent → TiffComponent
  | .entry object _, cs => .entry object cs
  | .directory tag group _, cs => .directory tag group cs

/-- The component at a position, given as the indices of the sub-components to
follow from the root. -/
def get? : TiffComponent → List Nat → Option TiffComponent
  | c, [] => some c
  | c, i :: path =>
    match c.children[i]? with
    | some child => get? child path
    | none => none

/-- The tree in which the entry node at a position is replaced. -/
def setAt : TiffComponent → List Nat → TiffNode → TiffComponent
  | .entry _ cs, [], object => .entry object cs
  | .directory tag group cs, [], _ => .directory tag group cs
  | c, i :: path, object =>
    match c.children[i]? with
    | some child => c.setChildren (c.children.set i (setAt child path object))
    | none => c

end TiffComponent

namespace TiffNode

/-- Modelled from the spec: `TiffIfdMakernote::setByteOrder` of
`tiffcomposite_int.cpp`, which is not under src/, on the makernote a makernote
entry owns. -/
def setMnByteOrder (object : TiffNode) (bo : ByteOrder) : TiffNode :=
  { object with mnByteOrder := bo }

end TiffNode

/-- The state of the loop of `TiffEncoder::add`: the encoder, the tree under
`pRootDir` and the iterator `posBo`, as a position in the collection (`none`
for `end()`). -/
structure AddState where
  e : TiffEncoder
  tree : TiffComponent
  posBo : Option Nat

/-- What `TiffEncoder::add` leaves: the encoder, the tree as the loop left it,
and the makernote entry found by the final lookup whose makernote the last
block is about, as it is after the call (`none` when the last block does not
get to a makernote). -/
structure AddResult where
  e : TiffEncoder
  tree : TiffComponent
  mnEntry : Option TiffNode

namespace TiffEncoder

/-- The part of the loop body of `TiffEncoder::add` for a record that is not
skipped: `addPath` for the tag and group of the record, and
`encodeTiffComponent` with the record for the component it returns if that is
an entry. -/
def addRecord (penv : ExifEnv) (root : Nat) (e : TiffEncoder) (tree : TiffComponent)
    (i : Exifdatum) : TiffEncoder × TiffComponent :=
  let r := penv.addPath tree i.key.tag (penv.groupId i.key.groupName) root
  match r.2 with
  | none => (e, r.1)
  | some path =>
    match r.1.get? path with
    | some (.entry object _) =>
      let q := encodeTiffComponent penv e object (some i)
      (q.1, r.1.setAt path q.2)
    | _ => (e, r.1)

/-- The loop body of `TiffEncoder::add` for the record `i` at position `pos`. -/
def addStep (penv : ExifEnv) (root : Nat) (s : AddState) (pos : Nat) (i : Exifdatum) :
    AddState :=
  if penv.groupId i.key.groupName = penv.mnId then
    if i.key.tag = 0x0002 then { s with posBo := some pos } else s
  else if isImageTag penv s.e i.key.tag (penv.groupId i.key.groupName) = true then s
  else
    { s with e := (addRecord penv root s.e s.tree i).1,
             tree := (addRecord penv root s.e s.tree i).2 }

/-- The loop of `TiffEncoder::add` from position `pos` on, which ends when the
position reaches the end of the collection; no step changes the collection, so
that its length is fuel enough. -/
def addLoop (penv : ExifEnv) (root : Nat) : Nat → Nat → AddState → AddState
  | 0, _, s => s
  | fuel + 1, pos, s =>
    match s.e.exifData_[pos]? with
    | none => s
    | some i => addLoop penv root fuel (pos + 1) (addStep penv root s pos i)

/-- `TiffEncoder::add`; `pSourceDir` may be the null pointer. -/
def add (penv : ExifEnv) (e : TiffEncoder) (pRootDir : TiffComponent)
    (pSourceDir : Option TiffComponent) (root : Nat) : AddResult :=
  let e := { e with writeMethod_ := .wmIntrusive, pSourceTree_ := pSourceDir, del_ := false }
  let s := addLoop penv root e.exifData_.length 0 { e := e, tree := pRootDir, posBo := none }
  match s.posBo with
  | none => { e := s.e, tree := s.tree, mnEntry := none }
  | some posBo =>
    match TiffFinder.find s.tree 0x927c penv.exifId with
    | some (.entry te _) =>
      if te.kind = .mnEntry ∧ te.mn_ = true then
        let bo := stringToByteOrder
          (match s.e.exifData_[posBo]? with
           | some ed => ed.toString penv
           | none => "")
        if bo ≠ .invalidByteOrder then
          { e := s.e, tree := s.tree, mnEntry := some (te.setMnByteOrder bo) }
        else { e := s.e, tree := s.tree, mnEntry := some te }
      else { e := s.e, tree := s.tree, mnEntry := none }
    | _ => { e := s.e, tree := s.tree, mnEntry := none }

/-- The records the loop of `add` does not skip: those whose group is not the
makernote-provenance group `mnId` and whose tag is not an image tag. -/
def added (penv : ExifEnv) (e : TiffEncoder) (i : Exifdatum) : Bool :=
  decide (penv.groupId i.key.groupName ≠ penv.mnId) &&
    !isImageTag penv e i.key.tag (penv.groupId i.key.groupName)

/-- A makernote byte-order record: tag `0x0002` of the group `mnId`. -/
def isByteOrderRecord (penv : ExifEnv) (i : Exifdatum) : Bool :=
  decide (penv.groupId i.key.groupName = penv.mnId) && decide (i.key.tag = 0x0002)

end TiffEncoder

namespace TiffEncoder

/-- What every operation of the encoder keeps of the two flags: if the
traversal flag was the negation of the dirty flag it still is, and a set dirty
flag stays set. -/
def Flags (e e' : TiffEncoder) : Prop :=
  (e.goTraverse = !e.dirty_ → e'.goTraverse = !e'.dirty_) ∧
    (e.dirty_ = true → e'.dirty_ = true)

end TiffEncoder

/-! ## Sample inputs

Concrete platforms, buffers and nodes on which the theorems are instantiated. -/

namespace Sample

/-- The type sizes of the TIFF types 1 to 13; `0` for an unknown type. -/
def typeSize (t : TypeId) : Nat :=
  match t with
  | 1 => 1 | 2 => 1 | 3 => 2 | 4 => 4 | 5 => 8 | 6 => 1 | 7 => 1
  | 8 => 2 | 9 => 4 | 10 => 8 | 11 => 4 | 12 => 8 | 13 => 4
  | _ => 0

/-- A freshly constructed component: no data, no value, index `0`. -/
def fresh (tag : Nat) (group : IfdId) : TiffEntryBase :=
  { tag := tag, group := group, start := 0, tiffType := 0, count := 0, offset := 0,
    size := 0, pData := 0, idx := 0, pValue := none }

/-- A platform whose size type has `sizeMax` as largest value, with the usual
type table, a factory that knows every tag, and group `79` named Sony1. The
next directory of a group is created in the following group. -/
def env (sizeMax : Nat) (h : 4294967295 ≤ sizeMax) : Env :=
  { sizeMax := sizeMax
    sizeMax_ge := h
    toTypeId := fun t _ _ => t
    typeSize := typeSize
    undefined := 7
    isSony1 := fun g => g == 79
    valueCreate := fun _ => true
    toTiffType := fun t => t
    valueCount := fun t n => if typeSize t = 0 then n else n / typeSize t
    create := fun tag group => if tag = 0x20000 then some (fresh tag (group + 1))
                               else some (fresh tag group)
    tagNext := 0x20000
    ifd1Id := 2
    ttUnsignedLong := 4
    ttSignedLong := 9
    ttTiffIfd := 13
    dirHasNext := true }

/-- A platform with a 32-bit size type. -/
def env32 : Env := env 4294967295 (Nat.le_refl _)

/-- A platform with a 64-bit size type. -/
def env64 : Env := env 18446744073709551615 (by decide)

/-- The two bytes of a 16-bit value, little endian. -/
def le16 (n : Nat) : List Nat := [n % 256, n / 256 % 256]

/-- The four bytes of a 32-bit value, little endian. -/
def le32 (n : Nat) : List Nat := [n % 256, n / 256 % 256, n / 65536 % 256, n / 16777216 % 256]

/-- A 12-byte directory slot, little endian. -/
def slot (tag type count offset : Nat) : List Nat :=
  le16 tag ++ le16 type ++ le32 count ++ le32 offset

/-- A reader over `data` placed at address `1000`, little endian, with the
given base offset. -/
def reader (data : List Nat) (baseOffset : Nat) : TiffReader :=
  TiffReader.new 1000 data { byteOrder := .littleEndian, baseOffset := baseOffset }

/-- An entry node of group `1` whose slot is at address `start`. -/
def entryAt (tag start : Nat) : TiffEntryBase := (fresh tag 1).setStart start

/-- One slot with a short value stored inline: tag `0x0100`, type 3, count 1,
offset field `42`. -/
def inlineData : List Nat := slot 0x0100 3 1 42

/-- One slot followed by eight data bytes: tag `0x010f`, type 2, count 8,
data at offset `12`. -/
def offsetData : List Nat := slot 0x010f 2 8 12 ++ [67, 97, 110, 111, 110, 0, 0, 0]

/-- One slot whose eight data bytes would start at offset `16`, four bytes
before the end of the 20-byte buffer. -/
def overrunData : List Nat := slot 0x010f 2 8 16 ++ [67, 97, 110, 111, 110, 0, 0, 0]

/-- One slot with count `0x10000000` of type 1 (size `2^28`, offset `0`): the
data would pass the end of the 12-byte buffer. -/
def hugeCountData : List Nat := slot 0x0100 1 0x10000000 0

/-- One slot with count `0x20000000` of type 5 (type size 8): the size `2^32`
does not fit a 32-bit size type. -/
def overflowCountData : List Nat := slot 0x0100 5 0x20000000 0

/-- One slot with count `0x10000000` of type 1 and offset field `1`. -/
def hugeCountOffsetData : List Nat := slot 0x0100 1 0x10000000 1

/-- A root directory node of group `1` that starts at address `start`. -/
def dirAt (start : Nat) : TiffDirectory := (TiffDirectory.new 0 1 true).setStart start

/-- A directory whose entry count field holds `300`. -/
def count300Data : List Nat := le16 300 ++ slot 0x0100 3 1 42 ++ le32 0

/-- A directory with `256` entries (all bytes zero) and a next pointer `0`. -/
def count256Data : List Nat := le16 256 ++ List.replicate (12 * 256) 0 ++ le32 0

/-- A directory with two entries of the same tag `0x0100`, both with the count
`0x10000000`, and the next pointer `0`. -/
def dupSkipData : List Nat :=
  le16 2 ++ slot 0x0100 1 0x10000000 0 ++ slot 0x0100 1 0x10000000 0 ++ le32 0

/-- A directory with two entries of the same tag `0x0100`, both short values
stored inline, and the next pointer `0`. -/
def dupData : List Nat := le16 2 ++ slot 0x0100 3 1 42 ++ slot 0x0100 3 1 43 ++ le32 0

/-- Four bytes, then a directory at offset `4` without entries whose next
pointer `4` leads back to itself. -/
def loopData : List Nat := le32 0 ++ le16 0 ++ le32 4

/-- A 32-bit platform whose type table gives every type the size `2^32 - 1`. -/
def envWide : Env := { env32 with typeSize := fun _ => 4294967295 }

/-- The Canon tag table of the samples: the 15 autofocus sub-record tags and
the end marker. -/
def canonTags : List TagInfo :=
  [⟨0x2600, "AFInfoSize"⟩, ⟨0x2601, "AFAreaMode"⟩, ⟨0x2602, "AFNumPoints"⟩,
   ⟨0x2603, "AFValidPoints"⟩, ⟨0x2604, "AFCanonImageWidth"⟩, ⟨0x2605, "AFCanonImageHeight"⟩,
   ⟨0x2606, "AFImageWidth"⟩, ⟨0x2607, "AFImageHeight"⟩, ⟨0x2608, "AFAreaWidths"⟩,
   ⟨0x2609, "AFAreaHeights"⟩, ⟨0x260a, "AFXPositions"⟩, ⟨0x260b, "AFYPositions"⟩,
   ⟨0x260c, "AFPointsInFocus"⟩, ⟨0x260d, "AFPointsSelected"⟩, ⟨0x260e, "AFPointsUnusable"⟩,
   ⟨0xffff, "(UnknownCanonTag)"⟩]

/-- Collaborators of decoder and encoder on the 64-bit platform: group 1 is
Image, group 30 is Canon; values made from numbers and texts are represented
by little endian bytes and character codes. -/
def exifEnv : ExifEnv :=
  { toEnv := env64
    groupName := fun g => if g = 1 then "Image" else if g = 30 then "Canon" else "Unknown"
    tagName := fun tag _ =>
      if tag = 0x0100 then "ImageWidth" else if tag = 0x010f then "Make"
      else if tag = 0x0026 then "AFInfo2" else "Unknown"
    tagNumber := fun _ name =>
      if name = "Offset" then 1 else if name = "ByteOrder" then 2 else 0
    uint32Value := fun n => { typeId := 4, bytes := le32 n, byteOrder := .littleEndian }
    textValue := fun t =>
      { typeId := 2, bytes := t.toList.map Char.toNat, byteOrder := .invalidByteOrder }
    numbersValue := fun t xs =>
      { typeId := t, bytes := xs.flatMap fun x => le16 (x % 65536).toNat,
        byteOrder := .littleEndian }
    unsignedShort := 3
    signedShort := 8
    canonTags := canonTags
    valueSize := fun v => v.bytes.length
    valueToString := fun v => String.mk (v.bytes.map Char.ofNat)
    sizeDataArea := fun _ => 0
    toUint32s := fun _ => []
    isImageTag := fun _ _ => false
    findEncoderFct := fun _ _ _ => none
    crypt := fun _ _ _ => []
    initOk := fun _ => true
    canInstall := fun object bytes => bytes.length == object.origData_.length
    ifd0Id := 1
    ttUndefined := 7
    tagStep := fun _ => 1
    addElement := fun object idx d =>
      ({ entry := { fresh (idx / 1) 30 with start := object.entry.pData + idx, size := 1 }
         elByteOrder := .invalidByteOrder
         elTiffType := d.tiffType_
         storage := (object.data.drop idx).take 1 }, 1)
    findDecoderFct := fun _ _ _ => some .decodeStdTiffEntry
    iptcDecode := fun block => if block.head? = some 28 then 0 else 5
    locateIptcIrb := fun block =>
      if block.take 4 = [56, 66, 73, 77] then (0, 0, 4, block.length - 4) else (3, 0, 0, 0)
    xmpDecode := fun _ => 0
    groupId := fun name =>
      if name = "Image" then 1 else if name = "Canon" then 30
      else if name = "Photo" then 5 else if name = "MakerNote" then 90 else 0
    mnId := 90
    exifId := 5
    addPath := fun pRootDir tag group _ =>
      match pRootDir with
      | .directory t g cs =>
        match cs.findIdx? fun c => c.tag == tag && c.group == group with
        | some i => (pRootDir, some [i])
        | none =>
          (.directory t g (cs ++ [.entry (TiffNode.ofEntry .entry (fresh tag group)) []]),
            some [cs.length])
      | c => (c, none)
    unsignedLong := 4
    unsignedByte := 1
    valueCopy := fun v _ => v.bytes
    iptcEncode := fun blocks => blocks.flatten
    setIptcIrb := fun irb _ => irb
    haveXmpToolkit := true
    xmpPacket := fun packets => packets.flatten }

/-- A decoder with an empty output collection. -/
def decoder : TiffDecoder := { exifData_ := [], make_ := "Canon", decodedIptc_ := false }

/-- An entry of group 30 with the given value and index 1. -/
def valueEntry (tag : Nat) (v : Value) : TiffEntryBase :=
  { fresh tag 30 with pValue := some v, idx := 1 }

/-- An autofocus-info value of 20 unsigned 16-bit words whose first word is
`41`, not `40`. -/
def afShortValue : Value :=
  { typeId := 3, bytes := le16 41 ++ List.replicate 38 0, byteOrder := .littleEndian }

/-- An autofocus-info value of 12292 unsigned 16-bit words: the first word is
`24584`, twice the word count, the third word, the number of points, is
`65535`. -/
def afWrapValue : Value :=
  { typeId := 3
    bytes := le16 24584 ++ le16 0 ++ le16 65535 ++ List.replicate 24578 0
    byteOrder := .littleEndian }

/-- A record with one-byte components: group name, tag name, tag, index and
the bytes of the value. -/
def record (groupName tagName : String) (tag : Nat) (idx : Int) (bytes : List Nat) :
    Exifdatum :=
  { key := { groupName := groupName, tagName := tagName, tag := tag, idx := idx }
    value := some { typeId := 1, bytes := bytes, byteOrder := .littleEndian } }

/-- A little endian encoder of an existing image with the collection `d` and
the camera make `Canon`, not dirty, as the constructor leaves it for a
collection it does not change. -/
def encoder (d : ExifData) : TiffEncoder := TiffEncoder.new d .littleEndian false "Canon"

/-- An entry of group 1 with a 4-byte allocation and the given tag and index. -/
def entry4 (tag : Nat) (idx : Int) : TiffEntryBase :=
  { fresh tag 1 with size := 4, idx := idx }

/-- Three records of group Image: `ImageWidth` with index 1, `Make` with index
2 and `ImageWidth` with index 2. -/
def dupRecords : ExifData :=
  [record "Image" "ImageWidth" 0x0100 1 [1], record "Image" "Make" 0x010f 2 [2],
   record "Image" "ImageWidth" 0x0100 2 [3]]

/-- Two records of group Image: `ImageWidth` with index 1 and with index 2. -/
def dupRecords2 : ExifData :=
  [record "Image" "ImageWidth" 0x0100 1 [1], record "Image" "ImageWidth" 0x0100 2 [3]]

/-- The record `Exif.MakerNote.Offset` as the decoder writes it for offset 26. -/
def offsetRecord : Exifdatum := record "MakerNote" "Offset" 1 0 (le32 26)

/-- The record `Exif.MakerNote.ByteOrder` with the text `MM`. -/
def byteOrderRecord : Exifdatum := record "MakerNote" "ByteOrder" 2 0 [77, 77]

/-- A little endian makernote at offset 26. -/
def makernote : TiffIfdMakernote := { mnOffset_ := 26, byteOrder := .littleEndian }

/-- A decoded binary array of tag `0x0001` and group 30 with the two bytes
`1, 2` at its data pointer, stored bytes `9, 9` and a layout that declares the
cipher `other 1`. -/
def cipherArray : TiffNode :=
  { TiffNode.ofEntry .binaryArray { fresh 0x0001 30 with size := 2 } with
    cfg := some { cryptFct_ := some (.other 1) }, decoded := true, data := [1, 2],
    origData_ := [9, 9] }

/-- Collaborators whose ciphers add 1 to every byte. -/
def cipherEnv : ExifEnv :=
  { exifEnv with crypt := fun _ _ bytes => bytes.map fun b => (b + 1) % 256 }

/-- Collaborators whose Canon tag table lacks the first sub-record tag
`0x2600`. -/
def shortTableEnv : ExifEnv := { exifEnv with canonTags := canonTags.tail }

/-- An autofocus-info value of 15 unsigned 16-bit words: the first word is
`30`, twice the word count, the second is `2`, the third, the number of
points, is `1`. -/
def afSmallValue : Value :=
  { typeId := 3
    bytes := [30, 2, 1, 3, 4, 5, 6, 7, 8, 9, 10, 11, 12, 13, 14].flatMap le16
    byteOrder := .littleEndian }

/-- Collaborators for which the components of a value are its bytes and no
value has a data area. -/
def stripEnv : ExifEnv := { exifEnv with toUint32s := fun v => v.bytes }

/-- Collaborators for which the components of a value are its bytes and the
data area of a value has as many bytes as the value has. -/
def dataAreaEnv : ExifEnv :=
  { exifEnv with toUint32s := fun v => v.bytes, sizeDataArea := fun v => v.bytes.length }

/-- An image entry of tag `0x0111` (StripOffsets) of group 1 with a 4-byte
allocation, whose size tag is `0x0117` (StripByteCounts) of group 1, with the
given strips. -/
def imageNode (strips : List (Nat × Nat)) : TiffNode :=
  { TiffNode.ofEntry .imageEntry (entry4 0x0111 1) with
    szTag := 0x0117, szGroup := 1, strips_ := strips }

/-- A source tree whose image entry of tag `0x0111` has one strip of 7 bytes at
address `5000`. -/
def sourceTree : TiffComponent := .directory 0x20000 1 [.entry (imageNode [(5000, 7)]) []]

/-- An encoder in the state `add` puts it in: intrusive writing, consumed
records kept, with the sample source tree. -/
def intrusiveEncoder (d : ExifData) : TiffEncoder :=
  { encoder d with writeMethod_ := .wmIntrusive, del_ := false, pSourceTree_ := some sourceTree }

/-- A layout that permits concatenation, without cipher, whose default
element is one byte. -/
def concatCfg : ArrayCfg :=
  { cryptFct_ := none, concat_ := true, elDefaultDef_ := { idx_ := 0, tiffType_ := 1, count_ := 1 } }

/-- A definition table with explicit definitions at the positions 0 and 4. -/
def sortedDefs : List ArrayDef :=
  [{ idx_ := 0, tiffType_ := 3, count_ := 1 }, { idx_ := 4, tiffType_ := 3, count_ := 1 }]

/-- A binary array of tag `0x0001` and group 31 with index 1 and the two bytes
`1, 2`, whose layout has no cipher and a default element of one byte, without
definition table and without elements. -/
def plainArray : TiffBinaryArray :=
  { node :=
      { TiffNode.ofEntry .binaryArray { fresh 0x0001 31 with size := 2, idx := 1 } with
        cfg := some { cryptFct_ := none, elDefaultDef_ := { idx_ := 0, tiffType_ := 1, count_ := 1 } }
        data := [1, 2] }
    def_ := none
    elements_ := [] }

/-- A binary array of tag `0x0001` and group 31 with the two bytes `1, 2`, whose
layout declares the cipher `other 1` and a default element of one byte,
without definition table and without elements. -/
def cipherBinaryArray : TiffBinaryArray :=
  { node :=
      { TiffNode.ofEntry .binaryArray { fresh 0x0001 31 with size := 2, idx := 1 } with
        cfg := some { cryptFct_ := some (.other 1)
                      elDefaultDef_ := { idx_ := 0, tiffType_ := 1, count_ := 1 } }
        data := [1, 2] }
    def_ := none
    elements_ := [] }

/-- A binary array of tag `0x0001` and group 31 whose slot is at address
`1000`. -/
def arrayAt : TiffBinaryArray :=
  { node := TiffNode.ofEntry .binaryArray ((fresh 0x0001 31).setStart 1000)
    def_ := none
    elements_ := [] }

/-- An entry node of group 1 (IFD0) with the given tag whose data pointer is
`1000` and whose data are the given bytes. -/
def blockNode (tag : Nat) (bytes : List Nat) : TiffNode :=
  { TiffNode.ofEntry .entry { fresh tag 1 with pData := 1000, size := bytes.length } with
    data := bytes }

/-- A root directory of group 1 with the given entry nodes. -/
def rootOf (nodes : List TiffNode) : TiffComponent :=
  .directory 0x20000 1 (nodes.map fun n => .entry n [])

/-- A platform whose factory creates no node for the tag `0x0100`. -/
def env64NoWidth : Env :=
  { env64 with create := fun tag group => if tag = 0x0100 then none else env64.create tag group }

/-- A directory with two entries and the next pointer `0`: tag `0x0100`, a short
value `42` stored inline, and tag `0x0101`, a long value `7` stored inline. -/
def twoSlotData : List Nat := le16 2 ++ slot 0x0100 3 1 42 ++ slot 0x0101 4 1 7 ++ le32 0

/-- The buffer of a reader as the encoder finds it. -/
def memoryOf (r : TiffReader) : Memory := fun a => r.byteAt a

/-- A root directory whose only child is a makernote entry, tag `0x927c` of
group 5 (the Exif group of the samples), that owns a little endian makernote. -/
def mnTree : TiffComponent :=
  .directory 0x20000 1
    [.entry { TiffNode.ofEntry .mnEntry (fresh 0x927c 5) with
              mn_ := true, mnByteOrder := .littleEndian } []]

/-- A reader in the main pass whose queue holds the two sample arrays of two
bytes each. -/
def queueReader : TiffReader :=
  { reader inlineData 0 with
    postList_ := [plainArray,
      { plainArray with node := { plainArray.node with
          entry := { plainArray.node.entry with tag := 0x0002, idx := 2 } } }] }

end Sample

/-! ## Theorems -/

namespace TiffReader

theorem bytes_length (r : TiffReader) (a n : Nat) : (r.bytes a n).length = n := by
  simp [bytes]

theorem truncateOutOfBounds_ok {env : Env} {r : TiffReader} {object : TiffEntryBase}
    {typeId : TypeId} {size offset : Nat} {res : TypeId × Nat}
    (h : truncateOutOfBounds env r object typeId size offset = .ok res) :
    (res = (typeId, size) ∧ (size ≤ 4 ∨ r.baseOffset + offset < r.size_)) ∨
      (res.2 = 0 ∧ 4 < size ∧ r.size_ ≤ r.baseOffset + offset ∧
        r.baseOffset + offset ≤ env.sizeMax ∧
        res.1 = (if object.tag = 0x2001 ∧ env.isSony1 object.group = true then env.undefined
                 else typeId)) := by
  unfold truncateOutOfBounds Safe.add at h
  by_cases h4 : size > 4
  · rw [if_pos h4] at h
    by_cases hov : r.baseOffset + offset > env.sizeMax
    · rw [if_pos hov] at h
      simp at h
    · rw [if_neg hov] at h
      simp only at h
      by_cases hge : r.baseOffset + offset ≥ r.size_
      · right
        rw [if_pos hge] at h
        by_cases hs : object.tag = 0x2001 ∧ env.isSony1 object.group = true
        · rw [if_pos hs] at h
          cases h
          exact ⟨rfl, h4, hge, by omega, by rw [if_pos hs]⟩
        · rw [if_neg hs] at h
          cases h
          exact ⟨rfl, h4, hge, by omega, by rw [if_neg hs]⟩
      · left
        rw [if_neg hge] at h
        cases h
        exact ⟨rfl, Or.inr (by omega)⟩
  · left
    rw [if_neg h4] at h
    cases h
    exact ⟨rfl, Or.inl (by omega)⟩

theorem locateData_ok {env : Env} {r : TiffReader} {p size offset : Nat} {res : Nat × Nat}
    (h : locateData env r p size offset = .ok res) :
    (size ≤ 4 ∧ res = (p, size)) ∨
      (4 < size ∧ r.baseOffset + offset ≤ r.size_ ∧
        res.1 = r.pData_ + r.baseOffset + offset ∧
        ((res.2 = size ∧ res.1 + size ≤ r.pLast_) ∨ (res.2 = 0 ∧ r.pLast_ < res.1 + size))) := by
  unfold locateData Safe.add at h
  by_cases h4 : size > 4
  · rw [if_pos h4] at h
    by_cases hov : r.baseOffset + offset > env.sizeMax
    · rw [if_pos hov] at h
      simp at h
    · rw [if_neg hov] at h
      simp only at h
      by_cases hgt : r.baseOffset + offset > r.pLast_ - r.pData_
      · rw [if_pos hgt] at h
        simp at h
      · rw [if_neg hgt] at h
        have hle : r.baseOffset + offset ≤ r.size_ := by
          unfold pLast_ at hgt
          omega
        right
        by_cases hsz : size > r.pLast_ - (r.pData_ + r.baseOffset + offset)
        · rw [if_pos hsz] at h
          cases h
          refine ⟨h4, hle, rfl, Or.inr ⟨rfl, ?_⟩⟩
          show r.pLast_ < r.pData_ + r.baseOffset + offset + size
          omega
        · rw [if_neg hsz] at h
          cases h
          refine ⟨h4, hle, rfl, Or.inl ⟨rfl, ?_⟩⟩
          show r.pData_ + r.baseOffset + offset + size ≤ r.pLast_
          unfold pLast_ at hsz ⊢
          omega
  · left
    rw [if_neg h4] at h
    cases h
    exact ⟨by omega, rfl⟩

/-- What a normal return of `readTiffEntry` that got past the two skip guards
has stored in the entry. -/
theorem readTiffEntry_ok {env : Env} {r r' : TiffReader} {object object' : TiffEntryBase}
    (hslot : object.start + 12 ≤ r.pLast_) (hcount : entryCount r object < 0x10000000)
    (h : readTiffEntry env r object = .ok (object', r')) :
    ∃ t1 d1,
      entryCount r object ≤ env.sizeMax / entryTypeSize env r object ∧
      truncateOutOfBounds env r object (entryTypeId env r object)
        (entryTypeSize env r object * entryCount r object) (entryOffset r object) = .ok t1 ∧
      locateData env r (object.start + 8) t1.2 (entryOffset r object) = .ok d1 ∧
      env.valueCreate t1.1 = true ∧
      object' = { object with
        tiffType := env.toTiffType t1.1
        count := env.valueCount t1.1 d1.2
        pValue := some { typeId := t1.1, bytes := r.bytes d1.1 d1.2, byteOrder := r.byteOrder }
        pData := d1.1
        size := d1.2
        offset := entryOffset r object
        idx := r.idxSeq_ object.group + 1 } ∧
      r' = (r.nextIdx object.group).2 := by
  have hslot2 : ¬ (object.start + 12 > r.pLast_) := by omega
  have hcnt : ¬ (entryCount r object ≥ 0x10000000) := by omega
  unfold readTiffEntry readTiffEntryBody at h
  simp only [if_neg hslot2, if_neg hcnt] at h
  by_cases hdiv : entryCount r object > env.sizeMax / entryTypeSize env r object
  · simp [hdiv] at h
  · simp only [if_neg hdiv] at h
    cases ht : truncateOutOfBounds env r object (entryTypeId env r object)
        (entryTypeSize env r object * entryCount r object) (entryOffset r object) with
    | error e =>
      rw [entryOffset] at ht
      rw [ht] at h
      cases e <;> simp at h
    | ok t1 =>
      obtain ⟨tid, sz⟩ := t1
      rw [entryOffset] at ht
      rw [ht] at h
      simp only at h
      cases hd : locateData env r (object.start + 8) sz (entryOffset r object) with
      | error e =>
        rw [entryOffset] at hd
        rw [hd] at h
        cases e <;> simp at h
      | ok d1 =>
        obtain ⟨pd, sz2⟩ := d1
        rw [entryOffset] at hd
        rw [hd] at h
        simp only at h
        by_cases hv : env.valueCreate tid = false
        · simp [hv] at h
        · simp only [if_neg hv] at h
          simp only [Except.ok.injEq, Prod.mk.injEq] at h
          refine ⟨(tid, sz), (pd, sz2), by omega, ?_, ?_, by simpa using hv, ?_, h.2.symm⟩
          · rfl
          · first
              | rfl
              | exact hd
          · rw [← h.1]
            simp [TiffEntryBase.setValue, TiffEntryBase.setData, TiffEntryBase.setOffset,
              TiffEntryBase.setIdx, nextIdx, bytes_length, entryOffset]

/-- C1: when `readTiffEntry` returns normally for an entry whose slot lies in
the buffer and which it has populated (the count guard let it pass), every
byte of the recorded span `[pData, pData + size)` lies in the buffer
`[pData_, pLast_)`: either `size ≤ 4` and every byte of the span lies in the
offset field `[start + 8, start + 12)` of the entry, or `size > 4`,
`pData = pData_ + baseOffset + offset` and `pData + size ≤ pLast_`. (The span
of an entry truncated to size `0` is empty.) -/
theorem readTiffEntry_span_in_buffer (env : Env) (r r' : TiffReader)
    (object object' : TiffEntryBase)
    (hslot : r.pData_ ≤ object.start ∧ object.start + 12 ≤ r.pLast_)
    (hpop : entryCount r object < 0x10000000)
    (hret : readTiffEntry env r object = .ok (object', r')) :
    (r.pData_ ≤ object'.pData ∧ object'.pData + object'.size ≤ r.pLast_) ∧
      ((object'.size ≤ 4 ∧
          ∀ a, object'.pData ≤ a → a < object'.pData + object'.size →
            object.start + 8 ≤ a ∧ a < object.start + 12) ∨
        (4 < object'.size ∧ object'.pData = r.pData_ + r.baseOffset + object'.offset ∧
          object'.pData + object'.size ≤ r.pLast_)) := by
  obtain ⟨t1, d1, -, -, hd, -, ho, -⟩ := readTiffEntry_ok hslot.2 hpop hret
  have hp : object'.pData = d1.1 := by rw [ho]
  have hs : object'.size = d1.2 := by rw [ho]
  have hoff : object'.offset = entryOffset r object := by rw [ho]
  rw [hp, hs, hoff]
  rcases locateData_ok hd with ⟨h4, hres⟩ | ⟨h4, hle, hpd, ⟨hsz, hin⟩ | ⟨hsz, -⟩⟩
  · rw [hres]
    refine ⟨⟨by simp only; omega, by simp only; omega⟩, Or.inl ⟨h4, ?_⟩⟩
    intro a h1 h2
    simp only at h1 h2
    omega
  · refine ⟨⟨by omega, ?_⟩, Or.inr ⟨by omega, hpd, ?_⟩⟩
    · rw [hsz]; exact hin
    · rw [hsz]; exact hin
  · refine ⟨⟨by omega, ?_⟩, Or.inl ⟨by omega, ?_⟩⟩
    · rw [hsz, hpd]
      unfold pLast_
      omega
    · intro a h1 h2
      omega

/-- Witness of C1: the 8-byte value of the sample slot is recorded at
`pData_ + 12`, inside the 20-byte buffer. -/
theorem readTiffEntry_span_in_buffer_witness :
    ∃ res, readTiffEntry Sample.env64 (Sample.reader Sample.offsetData 0)
        (Sample.entryAt 0x010f 1000) = .ok res ∧
      res.1.pData = 1012 ∧ res.1.size = 8 ∧
      (1000 ≤ res.1.pData ∧ res.1.pData + res.1.size ≤ 1020) :=
  ⟨_, rfl, rfl, rfl,
    (readTiffEntry_span_in_buffer Sample.env64 (Sample.reader Sample.offsetData 0) _
      (Sample.entryAt 0x010f 1000) _ (by decide) (by decide) rfl).1⟩

/-- C2: an entry whose size `count * typeSize` is at most 4 has its value read
from its own offset field at `start + 8`, untruncated; the outcome is fixed by
the slot and by `Value::create` alone and no base offset enters it. -/
theorem readTiffEntry_inline (env : Env) (r : TiffReader) (object : TiffEntryBase)
    (hslot : object.start + 12 ≤ r.pLast_)
    (hsize : entryTypeSize env r object * entryCount r object ≤ 4) :
    readTiffEntry env r object =
      if env.valueCreate (entryTypeId env r object) = false then
        .error (.Error .kerCorruptedMetadata)
      else
        .ok ({ object with
                tiffType := env.toTiffType (entryTypeId env r object)
                count := env.valueCount (entryTypeId env r object)
                  (entryTypeSize env r object * entryCount r object)
                pValue := some
                  { typeId := entryTypeId env r object
                    bytes := r.bytes (object.start + 8)
                      (entryTypeSize env r object * entryCount r object)
                    byteOrder := r.byteOrder }
                pData := object.start + 8
                size := entryTypeSize env r object * entryCount r object
                offset := entryOffset r object
                idx := r.idxSeq_ object.group + 1 },
             (r.nextIdx object.group).2) := by
  have hts : 0 < entryTypeSize env r object := by
    unfold entryTypeSize; split <;> omega
  have hc4 : entryCount r object ≤ 4 := by
    calc entryCount r object ≤ entryTypeSize env r object * entryCount r object :=
          Nat.le_mul_of_pos_left _ hts
      _ ≤ 4 := hsize
  have hnot : ¬ (4 < entryTypeSize env r object * entryCount r object) := by omega
  have hdiv : ¬ (env.sizeMax / entryTypeSize env r object < entryCount r object) := by
    have h4 : entryTypeSize env r object * entryCount r object ≤ env.sizeMax := by
      have := env.sizeMax_ge
      omega
    have := (Nat.le_div_iff_mul_le hts).mpr (by simpa [Nat.mul_comm] using h4)
    omega
  have hslot2 : ¬ (r.pLast_ < object.start + 12) := by omega
  have hcnt : ¬ (268435456 ≤ entryCount r object) := by omega
  by_cases hv : env.valueCreate (entryTypeId env r object) = false
  · simp [readTiffEntry, readTiffEntryBody, truncateOutOfBounds, locateData, hslot2, hcnt,
      hdiv, hnot, hv]
  · simp [readTiffEntry, readTiffEntryBody, truncateOutOfBounds, locateData, hslot2, hcnt,
      hdiv, hnot, hv, TiffEntryBase.setValue, TiffEntryBase.setData, TiffEntryBase.setOffset,
      TiffEntryBase.setIdx, nextIdx, bytes_length, entryOffset]

/-- Witness of C2: the sample short value `42` is read from the offset field
at `start + 8`, also with a base offset that lies far outside the buffer. -/
theorem readTiffEntry_inline_witness :
    (readTiffEntry Sample.env32 (Sample.reader Sample.inlineData 4294967295)
        (Sample.entryAt 0x0100 1000)).toOption.map (fun res => (res.1.pData, res.1.pValue)) =
      some (1008, some { typeId := 3, bytes := [42, 0], byteOrder := .littleEndian }) := by
  rw [readTiffEntry_inline Sample.env32 (Sample.reader Sample.inlineData 4294967295)
    (Sample.entryAt 0x0100 1000) (by decide) (by decide)]
  rfl

/-- The claim C3 as stated fails: the sample entry has `count * typeSize = 2^28 > 4`
and its data would pass the end of the 12-byte buffer without any overflow,
but `readTiffEntry` skips it at the count guard: the entry keeps index `0`
instead of the next index `1` of its group, and gets no value. -/
theorem readTiffEntry_overrun_counterexample :
    (4 < entryTypeSize Sample.env64 (Sample.reader Sample.hugeCountData 0)
          (Sample.entryAt 0x0100 1000) *
        entryCount (Sample.reader Sample.hugeCountData 0) (Sample.entryAt 0x0100 1000) ∧
      (Sample.reader Sample.hugeCountData 0).baseOffset +
          entryOffset (Sample.reader Sample.hugeCountData 0) (Sample.entryAt 0x0100 1000) ≤
        Sample.env64.sizeMax ∧
      (Sample.reader Sample.hugeCountData 0).size_ <
        (Sample.reader Sample.hugeCountData 0).baseOffset +
          entryOffset (Sample.reader Sample.hugeCountData 0) (Sample.entryAt 0x0100 1000) +
          entryTypeSize Sample.env64 (Sample.reader Sample.hugeCountData 0)
              (Sample.entryAt 0x0100 1000) *
            entryCount (Sample.reader Sample.hugeCountData 0) (Sample.entryAt 0x0100 1000)) ∧
    ∃ res, readTiffEntry Sample.env64 (Sample.reader Sample.hugeCountData 0)
        (Sample.entryAt 0x0100 1000) = .ok res ∧
      res.1.idx = 0 ∧ res.1.pValue = none ∧
      res.1.idx ≠ ((Sample.reader Sample.hugeCountData 0).nextIdx 1).1 :=
  ⟨by decide, _, rfl, rfl, rfl, by decide⟩

/-- C3 (amended): for an entry whose slot lies in the buffer, with
`count < 0x10000000` and a size `count * typeSize > 4` that fits the size type,
whose position `baseOffset + offset` does not overflow but whose end
`baseOffset + offset + size` exceeds the buffer length, and with `Value::create`
yielding a value, `readTiffEntry` returns normally: the entry has data size `0`
and an empty value, and it is assigned the next index of its group. -/
theorem readTiffEntry_overrun_truncates (env : Env) (r : TiffReader) (object : TiffEntryBase)
    (hslot : object.start + 12 ≤ r.pLast_)
    (hcount : entryCount r object < 0x10000000)
    (hfit : entryTypeSize env r object * entryCount r object ≤ env.sizeMax)
    (h4 : 4 < entryTypeSize env r object * entryCount r object)
    (hov : r.baseOffset + entryOffset r object ≤ env.sizeMax)
    (hout : r.size_ <
      r.baseOffset + entryOffset r object + entryTypeSize env r object * entryCount r object)
    (hv : ∀ t, env.valueCreate t = true) :
    ∃ object', readTiffEntry env r object = .ok (object', (r.nextIdx object.group).2) ∧
      object'.size = 0 ∧ object'.pValue.map (fun v => v.bytes) = some [] ∧
      object'.idx = r.idxSeq_ object.group + 1 ∧
      (r.nextIdx object.group).2.idxSeq_ object.group = r.idxSeq_ object.group + 1 := by
  have hts : 0 < entryTypeSize env r object := by
    unfold entryTypeSize; split <;> omega
  have hslot2 : ¬ (object.start + 12 > r.pLast_) := by omega
  have hcnt : ¬ (entryCount r object ≥ 0x10000000) := by omega
  have hdiv : ¬ (entryCount r object > env.sizeMax / entryTypeSize env r object) := by
    have := (Nat.le_div_iff_mul_le hts).mpr (by simpa [Nat.mul_comm] using hfit)
    omega
  have hov2 : ¬ (r.baseOffset + r.getULong (object.start + 8) r.byteOrder > env.sizeMax) := by
    unfold entryOffset at hov
    omega
  unfold entryOffset at hout
  unfold readTiffEntry readTiffEntryBody truncateOutOfBounds locateData Safe.add
  simp only [if_neg hslot2, if_neg hcnt, if_neg hdiv, if_pos h4, if_neg hov2]
  by_cases hge : r.baseOffset + r.getULong (object.start + 8) r.byteOrder ≥ r.size_
  · simp only [if_pos hge]
    by_cases hs : object.tag = 0x2001 ∧ env.isSony1 object.group = true
    · simp [if_pos hs, hv, TiffEntryBase.setValue, TiffEntryBase.setData,
        TiffEntryBase.setOffset, TiffEntryBase.setIdx, nextIdx, bytes]
    · simp [if_neg hs, hv, TiffEntryBase.setValue, TiffEntryBase.setData,
        TiffEntryBase.setOffset, TiffEntryBase.setIdx, nextIdx, bytes]
  · have hgt : ¬ (r.baseOffset + r.getULong (object.start + 8) r.byteOrder >
        r.pLast_ - r.pData_) := by
      unfold pLast_
      omega
    have hsz : entryTypeSize env r object * entryCount r object >
        r.pLast_ - (r.pData_ + r.baseOffset + r.getULong (object.start + 8) r.byteOrder) := by
      unfold pLast_
      omega
    simp [if_neg hge, if_pos h4, if_neg hgt, if_pos hsz, hv, TiffEntryBase.setValue,
      TiffEntryBase.setData, TiffEntryBase.setOffset, TiffEntryBase.setIdx, nextIdx, bytes]

/-- Witness of C3 (amended): eight bytes at offset `16` of a 20-byte buffer. -/
theorem readTiffEntry_overrun_truncates_witness :
    ∃ object', readTiffEntry Sample.env64 (Sample.reader Sample.overrunData 0)
        (Sample.entryAt 0x010f 1000) =
          .ok (object', ((Sample.reader Sample.overrunData 0).nextIdx 1).2) ∧
      object'.size = 0 ∧ object'.pValue.map (fun v => v.bytes) = some [] ∧ object'.idx = 1 := by
  obtain ⟨o, h1, h2, h3, h4, -⟩ :=
    readTiffEntry_overrun_truncates Sample.env64 (Sample.reader Sample.overrunData 0)
      (Sample.entryAt 0x010f 1000) (by decide) (by decide) (by decide) (by decide) (by decide)
      (by decide) (fun _ => rfl)
  exact ⟨o, h1, h2, h3, h4⟩

/-- The claim C4 as stated fails: on a 32-bit size type the sample entry has
`count * typeSize = 0x20000000 * 8 = 2^32`, which overflows, but
`readTiffEntry` returns normally (the entry is skipped at the count guard) and
raises nothing. -/
theorem readTiffEntry_size_overflow_counterexample :
    Sample.env32.sizeMax <
        entryTypeSize Sample.env32 (Sample.reader Sample.overflowCountData 0)
            (Sample.entryAt 0x0100 1000) *
          entryCount (Sample.reader Sample.overflowCountData 0) (Sample.entryAt 0x0100 1000) ∧
      ∃ res, readTiffEntry Sample.env32 (Sample.reader Sample.overflowCountData 0)
        (Sample.entryAt 0x0100 1000) = .ok res :=
  ⟨by decide, _, rfl⟩

/-- C4 (amended): for an entry whose slot lies in the buffer and whose
`count * typeSize` overflows the size type: if the count is below `0x10000000`
then `readTiffEntry` raises `Error(kerArithmeticOverflow)`, and the error
leaves before any setter of the entry and before `nextIdx` has run; if the
count is `0x10000000` or more then `readTiffEntry` returns normally, with entry
and reader untouched. -/
theorem readTiffEntry_size_overflow (env : Env) (r : TiffReader) (object : TiffEntryBase)
    (hslot : object.start + 12 ≤ r.pLast_)
    (hovf : env.sizeMax < entryTypeSize env r object * entryCount r object) :
    (entryCount r object < 0x10000000 →
        readTiffEntry env r object = .error (.Error .kerArithmeticOverflow)) ∧
      (0x10000000 ≤ entryCount r object → readTiffEntry env r object = .ok (object, r)) := by
  have hts : 0 < entryTypeSize env r object := by
    unfold entryTypeSize; split <;> omega
  have hslot2 : ¬ (object.start + 12 > r.pLast_) := by omega
  have hdiv : entryCount r object > env.sizeMax / entryTypeSize env r object := by
    have := (Nat.div_lt_iff_lt_mul hts).mpr (by simpa [Nat.mul_comm] using hovf)
    omega
  constructor
  · intro hcount
    have hcnt : ¬ (entryCount r object ≥ 0x10000000) := by omega
    unfold readTiffEntry readTiffEntryBody
    simp only [if_neg hslot2, if_neg hcnt, if_pos hdiv]
  · intro hcount
    have hcnt : entryCount r object ≥ 0x10000000 := hcount
    unfold readTiffEntry readTiffEntryBody
    simp only [if_neg hslot2, if_pos hcnt]

/-- Witness of C4 (amended): count 8 with a type size of `2^32 - 1` on a 32-bit
size type raises the error; count `0x20000000` with type size 8 is skipped. -/
theorem readTiffEntry_size_overflow_witness :
    readTiffEntry Sample.envWide (Sample.reader Sample.offsetData 0)
        (Sample.entryAt 0x010f 1000) = .error (.Error .kerArithmeticOverflow) ∧
      readTiffEntry Sample.env32 (Sample.reader Sample.overflowCountData 0)
        (Sample.entryAt 0x0100 1000) =
          .ok (Sample.entryAt 0x0100 1000, Sample.reader Sample.overflowCountData 0) :=
  ⟨(readTiffEntry_size_overflow Sample.envWide (Sample.reader Sample.offsetData 0)
      (Sample.entryAt 0x010f 1000) (by decide) (by decide)).1 (by decide),
    (readTiffEntry_size_overflow Sample.env32 (Sample.reader Sample.overflowCountData 0)
      (Sample.entryAt 0x0100 1000) (by decide) (by decide)).2 (by decide)⟩

/-- The claim C5 as stated fails: on a 32-bit size type with base offset
`2^32 - 1` the sample entry has `count * typeSize = 2^28 > 4` and
`baseOffset + offset` overflows, but `readTiffEntry` returns normally (the
entry is skipped at the count guard) and raises nothing. -/
theorem readTiffEntry_offset_overflow_counterexample :
    (4 < entryTypeSize Sample.env32 (Sample.reader Sample.hugeCountOffsetData 4294967295)
          (Sample.entryAt 0x0100 1000) *
        entryCount (Sample.reader Sample.hugeCountOffsetData 4294967295)
          (Sample.entryAt 0x0100 1000) ∧
      Sample.env32.sizeMax <
        (Sample.reader Sample.hugeCountOffsetData 4294967295).baseOffset +
          entryOffset (Sample.reader Sample.hugeCountOffsetData 4294967295)
            (Sample.entryAt 0x0100 1000)) ∧
      ∃ res, readTiffEntry Sample.env32 (Sample.reader Sample.hugeCountOffsetData 4294967295)
        (Sample.entryAt 0x0100 1000) = .ok res :=
  ⟨by decide, _, rfl⟩

/-- C5 (amended): for an entry whose slot lies in the buffer, with
`count < 0x10000000` and a size `count * typeSize > 4` that fits the size type,
if `baseOffset + offset` overflows the size type then `readTiffEntry` raises
`Error(kerCorruptedMetadata)`, before any setter of the entry and before
`nextIdx` has run; and `readTiffEntry` never lets the raw `std::overflow_error`
out, for any entry. -/
theorem readTiffEntry_offset_overflow (env : Env) (r : TiffReader) (object : TiffEntryBase)
    (hslot : object.start + 12 ≤ r.pLast_)
    (hcount : entryCount r object < 0x10000000)
    (hfit : entryTypeSize env r object * entryCount r object ≤ env.sizeMax)
    (h4 : 4 < entryTypeSize env r object * entryCount r object)
    (hov : env.sizeMax < r.baseOffset + entryOffset r object) :
    readTiffEntry env r object = .error (.Error .kerCorruptedMetadata) ∧
      ∀ (r0 : TiffReader) (o : TiffEntryBase),
        readTiffEntry env r0 o ≠ .error .overflow_error := by
  have hts : 0 < entryTypeSize env r object := by
    unfold entryTypeSize; split <;> omega
  have hslot2 : ¬ (object.start + 12 > r.pLast_) := by omega
  have hcnt : ¬ (entryCount r object ≥ 0x10000000) := by omega
  have hdiv : ¬ (entryCount r object > env.sizeMax / entryTypeSize env r object) := by
    have := (Nat.le_div_iff_mul_le hts).mpr (by simpa [Nat.mul_comm] using hfit)
    omega
  have hov2 : r.baseOffset + r.getULong (object.start + 8) r.byteOrder > env.sizeMax := by
    unfold entryOffset at hov
    omega
  constructor
  · unfold readTiffEntry readTiffEntryBody truncateOutOfBounds Safe.add
    simp only [if_neg hslot2, if_neg hcnt, if_neg hdiv, if_pos h4, if_pos hov2]
  · intro r0 o
    unfold readTiffEntry
    split
    · simp
    · rename_i res hne
      intro h
      exact hne h

/-- Witness of C5 (amended): base offset `2^32 - 1` and offset `12` on a 32-bit
size type. -/
theorem readTiffEntry_offset_overflow_witness :
    readTiffEntry Sample.env32 (Sample.reader Sample.offsetData 4294967295)
        (Sample.entryAt 0x010f 1000) = .error (.Error .kerCorruptedMetadata) :=
  (readTiffEntry_offset_overflow Sample.env32 (Sample.reader Sample.offsetData 4294967295)
    (Sample.entryAt 0x010f 1000) (by decide) (by decide) (by decide) (by decide)
    (by decide)).1

theorem circularReference_snd_pLast (r : TiffReader) (start : Nat) (group : IfdId) :
    (r.circularReference start group).2.pLast_ = r.pLast_ := by
  unfold circularReference
  split <;> rfl

theorem circularReference_snd_getUShort (r : TiffReader) (start : Nat) (group : IfdId)
    (p : Nat) :
    (r.circularReference start group).2.getUShort p
        (r.circularReference start group).2.byteOrder = r.getUShort p r.byteOrder := by
  unfold circularReference
  split <;> rfl

theorem circularReference_fst (r : TiffReader) (start : Nat) (group : IfdId) :
    (r.circularReference start group).1 = true ↔ r.dirList_ start ≠ none := by
  unfold circularReference
  split <;> simp_all

theorem linkNext_components (env : Env) (r : TiffReader) (object : TiffDirectory) (p : Nat) :
    (linkNext env r object p).components_ = object.components_ := by
  unfold linkNext
  split
  · split
    · rfl
    · split
      · split <;> rfl
      · rfl
  · rfl

theorem length_filterMap_of_isSome {α β : Type} (f : α → Option β) :
    ∀ l : List α, (∀ x, (f x).isSome = true) → (l.filterMap f).length = l.length := by
  intro l h
  induction l with
  | nil => rfl
  | cons a l ih =>
    obtain ⟨b, hb⟩ := Option.isSome_iff_exists.mp (h a)
    rw [List.filterMap_cons_some hb, List.length_cons, List.length_cons, ih]

theorem count256Data_length : Sample.count256Data.length = 3078 := by
  simp only [Sample.count256Data, List.length_append, List.length_replicate, Sample.le16,
    Sample.le32, List.length_cons, List.length_nil]

/-- The entry loop over `k` slots that all lie in the buffer adds the node the
factory creates for each slot, with the slot as its start, and ends behind the
last slot. -/
theorem visitDirectoryEntries_fit (env : Env) (r : TiffReader) :
    ∀ (k p : Nat) (object : TiffDirectory), p + 12 * k ≤ r.pLast_ →
      visitDirectoryEntries env r k p object =
        ({ object with
            components_ := object.components_ ++ (List.range k).filterMap fun i =>
              (env.create (r.getUShort (p + 12 * i) r.byteOrder) object.group).map
                fun tc => tc.setStart (p + 12 * i) },
          some (p + 12 * k)) := by
  intro k
  induction k with
  | zero => intro p object _; simp [visitDirectoryEntries]
  | succ k ih =>
    intro p object h
    have hp : ¬ (p + 12 > r.pLast_) := by omega
    have hk : p + 12 + 12 * k ≤ r.pLast_ := by omega
    have he : p + 12 + 12 * k = p + 12 * (k + 1) := by omega
    have hi : ∀ i, p + 12 + 12 * i = p + 12 * (i + 1) := fun i => by omega
    unfold visitDirectoryEntries
    rw [if_neg hp]
    simp only
    cases hc : env.create (r.getUShort p r.byteOrder) object.group with
    | none =>
      simp only
      rw [ih (p + 12) object hk, List.range_succ_eq_map, List.filterMap_cons]
      simp [hc, List.filterMap_map, Function.comp_def, hi, he]
    | some tc =>
      simp only
      rw [ih (p + 12) _ hk, List.range_succ_eq_map, List.filterMap_cons]
      simp [hc, List.filterMap_map, Function.comp_def, hi, he, TiffDirectory.addChild]

/-- C7: a directory whose entry count field decodes to more than 256 is left
as it is by `visitDirectory`, without child and without next directory, and
nothing is raised; a count of exactly 256 passes the check: in a directory not
seen before whose 256 slots lie in the buffer, every slot is read and the node
the factory creates for its tag is added as a child, in slot order. -/
theorem visitDirectory_entry_count (env : Env) (r : TiffReader) (object : TiffDirectory)
    (hfield : object.start + 2 ≤ r.pLast_) :
    (256 < r.getUShort object.start r.byteOrder →
        ∃ r', visitDirectory env r object = .ok (object, r')) ∧
      (r.getUShort object.start r.byteOrder = 256 → r.dirList_ object.start = none →
        object.start + 2 + 12 * 256 ≤ r.pLast_ →
        ∃ object' r', visitDirectory env r object = .ok (object', r') ∧
          object'.components_ = object.components_ ++ (List.range 256).filterMap fun i =>
            (env.create (r.getUShort (object.start + 2 + 12 * i) r.byteOrder) object.group).map
              fun tc => tc.setStart (object.start + 2 + 12 * i)) := by
  constructor
  · intro hn
    unfold visitDirectory
    simp only
    split
    · exact ⟨_, rfl⟩
    · have h2 : ¬ (object.start + 2 > (r.circularReference object.start object.group).2.pLast_) := by
        rw [circularReference_snd_pLast]; omega
      rw [if_neg h2, circularReference_snd_getUShort, if_pos hn]
      exact ⟨_, rfl⟩
  · intro hn hfresh hfit
    have hc : ¬ ((r.circularReference object.start object.group).1 = true) := by
      rw [circularReference_fst]; simpa using hfresh
    have h2 : ¬ (object.start + 2 > (r.circularReference object.start object.group).2.pLast_) := by
      rw [circularReference_snd_pLast]; omega
    have h256 : ¬ (256 > 256) := by omega
    have hfit2 : object.start + 2 + 12 * 256 ≤
        (r.circularReference object.start object.group).2.pLast_ := by
      rw [circularReference_snd_pLast]; exact hfit
    unfold visitDirectory
    simp only
    rw [if_neg hc, if_neg h2, circularReference_snd_getUShort, hn, if_neg h256,
      visitDirectoryEntries_fit env _ 256 _ object hfit2]
    simp only
    refine ⟨_, _, rfl, ?_⟩
    rw [linkNext_components]
    simp only [circularReference_snd_getUShort]

/-- Witness of C7: the directory with count field `300` stays without child
and next link although its first slot holds a valid entry; the directory with
count field `256` gets its 256 children. -/
theorem visitDirectory_entry_count_witness :
    (∃ r', visitDirectory Sample.env64 (Sample.reader Sample.count300Data 0)
        (Sample.dirAt 1000) = .ok (Sample.dirAt 1000, r')) ∧
      (∃ object' r', visitDirectory Sample.env64 (Sample.reader Sample.count256Data 0)
        (Sample.dirAt 1000) = .ok (object', r') ∧ object'.components_.length = 256) := by
  constructor
  · exact (visitDirectory_entry_count Sample.env64 (Sample.reader Sample.count300Data 0)
      (Sample.dirAt 1000) (by decide)).1 (by decide)
  · have hlen : (Sample.reader Sample.count256Data 0).pLast_ = 1000 + 3078 := by
      simp only [pLast_, size_, Sample.reader, TiffReader.new, count256Data_length]
    obtain ⟨o, r', h1, h2⟩ :=
      (visitDirectory_entry_count Sample.env64 (Sample.reader Sample.count256Data 0)
        (Sample.dirAt 1000) (by rw [hlen]; decide)).2
        (by decide) rfl (by rw [hlen]; decide)
    refine ⟨o, r', h1, ?_⟩
    rw [h2, List.length_append, length_filterMap_of_isSome, List.length_range]
    · rfl
    · intro i
      simp only [Sample.env64, Sample.env]
      split <;> rfl

theorem byteAt_lt (r : TiffReader) (a : Nat) : r.byteAt a < 256 := by
  unfold byteAt
  split
  · exact Nat.mod_lt _ (by decide)
  · decide

theorem getULong_le (r : TiffReader) (p : Nat) (bo : ByteOrder) :
    r.getULong p bo ≤ 4294967295 := by
  have h0 := byteAt_lt r p
  have h1 := byteAt_lt r (p + 1)
  have h2 := byteAt_lt r (p + 2)
  have h3 := byteAt_lt r (p + 3)
  unfold getULong
  split <;> omega

theorem circularReference_fresh (r : TiffReader) (start : Nat) (group : IfdId)
    (hfresh : r.dirList_ start = none) :
    r.circularReference start group = (false, r.recordDir start group) := by
  unfold circularReference
  rw [hfresh]

/-- A normal return of `readTiffEntry` either left entry and reader untouched
(the entry was skipped) or assigned the next index of the group. -/
theorem readTiffEntry_cases {env : Env} {r r' : TiffReader} {object object' : TiffEntryBase}
    (h : readTiffEntry env r object = .ok (object', r')) :
    (object' = object ∧ r' = r) ∨
      (object'.idx = r.idxSeq_ object.group + 1 ∧ object'.group = object.group ∧
        object'.tag = object.tag ∧ r' = (r.nextIdx object.group).2) := by
  by_cases hslot : object.start + 12 > r.pLast_
  · left
    unfold readTiffEntry readTiffEntryBody at h
    simp only [if_pos hslot, Except.ok.injEq, Prod.mk.injEq] at h
    exact ⟨h.1.symm, h.2.symm⟩
  · by_cases hcnt : entryCount r object ≥ 0x10000000
    · left
      unfold readTiffEntry readTiffEntryBody at h
      simp only [if_neg hslot, if_pos hcnt, Except.ok.injEq, Prod.mk.injEq] at h
      exact ⟨h.1.symm, h.2.symm⟩
    · right
      obtain ⟨t1, d1, -, -, -, -, ho, hr⟩ :=
        readTiffEntry_ok (by omega) (by omega) h
      subst ho
      exact ⟨rfl, rfl, rfl, hr⟩

/-- The reader `visitDirectory` leaves is the one `circularReference` leaves. -/
theorem visitDirectory_reader {env : Env} {r r' : TiffReader} {object object' : TiffDirectory}
    (h : visitDirectory env r object = .ok (object', r')) :
    r' = (r.circularReference object.start object.group).2 := by
  unfold visitDirectory at h
  simp only at h
  split at h
  · cases h; rfl
  · split at h
    · cases h; rfl
    · split at h
      · cases h; rfl
      · split at h <;> cases h <;> rfl

theorem circularReference_idxSeq (r : TiffReader) (start : Nat) (group : IfdId) :
    (r.circularReference start group).2.idxSeq_ = r.idxSeq_ := by
  unfold circularReference
  split <;> rfl

theorem nextIdx_idxSeq_le (r : TiffReader) (group g : IfdId) :
    r.idxSeq_ g ≤ (r.nextIdx group).2.idxSeq_ g := by
  show r.idxSeq_ g ≤ if g = group then r.idxSeq_ group + 1 else r.idxSeq_ g
  split
  · rename_i h; subst h; omega
  · exact le_refl _

theorem nextIdx_idxSeq_self (r : TiffReader) (group : IfdId) :
    (r.nextIdx group).2.idxSeq_ group = r.idxSeq_ group + 1 := by
  show (if group = group then r.idxSeq_ group + 1 else r.idxSeq_ group) = _
  rw [if_pos rfl]

/-- One visit never lowers an index counter, and an entry node it returns is
either the node it was given or carries an index that the visit took from the
counter of its group. -/
theorem visit_idx {env : Env} {r r' : TiffReader} {v v' : Visit}
    (h : visit env r v = .ok (v', r')) :
    (∀ g, r.idxSeq_ g ≤ r'.idxSeq_ g) ∧
      ∀ a, v'.key = some a →
        v' = v ∨ (r.idxSeq_ a.1 < a.2.2 ∧ a.2.2 ≤ r'.idxSeq_ a.1) := by
  cases v with
  | entry object =>
    simp only [visit] at h
    cases hre : readTiffEntry env r object with
    | error e => rw [hre] at h; cases h
    | ok res =>
      obtain ⟨o1, r1⟩ := res
      rw [hre] at h
      simp only [Except.ok.injEq, Prod.mk.injEq] at h
      obtain ⟨hv, hr⟩ := h
      subst hv hr
      rcases readTiffEntry_cases hre with ⟨ho, hr⟩ | ⟨hi, hg, -, hr⟩
      · subst ho hr
        exact ⟨fun _ => le_refl _, fun _ _ => Or.inl rfl⟩
      · subst hr
        refine ⟨fun g => nextIdx_idxSeq_le r _ g, fun a ha => Or.inr ?_⟩
        simp only [Visit.key, Option.some.injEq] at ha
        subst ha
        simp only
        rw [hg, hi, nextIdx_idxSeq_self]
        omega
  | binaryElement object =>
    simp only [visit] at h
    cases hre : visitBinaryElement env r object with
    | error e => rw [hre] at h; cases h
    | ok res =>
      obtain ⟨o1, r1⟩ := res
      rw [hre] at h
      simp only [Except.ok.injEq, Prod.mk.injEq] at h
      obtain ⟨hv, hr⟩ := h
      subst hv hr
      unfold visitBinaryElement at hre
      simp only at hre
      split at hre
      · cases hre
      · simp only [Except.ok.injEq, Prod.mk.injEq] at hre
        obtain ⟨ho, hr⟩ := hre
        subst ho hr
        refine ⟨fun g => nextIdx_idxSeq_le r _ g, fun a ha => Or.inr ?_⟩
        simp only [Visit.key, Option.some.injEq] at ha
        subst ha
        simp only [TiffEntryBase.setIdx, TiffEntryBase.setOffset, TiffEntryBase.setValue, nextIdx]
        simp
  | directory object =>
    simp only [visit] at h
    cases hre : visitDirectory env r object with
    | error e => rw [hre] at h; cases h
    | ok res =>
      obtain ⟨o1, r1⟩ := res
      rw [hre] at h
      simp only [Except.ok.injEq, Prod.mk.injEq] at h
      obtain ⟨hv, hr⟩ := h
      subst hv hr
      rw [visitDirectory_reader hre, circularReference_idxSeq]
      exact ⟨fun _ => le_refl _, fun a ha => by simp [Visit.key] at ha⟩
  | mnState state =>
    simp only [visit] at h
    simp only [Except.ok.injEq, Prod.mk.injEq] at h
    obtain ⟨hv, hr⟩ := h
    subst hv hr
    refine ⟨fun g => ?_, fun a ha => by simp [Visit.key] at ha⟩
    unfold setMnState
    split
    · split <;> exact le_refl _
    · exact le_refl _
  | origState =>
    simp only [visit] at h
    simp only [Except.ok.injEq, Prod.mk.injEq] at h
    obtain ⟨hv, hr⟩ := h
    subst hv hr
    exact ⟨fun _ => le_refl _, fun a ha => by simp [Visit.key] at ha⟩

theorem pass_cons {env : Env} {r r' : TiffReader} {v : Visit} {vs res : List Visit}
    (h : pass env r (v :: vs) = .ok (res, r')) :
    ∃ v' r1 res', visit env r v = .ok (v', r1) ∧ pass env r1 vs = .ok (res', r') ∧
      res = v' :: res' := by
  simp only [pass] at h
  cases hv : visit env r v with
  | error e => rw [hv] at h; cases h
  | ok p1 =>
    obtain ⟨v', r1⟩ := p1
    rw [hv] at h
    simp only at h
    cases hp : pass env r1 vs with
    | error e => rw [hp] at h; cases h
    | ok p2 =>
      obtain ⟨res', r2⟩ := p2
      rw [hp] at h
      simp only [Except.ok.injEq, Prod.mk.injEq] at h
      obtain ⟨h1, h2⟩ := h
      subst h1 h2
      exact ⟨v', r1, res', rfl, hp, rfl⟩

/-- Index bookkeeping of a pass over nodes that all start with index `0`, from
a reader whose counters are not negative: counters only grow; a returned entry
node either is the node given (index `0`) or carries an index between the old
and the new counter of its group; two returned entry nodes of one group with
the same index are both the nodes given, with index `0`. -/
theorem pass_idx (env : Env) :
    ∀ (vs : List Visit) (r r' : TiffReader) (res : List Visit),
      (∀ g, 0 ≤ r.idxSeq_ g) →
      (∀ v ∈ vs, ∀ a, v.key = some a → a.2.2 = 0) →
      pass env r vs = .ok (res, r') →
      (∀ g, r.idxSeq_ g ≤ r'.idxSeq_ g) ∧
        (∀ (i : Nat) a, (res[i]?).bind Visit.key = some a →
          (a.2.2 = 0 ∧ res[i]? = vs[i]?) ∨
            (r.idxSeq_ a.1 < a.2.2 ∧ a.2.2 ≤ r'.idxSeq_ a.1)) ∧
        (∀ (i j : Nat) a b, i < j → (res[i]?).bind Visit.key = some a →
          (res[j]?).bind Visit.key = some b → a.1 = b.1 → a.2.2 = b.2.2 →
          a.2.2 = 0 ∧ res[i]? = vs[i]? ∧ res[j]? = vs[j]?) := by
  intro vs
  induction vs with
  | nil =>
    intro r r' res _ _ h
    simp only [pass, Except.ok.injEq, Prod.mk.injEq] at h
    obtain ⟨h1, h2⟩ := h
    subst h1 h2
    refine ⟨fun _ => le_refl _, ?_, ?_⟩
    · intro i a ha; simp at ha
    · intro i j a b _ ha; simp at ha
  | cons v vs ih =>
    intro r r' res hpos hfresh h
    obtain ⟨v', r1, res', hv, hp, hres⟩ := pass_cons h
    subst hres
    obtain ⟨hmono1, hstep⟩ := visit_idx hv
    have hpos1 : ∀ g, 0 ≤ r1.idxSeq_ g := fun g => le_trans (hpos g) (hmono1 g)
    have hfresh' : ∀ w ∈ vs, ∀ a, w.key = some a → a.2.2 = 0 :=
      fun w hw => hfresh w (List.mem_cons_of_mem _ hw)
    obtain ⟨hmono2, hrange, hpair⟩ := ih r1 r' res' hpos1 hfresh' hp
    have hhead : ∀ a, v'.key = some a →
        (a.2.2 = 0 ∧ v' = v) ∨ (r.idxSeq_ a.1 < a.2.2 ∧ a.2.2 ≤ r1.idxSeq_ a.1) := by
      intro a ha
      rcases hstep a ha with h1 | h1
      · left
        refine ⟨?_, h1⟩
        rw [h1] at ha
        exact hfresh v (List.mem_cons_self _ _) a ha
      · exact Or.inr h1
    refine ⟨fun g => le_trans (hmono1 g) (hmono2 g), ?_, ?_⟩
    · intro i a ha
      cases i with
      | zero =>
        simp only [List.getElem?_cons_zero, Option.some_bind] at ha
        rcases hhead a ha with ⟨h0, hv0⟩ | ⟨h1, h2⟩
        · left
          exact ⟨h0, by simp [hv0]⟩
        · right
          exact ⟨h1, le_trans h2 (hmono2 _)⟩
      | succ i =>
        simp only [List.getElem?_cons_succ] at ha ⊢
        rcases hrange i a ha with h0 | ⟨h1, h2⟩
        · exact Or.inl h0
        · exact Or.inr ⟨lt_of_le_of_lt (hmono1 _) h1, h2⟩
    · intro i j a b hij ha hb hg hidx
      cases j with
      | zero => omega
      | succ j =>
        simp only [List.getElem?_cons_succ] at hb ⊢
        cases i with
        | zero =>
          simp only [List.getElem?_cons_zero, Option.some_bind] at ha ⊢
          rcases hhead a ha with ⟨h0, hv0⟩ | ⟨h1, h2⟩
          · rcases hrange j b hb with ⟨hb0, hbe⟩ | ⟨h3, h4⟩
            · exact ⟨h0, by simp [hv0], hbe⟩
            · have := hpos1 b.1
              omega
          · rcases hrange j b hb with ⟨hb0, hbe⟩ | ⟨h3, h4⟩
            · have := hpos a.1
              omega
            · rw [hg] at h2
              omega
        | succ i =>
          simp only [List.getElem?_cons_succ] at ha ⊢
          exact hpair i j a b (by omega) ha hb hg hidx

/-- The claim C6 as stated fails: the two entries of the sample directory are
distinct nodes (their slots are at `1002` and `1014`) created by
`visitDirectory`; both have the tag `0x0100` and the count `0x10000000`, both
are skipped by `readTiffEntry`, and after the pass both carry the triple
(group 1, tag `0x0100`, index 0). -/
theorem pass_triples_counterexample :
    ∃ d e1 e2 r',
      pass Sample.env64 (Sample.reader Sample.dupSkipData 0)
          [.directory (Sample.dirAt 1000), .entry (Sample.entryAt 0x0100 1002),
            .entry (Sample.entryAt 0x0100 1014)] =
        .ok ([.directory d, .entry e1, .entry e2], r') ∧
      d.components_ = [Sample.entryAt 0x0100 1002, Sample.entryAt 0x0100 1014] ∧
      e1 ≠ e2 ∧
      (Visit.entry e1).key = some (1, 0x0100, 0) ∧ (Visit.entry e2).key = some (1, 0x0100, 0) :=
  ⟨_, _, _, _, rfl, rfl, by decide, rfl, rfl⟩

/-- C6 (amended): in a pass of a fresh reader over nodes constructed with index
`0`, two distinct visited entry nodes carry the same triple (group, tag,
index) only if both were left by the reader as they were constructed, with
index `0`; so any two entry nodes of which at least one was assigned an index
carry distinct triples. -/
theorem pass_triples (env : Env) (pData : Nat) (data : List Nat) (state : TiffRwState)
    (vs res : List Visit) (r' : TiffReader)
    (hfresh : ∀ v ∈ vs, ∀ a, v.key = some a → a.2.2 = 0)
    (hpass : pass env (TiffReader.new pData data state) vs = .ok (res, r')) :
    ∀ (i j : Nat) a b, i < j → (res[i]?).bind Visit.key = some a →
      (res[j]?).bind Visit.key = some b → a = b →
      a.2.2 = 0 ∧ res[i]? = vs[i]? ∧ res[j]? = vs[j]? := by
  intro i j a b hij ha hb hab
  have hpos : ∀ g, 0 ≤ (TiffReader.new pData data state).idxSeq_ g := fun _ => le_refl _
  exact (pass_idx env vs _ r' res hpos hfresh hpass).2.2 i j a b hij ha hb
    (by rw [hab]) (by rw [hab])

/-- Witness of C6 (amended): the two entries of tag `0x0100` of the sample
directory are both read; they get the indices 1 and 2, and by the theorem
their triples can only be equal if the index is `0`. -/
theorem pass_triples_witness :
    ∃ res r',
      pass Sample.env64 (Sample.reader Sample.dupData 0)
          [.directory (Sample.dirAt 1000), .entry (Sample.entryAt 0x0100 1002),
            .entry (Sample.entryAt 0x0100 1014)] = .ok (res, r') ∧
      (res[1]?).bind Visit.key = some (1, 0x0100, 1) ∧
      (res[2]?).bind Visit.key = some (1, 0x0100, 2) ∧
      ∀ a b, (res[1]?).bind Visit.key = some a → (res[2]?).bind Visit.key = some b → a = b →
        a.2.2 = 0 :=
  ⟨_, _, rfl, rfl, rfl, fun a b ha hb hab =>
    (pass_triples Sample.env64 1000 Sample.dupData { byteOrder := .littleEndian, baseOffset := 0 }
      [.directory (Sample.dirAt 1000), .entry (Sample.entryAt 0x0100 1002),
        .entry (Sample.entryAt 0x0100 1014)] _ _
      (by
        intro v hv a ha
        simp only [List.mem_cons, List.mem_singleton, List.not_mem_nil, or_false] at hv
        rcases hv with rfl | rfl | rfl
        · simp [Visit.key] at ha
        · simp only [Visit.key, Option.some.injEq] at ha
          subst ha
          rfl
        · simp only [Visit.key, Option.some.injEq] at ha
          subst ha
          rfl)
      rfl 1 2 a b (by decide) ha hb hab).1⟩

theorem recordDir_dirList (r : TiffReader) (start : Nat) (group : IfdId) (a : Nat) :
    (r.recordDir start group).dirList_ a = if a = start then some group else r.dirList_ a :=
  rfl

/-- The directory addresses a visit leaves recorded: those recorded before and
the start of the visited directory. -/
theorem visit_dirList {env : Env} {r r' : TiffReader} {v v' : Visit}
    (h : visit env r v = .ok (v', r')) (a : Nat) :
    r'.dirList_ a ≠ none ↔
      (r.dirList_ a ≠ none ∨ ∃ d, v = .directory d ∧ d.start = a) := by
  cases v with
  | entry object =>
    simp only [visit] at h
    cases hre : readTiffEntry env r object with
    | error e => rw [hre] at h; cases h
    | ok res =>
      obtain ⟨o1, r1⟩ := res
      rw [hre] at h
      simp only [Except.ok.injEq, Prod.mk.injEq] at h
      obtain ⟨-, hr⟩ := h
      subst hr
      have hd : r1.dirList_ = r.dirList_ := by
        rcases readTiffEntry_cases hre with ⟨-, hr⟩ | ⟨-, -, -, hr⟩ <;> subst hr <;> rfl
      rw [hd]
      simp
  | binaryElement object =>
    simp only [visit] at h
    cases hre : visitBinaryElement env r object with
    | error e => rw [hre] at h; cases h
    | ok res =>
      obtain ⟨o1, r1⟩ := res
      rw [hre] at h
      simp only [Except.ok.injEq, Prod.mk.injEq] at h
      obtain ⟨-, hr⟩ := h
      subst hr
      have hd : r1.dirList_ = r.dirList_ := by
        unfold visitBinaryElement at hre
        simp only at hre
        split at hre
        · cases hre
        · simp only [Except.ok.injEq, Prod.mk.injEq] at hre
          obtain ⟨-, hr⟩ := hre
          subst hr
          rfl
      rw [hd]
      simp
  | directory object =>
    simp only [visit] at h
    cases hre : visitDirectory env r object with
    | error e => rw [hre] at h; cases h
    | ok res =>
      obtain ⟨o1, r1⟩ := res
      rw [hre] at h
      simp only [Except.ok.injEq, Prod.mk.injEq] at h
      obtain ⟨-, hr⟩ := h
      subst hr
      rw [visitDirectory_reader hre]
      unfold circularReference
      cases hl : r.dirList_ object.start with
      | some g =>
        simp only
        constructor
        · exact fun h => Or.inl h
        · rintro (h | ⟨d, hd, rfl⟩)
          · exact h
          · simp only [Visit.directory.injEq] at hd
            subst hd
            rw [hl]
            simp
      | none =>
        simp only [recordDir_dirList]
        by_cases ha : a = object.start
        · rw [if_pos ha]
          simp only [ne_eq, reduceCtorEq, not_false_eq_true, true_iff]
          exact Or.inr ⟨object, rfl, ha.symm⟩
        · rw [if_neg ha]
          constructor
          · exact fun h => Or.inl h
          · rintro (h | ⟨d, hd, rfl⟩)
            · exact h
            · simp only [Visit.directory.injEq] at hd
              subst hd
              exact absurd rfl ha
  | mnState state =>
    simp only [visit, Except.ok.injEq, Prod.mk.injEq] at h
    obtain ⟨-, hr⟩ := h
    subst hr
    have hd : (r.setMnState state).dirList_ = r.dirList_ := by
      unfold setMnState
      split
      · split <;> rfl
      · rfl
    rw [hd]
    simp
  | origState =>
    simp only [visit, Except.ok.injEq, Prod.mk.injEq] at h
    obtain ⟨-, hr⟩ := h
    subst hr
    have hd : r.setOrigState.dirList_ = r.dirList_ := rfl
    rw [hd]
    simp

/-- The directory addresses a pass leaves recorded: those recorded before and
the starts of the directories visited. -/
theorem pass_dirList (env : Env) :
    ∀ (vs : List Visit) (r r' : TiffReader) (res : List Visit),
      pass env r vs = .ok (res, r') → ∀ a,
        (r'.dirList_ a ≠ none ↔
          (r.dirList_ a ≠ none ∨ ∃ d, Visit.directory d ∈ vs ∧ d.start = a)) := by
  intro vs
  induction vs with
  | nil =>
    intro r r' res h a
    simp only [pass, Except.ok.injEq, Prod.mk.injEq] at h
    obtain ⟨-, h2⟩ := h
    subst h2
    simp
  | cons v vs ih =>
    intro r r' res h a
    obtain ⟨v', r1, res', hv, hp, -⟩ := pass_cons h
    rw [ih r1 r' res' hp a, visit_dirList hv a]
    constructor
    · rintro ((h1 | ⟨d, hd, hs⟩) | ⟨d, hd, hs⟩)
      · exact Or.inl h1
      · exact Or.inr ⟨d, by rw [hd]; exact List.mem_cons_self _ _, hs⟩
      · exact Or.inr ⟨d, List.mem_cons_of_mem _ hd, hs⟩
    · rintro (h1 | ⟨d, hd, hs⟩)
      · exact Or.inl (Or.inl h1)
      · rcases List.mem_cons.mp hd with h2 | h2
        · exact Or.inl (Or.inr ⟨d, h2.symm, hs⟩)
        · exact Or.inr ⟨d, h2, hs⟩

/-- C8: in a pass of a fresh reader, after the first `j` visits, for a directory
`d` of any group visited next, `circularReference` returns true exactly when
one of those `j` visits was to a directory with the same start address,
whatever the groups, and returns false with the address recorded otherwise;
and whenever it returns true `visitDirectory` returns normally with the
directory as it was, so without child or next link added: only the first
directory visited at a start address is ever expanded. -/
theorem circularReference_first_visit (env : Env) (pData : Nat) (data : List Nat)
    (state : TiffRwState) (vs pre : List Visit) (j : Nat) (d : TiffDirectory) (rj : TiffReader)
    (hpre : pass env (TiffReader.new pData data state) (vs.take j) = .ok (pre, rj)) :
    ((rj.circularReference d.start d.group).1 = true ↔
        ∃ i d0, i < j ∧ vs[i]? = some (.directory d0) ∧ d0.start = d.start) ∧
      ((rj.circularReference d.start d.group).1 = false →
        (rj.circularReference d.start d.group).2.dirList_ d.start = some d.group) ∧
      ((rj.circularReference d.start d.group).1 = true →
        visitDirectory env rj d = .ok (d, rj)) := by
  have hiff := pass_dirList env (vs.take j) _ rj pre hpre d.start
  refine ⟨?_, ?_, ?_⟩
  · rw [circularReference_fst, hiff]
    constructor
    · rintro (h | ⟨d0, hd0, hs⟩)
      · exact absurd rfl h
      · obtain ⟨i, hi⟩ := List.mem_iff_getElem?.mp hd0
        rw [List.getElem?_take] at hi
        split at hi
        · rename_i hlt
          exact ⟨i, d0, hlt, hi, hs⟩
        · cases hi
    · rintro ⟨i, d0, hlt, hi, hs⟩
      right
      refine ⟨d0, List.mem_iff_getElem?.mpr ⟨i, ?_⟩, hs⟩
      rw [List.getElem?_take, if_pos hlt]
      exact hi
  · intro hf
    have hnone : rj.dirList_ d.start = none := by
      by_contra hne
      have := (circularReference_fst rj d.start d.group).mpr hne
      rw [hf] at this
      cases this
    rw [circularReference_fresh rj _ _ hnone, recordDir_dirList, if_pos rfl]
  · intro ht
    have hne := (circularReference_fst rj d.start d.group).mp ht
    unfold visitDirectory
    simp only
    rw [if_pos ht]
    unfold circularReference
    cases hl : rj.dirList_ d.start with
    | none => exact absurd hl hne
    | some g => rfl

/-- Witness of C8: the next pointer of the sample directory at `1004` leads
back to `1004`; the next directory, of group 2, is visited second, found in
the list of directories read, and left without children. -/
theorem circularReference_first_visit_witness :
    ∃ pre rj, pass Sample.env64 (Sample.reader Sample.loopData 0)
        [.directory (Sample.dirAt 1004)] = .ok (pre, rj) ∧
      (pre.map fun v => match v with
        | .directory d => d.pNext_.map fun tc => (tc.group, tc.start)
        | _ => none) = [some (2, 1004)] ∧
      (rj.circularReference 1004 2).1 = true ∧
      visitDirectory Sample.env64 rj ((TiffDirectory.new 0x20000 2 true).setStart 1004) =
        .ok ((TiffDirectory.new 0x20000 2 true).setStart 1004, rj) := by
  have h := circularReference_first_visit Sample.env64 1000 Sample.loopData
    { byteOrder := .littleEndian, baseOffset := 0 }
    [.directory (Sample.dirAt 1004), .directory ((TiffDirectory.new 0x20000 2 true).setStart 1004)]
    _ 1 ((TiffDirectory.new 0x20000 2 true).setStart 1004) _ rfl
  have ht := h.1.mpr ⟨0, Sample.dirAt 1004, by decide, rfl, rfl⟩
  exact ⟨_, _, rfl, rfl, ht, h.2.2 ht⟩

/-- No visit of a pass changes the state given at construction. -/
theorem visit_origState {env : Env} {r r' : TiffReader} {v v' : Visit}
    (h : visit env r v = .ok (v', r')) : r'.origState_ = r.origState_ := by
  cases v with
  | entry object =>
    simp only [visit] at h
    cases hre : readTiffEntry env r object with
    | error e => rw [hre] at h; cases h
    | ok res =>
      obtain ⟨o1, r1⟩ := res
      rw [hre] at h
      simp only [Except.ok.injEq, Prod.mk.injEq] at h
      obtain ⟨-, hr⟩ := h
      subst hr
      rcases readTiffEntry_cases hre with ⟨-, hr⟩ | ⟨-, -, -, hr⟩ <;> subst hr <;> rfl
  | binaryElement object =>
    simp only [visit] at h
    cases hre : visitBinaryElement env r object with
    | error e => rw [hre] at h; cases h
    | ok res =>
      obtain ⟨o1, r1⟩ := res
      rw [hre] at h
      simp only [Except.ok.injEq, Prod.mk.injEq] at h
      obtain ⟨-, hr⟩ := h
      subst hr
      unfold visitBinaryElement at hre
      simp only at hre
      split at hre
      · cases hre
      · simp only [Except.ok.injEq, Prod.mk.injEq] at hre
        obtain ⟨-, hr⟩ := hre
        subst hr
        rfl
  | directory object =>
    simp only [visit] at h
    cases hre : visitDirectory env r object with
    | error e => rw [hre] at h; cases h
    | ok res =>
      obtain ⟨o1, r1⟩ := res
      rw [hre] at h
      simp only [Except.ok.injEq, Prod.mk.injEq] at h
      obtain ⟨-, hr⟩ := h
      subst hr
      rw [visitDirectory_reader hre]
      unfold circularReference
      split <;> rfl
  | mnState state =>
    simp only [visit, Except.ok.injEq, Prod.mk.injEq] at h
    obtain ⟨-, hr⟩ := h
    subst hr
    unfold setMnState
    split
    · split <;> rfl
    · rfl
  | origState =>
    simp only [visit, Except.ok.injEq, Prod.mk.injEq] at h
    obtain ⟨-, hr⟩ := h
    subst hr
    rfl

/-- No pass changes the state given at construction. -/
theorem pass_origState (env : Env) :
    ∀ (vs : List Visit) (r r' : TiffReader) (res : List Visit),
      pass env r vs = .ok (res, r') → r'.origState_ = r.origState_ := by
  intro vs
  induction vs with
  | nil =>
    intro r r' res h
    simp only [pass, Except.ok.injEq, Prod.mk.injEq] at h
    rw [← h.2]
  | cons v vs ih =>
    intro r r' res h
    obtain ⟨v', r1, res', hv, hp, -⟩ := pass_cons h
    rw [ih r1 r' res' hp, visit_origState hv]

/-- C11: for a reader constructed with the state `s0`, at any point of a pass,
and a makernote state `m` with a valid byte order: after `setMnState(m)` the
byte order and the base offset of the reader are those of `m`, and after the
following `setOrigState()` they are those of `s0`. -/
theorem setMnState_setOrigState (env : Env) (pData : Nat) (data : List Nat)
    (s0 m : TiffRwState) (vs res : List Visit) (r : TiffReader)
    (hm : m.byteOrder ≠ .invalidByteOrder)
    (hpass : pass env (TiffReader.new pData data s0) vs = .ok (res, r)) :
    (r.setMnState (some m)).byteOrder = m.byteOrder ∧
      (r.setMnState (some m)).baseOffset = m.baseOffset ∧
      (r.setMnState (some m)).setOrigState.byteOrder = s0.byteOrder ∧
      (r.setMnState (some m)).setOrigState.baseOffset = s0.baseOffset := by
  have ho : r.origState_ = s0 := pass_origState env vs _ r res hpass
  have hs : r.setMnState (some m) = { r with mnState_ := m, pState_ := .mn } := by
    simp only [setMnState, if_neg hm]
  rw [hs]
  refine ⟨rfl, rfl, ?_, ?_⟩
  · show r.origState_.byteOrder = s0.byteOrder
    rw [ho]
  · show r.origState_.baseOffset = s0.baseOffset
    rw [ho]

/-- Witness of C11: outer state II with base offset 0, makernote state MM with
base offset 26, entered after the sample directory and its two entries were
read: MM and 26 inside the makernote, II and 0 after leaving it. -/
theorem setMnState_setOrigState_witness :
    ∃ res r,
      pass Sample.env64 (Sample.reader Sample.dupData 0)
          [.directory (Sample.dirAt 1000), .entry (Sample.entryAt 0x0100 1002),
            .entry (Sample.entryAt 0x0100 1014)] = .ok (res, r) ∧
      (r.setMnState (some { byteOrder := .bigEndian, baseOffset := 26 })).byteOrder =
        .bigEndian ∧
      (r.setMnState (some { byteOrder := .bigEndian, baseOffset := 26 })).baseOffset = 26 ∧
      (r.setMnState (some { byteOrder := .bigEndian, baseOffset := 26
        })).setOrigState.byteOrder = .littleEndian ∧
      (r.setMnState (some { byteOrder := .bigEndian, baseOffset := 26
        })).setOrigState.baseOffset = 0 :=
  ⟨_, _, rfl,
    setMnState_setOrigState Sample.env64 1000 Sample.dupData
      { byteOrder := .littleEndian, baseOffset := 0 }
      { byteOrder := .bigEndian, baseOffset := 26 }
      [.directory (Sample.dirAt 1000), .entry (Sample.entryAt 0x0100 1002),
        .entry (Sample.entryAt 0x0100 1014)] _ _ (by decide) rfl⟩

end TiffReader

namespace ExifData

theorem lookup_assign_same (key : ExifKey) (v : Value) :
    ∀ d : ExifData, ((assign key v d).lookup key).map (fun x => x.value) = some (some v) := by
  intro d
  induction d with
  | nil => simp [assign, lookup]
  | cons x xs ih =>
    unfold assign
    by_cases h : x.key.key = key.key
    · rw [if_pos h]
      simp [lookup, h]
    · rw [if_neg h]
      simp only [lookup, List.find?_cons, h, decide_False] at ih ⊢
      exact ih

theorem lookup_assign_other (key key' : ExifKey) (v : Value) (hne : key'.key ≠ key.key) :
    ∀ d : ExifData, (assign key v d).lookup key' = d.lookup key' := by
  intro d
  induction d with
  | nil =>
    have h : ¬ (key.key = key'.key) := fun h => hne h.symm
    simp [assign, lookup, h]
  | cons x xs ih =>
    unfold assign
    by_cases h : x.key.key = key.key
    · rw [if_pos h]
      have h' : ¬ (x.key.key = key'.key) := fun e => hne (e.symm.trans h)
      simp [lookup, h']
    · rw [if_neg h]
      simp only [lookup, List.find?_cons] at ih ⊢
      rw [ih]

end ExifData

namespace TiffDecoder

/-- C12: `decodeStdTiffEntry` leaves the records of the collection as they are,
in their order, and appends exactly one record; its tag, group name and
duplicate index are those of the node and its value is the value of the node. -/
theorem decodeStdTiffEntry_appends (penv : ExifEnv) (dec : TiffDecoder)
    (object : TiffEntryBase) :
    ∃ rec, (decodeStdTiffEntry penv dec object).exifData_ = dec.exifData_ ++ [rec] ∧
      rec.key.tag = object.tag ∧ rec.key.groupName = penv.groupName object.group ∧
      rec.key.idx = object.idx ∧ rec.value = object.pValue :=
  ⟨_, rfl, rfl, rfl, rfl, rfl⟩

/-- The claim C13 as stated fails: for a makernote node whose byte order is
`invalidByteOrder`, visited with an empty collection, the collection holds no
`Exif.MakerNote.ByteOrder` record after `visitIfdMakernote`; only the offset
record is there. -/
theorem visitIfdMakernote_counterexample :
    (visitIfdMakernote Sample.exifEnv Sample.decoder
        { mnOffset_ := 26, byteOrder := .invalidByteOrder }).exifData_.lookup
        (ExifKey.ofName Sample.exifEnv "MakerNote" "ByteOrder") = none ∧
      ((visitIfdMakernote Sample.exifEnv Sample.decoder
        { mnOffset_ := 26, byteOrder := .invalidByteOrder }).exifData_.map
          fun x => x.key.key) = [("MakerNote", "Offset")] := by
  constructor <;> decide

/-- C13 (amended): after `visitIfdMakernote` the record `Exif.MakerNote.Offset`
holds the offset of the makernote converted to `uint32_t`; for a little endian
node the record `Exif.MakerNote.ByteOrder` holds `II`, for a big endian node
`MM`; for a node with `invalidByteOrder` no byte order record is written: the
collection has that record exactly if it had it before. -/
theorem visitIfdMakernote_provenance (penv : ExifEnv) (dec : TiffDecoder)
    (object : TiffIfdMakernote) :
    (((visitIfdMakernote penv dec object).exifData_.lookup
        (ExifKey.ofName penv "MakerNote" "Offset")).map fun x => x.value) =
        some (some (penv.uint32Value (object.mnOffset_ % 4294967296))) ∧
      (object.byteOrder = .littleEndian →
        (((visitIfdMakernote penv dec object).exifData_.lookup
          (ExifKey.ofName penv "MakerNote" "ByteOrder")).map fun x => x.value) =
          some (some (penv.textValue "II"))) ∧
      (object.byteOrder = .bigEndian →
        (((visitIfdMakernote penv dec object).exifData_.lookup
          (ExifKey.ofName penv "MakerNote" "ByteOrder")).map fun x => x.value) =
          some (some (penv.textValue "MM"))) ∧
      (object.byteOrder = .invalidByteOrder →
        (visitIfdMakernote penv dec object).exifData_.lookup
            (ExifKey.ofName penv "MakerNote" "ByteOrder") =
          dec.exifData_.lookup (ExifKey.ofName penv "MakerNote" "ByteOrder")) := by
  have hne : (ExifKey.ofName penv "MakerNote" "Offset").key ≠
      (ExifKey.ofName penv "MakerNote" "ByteOrder").key := by
    simp [ExifKey.ofName, ExifKey.key]
  refine ⟨?_, ?_, ?_, ?_⟩
  · unfold visitIfdMakernote
    cases object.byteOrder with
    | littleEndian =>
      simp only
      rw [ExifData.lookup_assign_other _ _ _ hne, ExifData.lookup_assign_same]
    | bigEndian =>
      simp only
      rw [ExifData.lookup_assign_other _ _ _ hne, ExifData.lookup_assign_same]
    | invalidByteOrder =>
      simp only
      rw [ExifData.lookup_assign_same]
  · intro h
    unfold visitIfdMakernote
    rw [h]
    simp only
    rw [ExifData.lookup_assign_same]
  · intro h
    unfold visitIfdMakernote
    rw [h]
    simp only
    rw [ExifData.lookup_assign_same]
  · intro h
    unfold visitIfdMakernote
    rw [h]
    simp only
    rw [ExifData.lookup_assign_other _ _ _ hne.symm]

/-- Witness of C13 (amended): a big endian makernote at offset 26. -/
theorem visitIfdMakernote_provenance_witness :
    (((visitIfdMakernote Sample.exifEnv Sample.decoder
        { mnOffset_ := 26, byteOrder := .bigEndian }).exifData_.lookup
          (ExifKey.ofName Sample.exifEnv "MakerNote" "ByteOrder")).map fun x => x.value) =
      some (some (Sample.exifEnv.textValue "MM")) :=
  (visitIfdMakernote_provenance Sample.exifEnv Sample.decoder
    { mnOffset_ := 26, byteOrder := .bigEndian }).2.2.1 rfl

/-- C14: for an autofocus-info entry with a value, if the value has fewer than
3 words, or is not of type unsigned short, or its first word read as `int16_t`
differs from twice the word count converted to `int16_t`, then
`decodeCanonAFInfo` returns normally and has added the generic record of
`decodeStdTiffEntry` and nothing else. -/
theorem decodeCanonAFInfo_generic_only (penv : ExifEnv) (dec : TiffDecoder)
    (object : TiffEntryBase) (v : Value) (hv : object.pValue = some v)
    (hc : penv.valueCount v.typeId v.bytes.length < 3 ∨ v.typeId ≠ penv.unsignedShort ∨
      toInt16 (v.ushortAt 0) ≠ toInt16 (penv.valueCount v.typeId v.bytes.length) * 2) :
    decodeCanonAFInfo penv dec object = .ok (decodeStdTiffEntry penv dec object) ∧
      (decodeStdTiffEntry penv dec object).exifData_ = dec.exifData_ ++
        [{ key := (ExifKey.ofTag penv object.tag (penv.groupName object.group)).setIdx object.idx
           value := some v }] := by
  constructor
  · unfold decodeCanonAFInfo
    simp only [hv]
    by_cases h1 : penv.valueCount v.typeId v.bytes.length < 3 ∨ v.typeId ≠ penv.unsignedShort
    · rw [if_pos h1]
    · rw [if_neg h1]
      have h2 : toInt16 (v.ushortAt 0) ≠
          toInt16 (penv.valueCount v.typeId v.bytes.length) * 2 := by
        rcases hc with h | h | h
        · exact absurd (Or.inl h) h1
        · exact absurd (Or.inr h) h1
        · exact h
      rw [if_pos h2]
  · simp only [decodeStdTiffEntry, ExifData.add, hv]

/-- Witness of C14: 20 unsigned 16-bit words with the first word `41`: only
the generic record is added. -/
theorem decodeCanonAFInfo_generic_only_witness :
    decodeCanonAFInfo Sample.exifEnv Sample.decoder
        (Sample.valueEntry 0x0026 Sample.afShortValue) =
      .ok (decodeStdTiffEntry Sample.exifEnv Sample.decoder
        (Sample.valueEntry 0x0026 Sample.afShortValue)) ∧
      (Sample.exifEnv.valueCount Sample.afShortValue.typeId
          Sample.afShortValue.bytes.length = 20 ∧
        Sample.afShortValue.ushortAt 0 = 41) :=
  ⟨(decodeCanonAFInfo_generic_only Sample.exifEnv Sample.decoder
      (Sample.valueEntry 0x0026 Sample.afShortValue) Sample.afShortValue rfl
      (Or.inr (Or.inr (by decide)))).1, by decide⟩

/-- While the 16-bit running sum cannot wrap, a passed check means that the
words of all records fit the array. -/
theorem enoughData_no_wrap (size : Nat) :
    ∀ (recs : List (Nat × Nat × Bool)) (count : Nat), recs ≠ [] →
      count + (recs.map fun x => x.2.1).sum < 65536 →
      enoughData size recs count = true →
      count + (recs.map fun x => x.2.1).sum ≤ size := by
  intro recs
  induction recs with
  | nil => intro count h; exact absurd rfl h
  | cons x rest ih =>
    intro count _ hlt h
    obtain ⟨tag, sz, b⟩ := x
    simp only [List.map_cons, List.sum_cons] at hlt ⊢
    have hmod : (count + sz) % 65536 = count + sz := Nat.mod_eq_of_lt (by omega)
    simp only [enoughData, hmod] at h
    by_cases hgt : count + sz > size
    · rw [if_pos hgt] at h
      cases h
    · rw [if_neg hgt] at h
      cases rest with
      | nil => simp only [List.map_nil, List.sum_nil]; omega
      | cons y ys =>
        have := ih (count + sz) (by simp) (by omega) h
        omega

/-- The part of C15 that holds: when `8 + 4 * nPoints + 3 * nMasks` is below
`2^16`, so that the running sum of the check does not wrap, an array that
passes the check has at least that many words. -/
theorem enoughData_afRecords_no_wrap (size nPoints nMasks : Nat)
    (hlt : 8 + 4 * nPoints + 3 * nMasks < 65536)
    (h : enoughData size (afRecords nPoints nMasks) 0 = true) :
    8 + 4 * nPoints + 3 * nMasks ≤ size := by
  have hs : ((afRecords nPoints nMasks).map fun x => x.2.1).sum =
      8 + 4 * nPoints + 3 * nMasks := by
    simp only [afRecords, List.map_cons, List.map_nil, List.sum_cons, List.sum_nil]
    omega
  have := enoughData_no_wrap size (afRecords nPoints nMasks) 0 (by simp [afRecords])
    (by rw [hs]; omega) h
  rw [hs] at this
  omega

/-- An instance of `enoughData_afRecords_no_wrap`: 9 points in 60 words. -/
theorem enoughData_afRecords_no_wrap_witness : 8 + 4 * 9 + 3 * 1 ≤ 60 :=
  enoughData_afRecords_no_wrap 60 9 1 (by decide) (by decide)

/-- What the wrap of the 16-bit running sum leads to: an unsigned short array
of 12292 words with first word `24584` and third word `65535`, decoded with a
tag table that has the sub-record tags, passes all checks, and the split then
reads past the end of the array. -/
theorem decodeCanonAFInfo_out_of_range (penv : ExifEnv) (dec : TiffDecoder)
    (object : TiffEntryBase) (v : Value) (hv : object.pValue = some v)
    (hty : v.typeId = penv.unsignedShort)
    (hcount : penv.valueCount v.typeId v.bytes.length = 12292)
    (h0 : v.ushortAt 0 = 24584) (h2 : v.ushortAt 2 = 65535)
    (htags : penv.canonTags = Sample.canonTags) :
    decodeCanonAFInfo penv dec object = .error .out_of_range := by
  have hc1 : ¬ (12292 < 3 ∨ v.typeId ≠ penv.unsignedShort) := by
    rintro (h | h)
    · omega
    · exact h hty
  have hc2 : ¬ (toInt16 24584 ≠ toInt16 12292 * 2) := by decide
  have hm : (65535 + 15) / 16 % 65536 = 4096 := by decide
  have he : ¬ (enoughData 12292 (afRecords 65535 4096) 0 = false) := by decide
  unfold decodeCanonAFInfo
  simp only [hv, hcount, h0, h2, hm]
  rw [if_neg hc1, if_neg hc2, if_neg he]
  simp [splitRecords, afRecords, findTag, htags, Sample.canonTags]

/-- C15, the defect: the sample array of 12292 unsigned 16-bit words (first
word `24584`, twice the word count; third word `65535`, the number of points)
passes the check of `decodeCanonAFInfo`, because the 16-bit running sum wraps
at every run of `65535` words (its values are 1 to 8, then 7, 6, 5, 4, then
4100, 8196 and 12292); the sub-records need `8 + 4 * 65535 + 3 * 4096 = 274436`
words, and the split ends with the `std::out_of_range` of `at()`. -/
theorem decodeCanonAFInfo_counter_wraps :
    enoughData 12292 (afRecords 65535 4096) 0 = true ∧
      12292 < 8 + 4 * 65535 + 3 * 4096 ∧
      Sample.exifEnv.valueCount Sample.afWrapValue.typeId
        Sample.afWrapValue.bytes.length = 12292 ∧
      decodeCanonAFInfo Sample.exifEnv Sample.decoder
        (Sample.valueEntry 0x0026 Sample.afWrapValue) = .error .out_of_range := by
  have hlen : Sample.afWrapValue.bytes.length = 24584 := by
    simp only [Sample.afWrapValue, Sample.le16, List.length_append, List.length_replicate,
      List.length_cons, List.length_nil]
  have hcount : Sample.exifEnv.valueCount Sample.afWrapValue.typeId
      Sample.afWrapValue.bytes.length = 12292 := by
    rw [hlen]
    decide
  exact ⟨by decide, by decide, hcount,
    decodeCanonAFInfo_out_of_range Sample.exifEnv Sample.decoder _ Sample.afWrapValue rfl rfl
      hcount (by decide) (by decide) rfl⟩

end TiffDecoder

namespace ExifData

theorem findPos_some {p : Exifdatum → Bool} :
    ∀ {d : ExifData} {i : Nat}, findPos p d = some i →
      ∃ x, d[i]? = some x ∧ p x = true ∧ ∀ j y, j < i → d[j]? = some y → p y = false := by
  intro d
  induction d with
  | nil => intro i h; simp [findPos] at h
  | cons a as ih =>
    intro i h
    simp only [findPos] at h
    by_cases ha : p a = true
    · rw [if_pos ha] at h
      cases h
      exact ⟨a, by simp, ha, fun j y hj => absurd hj (Nat.not_lt_zero _)⟩
    · rw [if_neg ha] at h
      cases hf : findPos p as with
      | none => rw [hf] at h; simp at h
      | some k =>
        rw [hf] at h
        simp only [Option.map_some', Option.some.injEq] at h
        subst h
        obtain ⟨x, hx, hpx, hmin⟩ := ih hf
        refine ⟨x, by simpa using hx, hpx, ?_⟩
        intro j y hj hy
        cases j with
        | zero =>
          simp only [List.getElem?_cons_zero, Option.some.injEq] at hy
          subst hy
          simpa using ha
        | succ j => exact hmin j y (by omega) (by simpa using hy)

theorem findPos_exists {p : Exifdatum → Bool} :
    ∀ {d : ExifData} {i : Nat} {x : Exifdatum}, d[i]? = some x → p x = true →
      ∃ j, j ≤ i ∧ findPos p d = some j := by
  intro d
  induction d with
  | nil => intro i x h; simp at h
  | cons a as ih =>
    intro i x h hp
    by_cases ha : p a = true
    · exact ⟨0, Nat.zero_le _, by simp [findPos, ha]⟩
    · cases i with
      | zero =>
        simp only [List.getElem?_cons_zero, Option.some.injEq] at h
        subst h
        exact absurd hp ha
      | succ i =>
        obtain ⟨j, hj, hf⟩ := ih (by simpa using h) hp
        exact ⟨j + 1, by omega, by simp [findPos, ha, hf]⟩

theorem findPos_none {p : Exifdatum → Bool} {d : ExifData} (h : findPos p d = none) :
    ∀ x ∈ d, p x = false := by
  intro x hx
  obtain ⟨i, hi⟩ := List.getElem?_of_mem hx
  cases hp : p x with
  | false => rfl
  | true =>
    obtain ⟨j, _, hf⟩ := findPos_exists hi hp
    rw [h] at hf
    cases hf

theorem findKey_some {d : ExifData} {key : ExifKey} {i : Nat} (h : findKey d key = some i) :
    ∃ x, d[i]? = some x ∧ x.key.key = key.key := by
  obtain ⟨x, hx, hp, _⟩ := findPos_some h
  exact ⟨x, hx, by simpa using hp⟩

theorem lookup_eq_findKey (d : ExifData) (key : ExifKey) :
    lookup d key = (findKey d key).bind fun i => d[i]? := by
  induction d with
  | nil => rfl
  | cons a as ih =>
    by_cases ha : a.key.key = key.key
    · simp [lookup, findKey, findPos, ha]
    · have ih' : List.find? (fun x => decide (x.key.key = key.key)) as =
          (findPos (fun x => decide (x.key.key = key.key)) as).bind fun i => as[i]? := ih
      simp only [lookup, findKey, findPos, List.find?_cons, ha, decide_False,
        Bool.false_eq_true, if_false, ih']
      cases findPos (fun x => decide (x.key.key = key.key)) as with
      | none => rfl
      | some k => simp

theorem mem_eraseIdx_of_ne {x y : Exifdatum} :
    ∀ {d : ExifData} {i : Nat}, x ∈ d → d[i]? = some y → y ≠ x → x ∈ d.eraseIdx i := by
  intro d
  induction d with
  | nil => intro i h; simp at h
  | cons a as ih =>
    intro i hx hy hne
    cases i with
    | zero =>
      simp only [List.getElem?_cons_zero, Option.some.injEq] at hy
      subst hy
      rcases List.mem_cons.mp hx with h | h
      · exact absurd h.symm hne
      · simpa using h
    | succ i =>
      rcases List.mem_cons.mp hx with h | h
      · subst h
        simp
      · have := ih h (by simpa using hy) hne
        simp [this]

end ExifData

namespace TiffEncoder

theorem encodeTiffEntryBase_fst (penv : ExifEnv) (e : TiffEncoder) (object : TiffEntryBase)
    (datum : Exifdatum) :
    (encodeTiffEntryBase penv e object datum).1 =
      if datum.size penv > object.size then e.setDirty true else e := rfl

theorem encodeOffsetEntry_fst (penv : ExifEnv) (e : TiffEncoder) (object : TiffEntryBase)
    (datum : Exifdatum) :
    (encodeOffsetEntry penv e object datum).1 =
      if datum.size penv > object.size then e.setDirty true else e := by
  unfold encodeOffsetEntry
  by_cases h : datum.size penv > object.size
  · simp only [h, if_true]
  · simp only [h, if_false]

theorem Marks.refl (e : TiffEncoder) : Marks e e := Or.inl rfl

theorem Marks.dirty (e : TiffEncoder) : Marks e (e.setDirty true) := Or.inr rfl

theorem Marks.trans_dirty {e e' : TiffEncoder} (h : Marks e e') : Marks e (e'.setDirty true) := by
  rcases h with h | h
  · rw [h]; exact Or.inr rfl
  · rw [h]; exact Or.inr rfl

theorem encodeTiffEntryBase_marks (penv : ExifEnv) (e : TiffEncoder) (object : TiffEntryBase)
    (datum : Exifdatum) : Marks e (encodeTiffEntryBase penv e object datum).1 := by
  rw [encodeTiffEntryBase_fst]
  split
  · exact Marks.dirty e
  · exact Marks.refl e

theorem encodeOffsetEntry_marks (penv : ExifEnv) (e : TiffEncoder) (object : TiffEntryBase)
    (datum : Exifdatum) : Marks e (encodeOffsetEntry penv e object datum).1 := by
  rw [encodeOffsetEntry_fst]
  split
  · exact Marks.dirty e
  · exact Marks.refl e

theorem encodeDataEntry_marks (penv : ExifEnv) (e : TiffEncoder) (object : TiffNode)
    (datum : Exifdatum) : Marks e (encodeDataEntry penv e object datum).1 := by
  have h := encodeOffsetEntry_marks penv e object.entry datum
  unfold encodeDataEntry
  simp only []
  split
  · split
    · exact h
    · split
      · exact h.trans_dirty
      · exact h
  · exact h

theorem encodeImageEntry_marks (penv : ExifEnv) (e : TiffEncoder) (object : TiffNode)
    (datum : Exifdatum) : Marks e (encodeImageEntry penv e object datum).1 := by
  have h := encodeOffsetEntry_marks penv e object.entry datum
  unfold encodeImageEntry
  simp only []
  split
  · exact h
  · split
    · exact h.trans_dirty
    · exact h

theorem encodeMnEntry_marks (penv : ExifEnv) (e : TiffEncoder) (object : TiffNode)
    (datum : Exifdatum) : Marks e (encodeMnEntry penv e object datum).1 := by
  unfold encodeMnEntry
  split
  · exact encodeTiffEntryBase_marks penv e object.entry datum
  · exact Marks.refl e

theorem encode_marks (penv : ExifEnv) (e : TiffEncoder) (object : TiffNode)
    (datum : Exifdatum) : Marks e (encode penv e object datum).1 := by
  unfold encode
  split <;>
    first
    | exact encodeTiffEntryBase_marks penv e object.entry datum
    | exact encodeOffsetEntry_marks penv e object.entry datum
    | exact encodeDataEntry_marks penv e object datum
    | exact encodeImageEntry_marks penv e object datum
    | exact encodeMnEntry_marks penv e object datum

theorem encodeWith_marks (penv : ExifEnv) (e : TiffEncoder) (object : TiffNode)
    (ed : Exifdatum) : Marks e (encodeWith penv e object ed).1 := by
  unfold encodeWith
  split
  · split
    · exact encodeTiffEntryBase_marks penv e object.entry ed
    · exact encodeOffsetEntry_marks penv e object.entry ed
    · exact encode_marks penv e object ed
  · exact Marks.refl e

theorem Marks.exifData {e e' : TiffEncoder} (h : Marks e e') : e'.exifData_ = e.exifData_ := by
  rcases h with h | h <;> simp [h, setDirty]

theorem Marks.del {e e' : TiffEncoder} (h : Marks e e') : e'.del_ = e.del_ := by
  rcases h with h | h <;> simp [h, setDirty]

theorem Marks.origByteOrder {e e' : TiffEncoder} (h : Marks e e') :
    e'.origByteOrder_ = e.origByteOrder_ := by
  rcases h with h | h <;> simp [h, setDirty]

theorem Marks.byteOrder_eq {e e' : TiffEncoder} (h : Marks e e') :
    e'.byteOrder_ = e.byteOrder_ := by
  rcases h with h | h <;> simp [h, setDirty]

theorem Marks.dirty_mono {e e' : TiffEncoder} (h : Marks e e') (hd : e.dirty_ = true) :
    e'.dirty_ = true := by
  rcases h with h | h <;> rw [h]
  · exact hd
  · rfl

theorem selectRecord_key {penv : ExifEnv} {e : TiffEncoder} {object : TiffEntryBase} {i : Nat}
    (h : selectRecord penv e object = some i) :
    ∃ x, e.exifData_[i]? = some x ∧
      x.key.key = (ExifKey.ofTag penv object.tag (penv.groupName object.group)).key := by
  unfold selectRecord at h
  cases hf : e.exifData_.findKey (ExifKey.ofTag penv object.tag (penv.groupName object.group)) with
  | none => simp only [hf] at h; cases h
  | some pos =>
    obtain ⟨ed, hed, hk⟩ := ExifData.findKey_some hf
    simp only [hf, hed] at h
    by_cases hidx : object.idx ≠ ed.key.idx
    · rw [if_pos hidx] at h
      cases hp : ExifData.findPos (FindExifdatum2 penv object.group object.idx) e.exifData_ with
      | none =>
        simp only [hp, Option.some.injEq] at h
        subst h
        exact ⟨ed, hed, hk⟩
      | some pos2 =>
        obtain ⟨ed2, hed2, _, _⟩ := ExifData.findPos_some hp
        simp only [hp, hed2] at h
        by_cases hk2 : ed2.key.key =
            (ExifKey.ofTag penv object.tag (penv.groupName object.group)).key
        · rw [if_pos hk2] at h
          cases h
          exact ⟨ed2, hed2, hk2⟩
        · rw [if_neg hk2] at h
          cases h
          exact ⟨ed, hed, hk⟩
    · rw [if_neg hidx] at h
      cases h
      exact ⟨ed, hed, hk⟩

theorem Keeps.same (K : String × String → Prop) (e : TiffEncoder) : Keeps K e e :=
  ⟨fun h => h, rfl, rfl, fun _ h _ => h⟩

theorem Keeps.trans {K : String × String → Prop} {e e' e'' : TiffEncoder}
    (h : Keeps K e e') (h' : Keeps K e' e'') : Keeps K e e'' :=
  ⟨fun hd => h'.1 (h.1 hd), h'.2.1.trans h.2.1, h'.2.2.1.trans h.2.2.1,
    fun x hx hk => h'.2.2.2 x (h.2.2.2 x hx hk) hk⟩

theorem Keeps.mono {K K' : String × String → Prop} {e e' : TiffEncoder}
    (h : Keeps K e e') (hK : ∀ k, K k → K' k) : Keeps K' e e' :=
  ⟨h.1, h.2.1, h.2.2.1, fun x hx hk => h.2.2.2 x hx fun hk' => hk (hK _ hk')⟩

theorem Marks.keeps {e e' : TiffEncoder} (h : Marks e e') (K : String × String → Prop) :
    Keeps K e e' :=
  ⟨h.dirty_mono, h.origByteOrder, h.del, fun _ hx _ => by rw [h.exifData]; exact hx⟩

theorem keeps_byteOrder (K : String × String → Prop) (e : TiffEncoder) (bo : ByteOrder) :
    Keeps K e { e with byteOrder_ := bo } :=
  ⟨fun h => h, rfl, rfl, fun _ h _ => h⟩

theorem keeps_eraseIdx {K : String × String → Prop} (e : TiffEncoder) {pos : Nat}
    {ed : Exifdatum} (hed : e.exifData_[pos]? = some ed) (hK : K ed.key.key) :
    Keeps K e { e with exifData_ := e.exifData_.eraseIdx pos } :=
  ⟨fun h => h, rfl, rfl, fun _ hx hk =>
    ExifData.mem_eraseIdx_of_ne hx hed fun heq => hk (heq ▸ hK)⟩

theorem eraseKey_keeps (e : TiffEncoder) (key : ExifKey) :
    Keeps (fun k => k = key.key) e (eraseKey e key) := by
  unfold eraseKey
  cases hf : e.exifData_.findKey key with
  | none => exact Keeps.same _ e
  | some pos =>
    obtain ⟨ed, hed, hk⟩ := ExifData.findKey_some hf
    exact keeps_eraseIdx e hed hk

theorem encodeTiffComponent_keeps (penv : ExifEnv) (e : TiffEncoder) (object : TiffNode) :
    Keeps (fun k => k = (ExifKey.ofTag penv object.entry.tag
        (penv.groupName object.entry.group)).key) e
      (encodeTiffComponent penv e object none).1 := by
  unfold encodeTiffComponent
  cases hs : selectRecord penv e object.entry with
  | none => exact (Marks.dirty e).keeps _
  | some pos =>
    obtain ⟨ed, hed, hk⟩ := selectRecord_key hs
    simp only [hed]
    have hm := encodeWith_marks penv e object ed
    split
    · refine (hm.keeps _).trans ?_
      exact keeps_eraseIdx _ (by rw [hm.exifData]; exact hed) hk
    · exact hm.keeps _

theorem eraseKey_dirty (e : TiffEncoder) (key : ExifKey) :
    (eraseKey e key).dirty_ = e.dirty_ := by
  unfold eraseKey
  split <;> rfl

theorem visitMnEntry_keeps (penv : ExifEnv) (e : TiffEncoder) (object : TiffNode) :
    Keeps (fun k => k = (ExifKey.ofTag penv object.entry.tag
        (penv.groupName object.entry.group)).key) e (visitMnEntry penv e object).1 := by
  unfold visitMnEntry
  split
  · exact encodeTiffComponent_keeps penv e object
  · split
    · exact eraseKey_keeps e _
    · exact Keeps.same _ e

theorem visitBinaryArray_keeps (penv : ExifEnv) (e : TiffEncoder) (object : TiffNode) :
    Keeps (fun k => k = (ExifKey.ofTag penv object.entry.tag
        (penv.groupName object.entry.group)).key) e (visitBinaryArray penv e object).1 := by
  unfold visitBinaryArray
  split
  · exact encodeTiffComponent_keeps penv e object
  · exact Keeps.same _ e

theorem marks_ite (e : TiffEncoder) {α : Type} (c : Prop) [Decidable c] (a b : α) :
    Marks e (if c then (e.setDirty true, a) else (e, b)).1 := by
  split
  · exact Marks.dirty e
  · exact Marks.refl e

theorem visitBinaryArrayEnd_marks (penv : ExifEnv) (e : TiffEncoder) (object : TiffNode) :
    Marks e (visitBinaryArrayEnd penv e object).1 := by
  unfold visitBinaryArrayEnd
  split
  · exact Marks.refl e
  · split
    · exact Marks.refl e
    · simp only []
      split
      · exact Marks.refl e
      · split
        · exact Marks.refl e
        · split
          · exact marks_ite e _ _ _
          · exact Marks.refl e

theorem visitBinaryElement_keeps (penv : ExifEnv) (e : TiffEncoder) (object : TiffNode) :
    Keeps (fun k => k = (ExifKey.ofTag penv object.entry.tag
        (penv.groupName object.entry.group)).key) e (visitBinaryElement penv e object).1 := by
  unfold visitBinaryElement
  simp only []
  refine Keeps.trans ?_ (keeps_byteOrder _ _ _)
  split
  · exact (keeps_byteOrder _ e _).trans (encodeTiffComponent_keeps penv _ object)
  · exact encodeTiffComponent_keeps penv e object

theorem makernoteByteOrder_keeps (penv : ExifEnv) (e : TiffEncoder)
    (object : TiffIfdMakernote) :
    Keeps (fun k => k = ("MakerNote", "ByteOrder") ∨ k = ("MakerNote", "Offset")) e
      (makernoteByteOrder penv e object).1 := by
  unfold makernoteByteOrder
  cases hf : e.exifData_.findKey (ExifKey.ofName penv "MakerNote" "ByteOrder") with
  | none => exact Keeps.same _ e
  | some pos =>
    obtain ⟨ed, hed, hk⟩ := ExifData.findKey_some hf
    simp only [hed]
    have hK : (fun k : String × String =>
        k = ("MakerNote", "ByteOrder") ∨ k = ("MakerNote", "Offset")) ed.key.key :=
      Or.inl hk
    by_cases hbo : stringToByteOrder (ed.toString penv) ≠ .invalidByteOrder ∧
        stringToByteOrder (ed.toString penv) ≠ object.byteOrder
    · rw [if_pos hbo]
      split
      · exact ((Marks.dirty e).keeps _).trans (keeps_eraseIdx _ hed hK)
      · exact (Marks.dirty e).keeps _
    · rw [if_neg hbo]
      split
      · exact keeps_eraseIdx _ hed hK
      · exact Keeps.same _ e

theorem visitIfdMakernote_keeps (penv : ExifEnv) (e : TiffEncoder) (object : TiffIfdMakernote) :
    Keeps (fun k => k = ("MakerNote", "ByteOrder") ∨ k = ("MakerNote", "Offset")) e
      (visitIfdMakernote penv e object).1 := by
  unfold visitIfdMakernote
  simp only []
  refine Keeps.trans ?_ (keeps_byteOrder _ _ _)
  refine (makernoteByteOrder_keeps penv e object).trans ?_
  split
  · exact (eraseKey_keeps _ _).mono fun k hk => Or.inr hk
  · exact Keeps.same _ _

theorem visit_keeps (penv : ExifEnv) (e : TiffEncoder) (v : EncVisit) :
    Keeps (passKeys penv [v]) e (visit penv e v).2 := by
  cases v with
  | component object =>
    exact (encodeTiffComponent_keeps penv e object).mono fun k hk =>
      Or.inr (Or.inr ⟨_, List.mem_singleton.mpr rfl, object, rfl, hk⟩)
  | mnEntry object =>
    exact (visitMnEntry_keeps penv e object).mono fun k hk =>
      Or.inr (Or.inr ⟨_, List.mem_singleton.mpr rfl, object, rfl, hk⟩)
  | ifdMakernote object =>
    exact (visitIfdMakernote_keeps penv e object).mono fun k hk =>
      hk.elim Or.inl fun h => Or.inr (Or.inl h)
  | ifdMakernoteEnd => exact keeps_byteOrder _ e _
  | binaryArray object =>
    exact (visitBinaryArray_keeps penv e object).mono fun k hk =>
      Or.inr (Or.inr ⟨_, List.mem_singleton.mpr rfl, object, rfl, hk⟩)
  | binaryArrayEnd object => exact (visitBinaryArrayEnd_marks penv e object).keeps _
  | binaryElement object =>
    exact (visitBinaryElement_keeps penv e object).mono fun k hk =>
      Or.inr (Or.inr ⟨_, List.mem_singleton.mpr rfl, object, rfl, hk⟩)

theorem pass_keeps (penv : ExifEnv) :
    ∀ (vs : List EncVisit) (e : TiffEncoder), Keeps (passKeys penv vs) e (pass penv e vs).2 := by
  intro vs
  induction vs with
  | nil => intro e; exact Keeps.same _ e
  | cons v vs ih =>
    intro e
    refine Keeps.trans ((visit_keeps penv e v).mono ?_) ((ih (visit penv e v).2).mono ?_)
    · rintro k (h | h | ⟨w, hw, n, hn, hk⟩)
      · exact Or.inl h
      · exact Or.inr (Or.inl h)
      · rw [List.mem_singleton] at hw
        subst hw
        exact Or.inr (Or.inr ⟨w, List.mem_cons_self _ _, n, hn, hk⟩)
    · rintro k (h | h | ⟨w, hw, n, hn, hk⟩)
      · exact Or.inl h
      · exact Or.inr (Or.inl h)
      · exact Or.inr (Or.inr ⟨w, List.mem_cons_of_mem _ hw, n, hn, hk⟩)

theorem pass_dirty (penv : ExifEnv) (e : TiffEncoder) (vs : List EncVisit)
    (h : e.dirty_ = true) : (pass penv e vs).2.dirty = true := by
  have := (pass_keeps penv vs e).1 h
  simp [dirty, this]

/-- C16: starting from an encoder whose dirty flag is not set,
`encodeTiffEntryBase` and `encodeOffsetEntry` each set the dirty flag if and
only if the serialized size of the record is strictly greater than the
allocated size of the node; for a record of equal or smaller size both leave
the encoder as it was; and for a record of 5 or more bytes and a node with a
4-byte allocation, `dirty()` is true after the call and after every sequence
of further visits of the encoder. -/
theorem encode_dirty_iff_larger (penv : ExifEnv) (e : TiffEncoder) (object : TiffEntryBase)
    (datum : Exifdatum) (hclean : e.dirty_ = false) :
    ((encodeTiffEntryBase penv e object datum).1.dirty_ = true ↔
        object.size < datum.size penv) ∧
      ((encodeOffsetEntry penv e object datum).1.dirty_ = true ↔
        object.size < datum.size penv) ∧
      (datum.size penv ≤ object.size →
        (encodeTiffEntryBase penv e object datum).1 = e ∧
          (encodeOffsetEntry penv e object datum).1 = e) ∧
      (object.size = 4 → 5 ≤ datum.size penv → ∀ vs : List EncVisit,
        (pass penv (encodeTiffEntryBase penv e object datum).1 vs).2.dirty = true ∧
          (pass penv (encodeOffsetEntry penv e object datum).1 vs).2.dirty = true) := by
  rw [encodeTiffEntryBase_fst, encodeOffsetEntry_fst]
  by_cases h : datum.size penv > object.size
  · rw [if_pos h]
    refine ⟨⟨fun _ => h, fun _ => rfl⟩, ⟨fun _ => h, fun _ => rfl⟩, fun hle => by omega, ?_⟩
    intro _ _ vs
    exact ⟨pass_dirty penv _ vs rfl, pass_dirty penv _ vs rfl⟩
  · rw [if_neg h]
    refine ⟨⟨fun hd => ?_, fun hlt => absurd hlt h⟩, ⟨fun hd => ?_, fun hlt => absurd hlt h⟩,
      fun _ => ⟨rfl, rfl⟩, ?_⟩
    · rw [hclean] at hd
      cases hd
    · rw [hclean] at hd
      cases hd
    · intro h4 h5
      omega

/-- Witness of C16: a record of 5 bytes and a node with a 4-byte allocation, on
a freshly constructed encoder. -/
theorem encode_dirty_iff_larger_witness :
    (Sample.encoder []).dirty_ = false ∧
      (encodeTiffEntryBase Sample.exifEnv (Sample.encoder []) (Sample.entry4 0x0100 1)
        (Sample.record "Image" "ImageWidth" 0x0100 1 [1, 2, 3, 4, 5])).1.dirty_ = true :=
  ⟨rfl, (encode_dirty_iff_larger Sample.exifEnv (Sample.encoder []) (Sample.entry4 0x0100 1)
    (Sample.record "Image" "ImageWidth" 0x0100 1 [1, 2, 3, 4, 5]) rfl).1.2 (by decide)⟩

/-- The claim C17 as stated fails: a collection that holds only the record
`Exif.MakerNote.Offset` and a pass over a makernote: no visit is about an entry
node, so the record matches no node, and the pass erases it and leaves
`dirty()` false. -/
theorem dirty_unmatched_counterexample :
    (∀ v ∈ [EncVisit.ifdMakernote Sample.makernote, EncVisit.ifdMakernoteEnd],
        visitedNode v = none) ∧
      (Sample.encoder [Sample.offsetRecord]).del_ = true ∧
      (Sample.encoder [Sample.offsetRecord]).writeMethod = .wmNonIntrusive ∧
      (pass Sample.exifEnv (Sample.encoder [Sample.offsetRecord])
        [.ifdMakernote Sample.makernote, .ifdMakernoteEnd]).2.exifData_ = [] ∧
      (pass Sample.exifEnv (Sample.encoder [Sample.offsetRecord])
        [.ifdMakernote Sample.makernote, .ifdMakernoteEnd]).2.dirty = false := by
  refine ⟨?_, rfl, rfl, by decide, by decide⟩
  intro v hv
  simp only [List.mem_cons, List.mem_singleton, List.not_mem_nil, or_false] at hv
  rcases hv with rfl | rfl <;> rfl

/-- C17 (amended): `dirty()` is true exactly when the dirty flag is set or the
collection is not empty; and a record of the collection whose key string is
neither one of the two provenance keys `Exif.MakerNote.ByteOrder` and
`Exif.MakerNote.Offset` nor the key of the entry node of any visit of a pass is
still in the collection after the pass, so that `dirty()` is true. -/
theorem pass_unmatched_dirty (penv : ExifEnv) (e : TiffEncoder) (vs : List EncVisit)
    (x : Exifdatum) (hx : x ∈ e.exifData_)
    (hbo : x.key.key ≠ ("MakerNote", "ByteOrder"))
    (hoff : x.key.key ≠ ("MakerNote", "Offset"))
    (hnode : ∀ v ∈ vs, ∀ n, visitedNode v = some n →
      x.key.key ≠ (ExifKey.ofTag penv n.entry.tag (penv.groupName n.entry.group)).key) :
    (∀ e' : TiffEncoder, e'.dirty = true ↔ e'.dirty_ = true ∨ e'.exifData_ ≠ []) ∧
      x ∈ (pass penv e vs).2.exifData_ ∧ (pass penv e vs).2.dirty = true := by
  have hmem : x ∈ (pass penv e vs).2.exifData_ := by
    refine (pass_keeps penv vs e).2.2.2 x hx ?_
    rintro (h | h | ⟨v, hv, n, hn, hk⟩)
    · exact hbo h
    · exact hoff h
    · exact hnode v hv n hn hk
  refine ⟨?_, hmem, ?_⟩
  · intro e'
    cases hd : e'.dirty_ <;> cases hl : e'.exifData_ <;> simp [dirty, hd, hl]
  · cases hl : (pass penv e vs).2.exifData_ with
    | nil => rw [hl] at hmem; cases hmem
    | cons a as => simp [dirty, hl]

/-- Witness of C17 (amended): the collection holds the offset record and a
`Make` record, the pass visits a makernote and an `ImageWidth` entry; the `Make`
record stays and `dirty()` is true. -/
theorem pass_unmatched_dirty_witness :
    (pass Sample.exifEnv
      (Sample.encoder [Sample.offsetRecord, Sample.record "Image" "Make" 0x010f 1 [67]])
      [.ifdMakernote Sample.makernote,
        .component (TiffNode.ofEntry .entry (Sample.entry4 0x0100 1))]).2.dirty = true :=
  (pass_unmatched_dirty Sample.exifEnv
    (Sample.encoder [Sample.offsetRecord, Sample.record "Image" "Make" 0x010f 1 [67]])
    [.ifdMakernote Sample.makernote,
      .component (TiffNode.ofEntry .entry (Sample.entry4 0x0100 1))]
    (Sample.record "Image" "Make" 0x010f 1 [67]) (by decide) (by decide) (by decide)
    (by
      intro v hv n hn
      simp only [List.mem_cons, List.mem_singleton, List.not_mem_nil, or_false] at hv
      rcases hv with rfl | rfl
      · cases hn
      · cases hn
        decide)).2.2

theorem nodup_map_index {β : Type} {f : Exifdatum → β} :
    ∀ {d : ExifData}, (d.map f).Nodup → ∀ {i j : Nat} {x y : Exifdatum},
      d[i]? = some x → d[j]? = some y → f x = f y → i = j := by
  intro d
  induction d with
  | nil => intro _ i j x y hi; simp at hi
  | cons a as ih =>
    intro hnd i j x y hi hj hf
    rw [List.map_cons, List.nodup_cons] at hnd
    cases i with
    | zero =>
      cases j with
      | zero => rfl
      | succ j =>
        simp only [List.getElem?_cons_zero, Option.some.injEq] at hi
        simp only [List.getElem?_cons_succ] at hj
        subst hi
        exact absurd (List.mem_map.mpr ⟨y, List.mem_iff_getElem?.mpr ⟨j, hj⟩, hf.symm⟩) hnd.1
    | succ i =>
      cases j with
      | zero =>
        simp only [List.getElem?_cons_zero, Option.some.injEq] at hj
        simp only [List.getElem?_cons_succ] at hi
        subst hj
        exact absurd (List.mem_map.mpr ⟨x, List.mem_iff_getElem?.mpr ⟨i, hi⟩, hf⟩) hnd.1
      | succ j =>
        simp only [List.getElem?_cons_succ] at hi hj
        rw [ih hnd.2 hi hj hf]

/-- The claim C18 as stated fails: the collection holds `ImageWidth` with index
1, `Make` with index 2 and `ImageWidth` with index 2, all of group Image, and
the node is `ImageWidth` of that group with index 2. The third record has the
key and the index of the node, but the scan by group and index stops at the
`Make` record, whose key differs, and the first record is the one encoded into
the node and erased. -/
theorem encodeTiffComponent_exact_match_counterexample :
    Sample.dupRecords[2]? = some (Sample.record "Image" "ImageWidth" 0x0100 2 [3]) ∧
      (Sample.record "Image" "ImageWidth" 0x0100 2 [3]).key.key =
        (ExifKey.ofTag Sample.exifEnv (Sample.entry4 0x0100 2).tag
          (Sample.exifEnv.groupName (Sample.entry4 0x0100 2).group)).key ∧
      (Sample.record "Image" "ImageWidth" 0x0100 2 [3]).key.idx = (Sample.entry4 0x0100 2).idx ∧
      selectRecord Sample.exifEnv (Sample.encoder Sample.dupRecords) (Sample.entry4 0x0100 2) =
        some 0 ∧
      (encodeTiffComponent Sample.exifEnv (Sample.encoder Sample.dupRecords)
        (TiffNode.ofEntry .entry (Sample.entry4 0x0100 2)) none).1.exifData_ =
        [Sample.record "Image" "Make" 0x010f 2 [2],
         Sample.record "Image" "ImageWidth" 0x0100 2 [3]] ∧
      (encodeTiffComponent Sample.exifEnv (Sample.encoder Sample.dupRecords)
        (TiffNode.ofEntry .entry (Sample.entry4 0x0100 2)) none).2.entry.pValue =
        (Sample.record "Image" "ImageWidth" 0x0100 1 [1]).value := by
  decide

/-- C18 (amended): when `encodeTiffComponent` is called without an explicit
record: if no two records of the collection share group name and duplicate
index, a record whose key and duplicate index both equal those of the node is
the one selected; if no record has both the key and the index of the node, the
selection is the first record with the key of the node; and the selected
record always has the key of the node, is the one encoded into the node
(unless the tag is an image tag of an existing image) and, in the mode that
erases consumed records, the one erased. -/
theorem encodeTiffComponent_record (penv : ExifEnv) (e : TiffEncoder) (object : TiffNode) :
    ((e.exifData_.map fun x => (x.key.groupName, x.key.idx)).Nodup →
        ∀ i x, e.exifData_[i]? = some x →
          x.key.key = (ExifKey.ofTag penv object.entry.tag
            (penv.groupName object.entry.group)).key →
          x.key.idx = object.entry.idx → selectRecord penv e object.entry = some i) ∧
      ((∀ x ∈ e.exifData_, ¬ (x.key.key = (ExifKey.ofTag penv object.entry.tag
            (penv.groupName object.entry.group)).key ∧ x.key.idx = object.entry.idx)) →
        selectRecord penv e object.entry = e.exifData_.findKey
          (ExifKey.ofTag penv object.entry.tag (penv.groupName object.entry.group))) ∧
      (∀ i, selectRecord penv e object.entry = some i →
        ∃ x, e.exifData_[i]? = some x ∧
          x.key.key = (ExifKey.ofTag penv object.entry.tag
            (penv.groupName object.entry.group)).key ∧
          encodeTiffComponent penv e object none =
            ({ (encodeWith penv e object x).1 with
                exifData_ := if e.del_ = true then e.exifData_.eraseIdx i else e.exifData_ },
              (encodeWith penv e object x).2)) := by
  refine ⟨?_, ?_, ?_⟩
  · intro hnd i x hx hk hidx
    have hg : x.key.groupName = penv.groupName object.entry.group :=
      congrArg Prod.fst hk
    obtain ⟨p, _, hf⟩ := ExifData.findPos_exists
      (p := fun y => decide (y.key.key = (ExifKey.ofTag penv object.entry.tag
        (penv.groupName object.entry.group)).key)) hx (by simpa using hk)
    obtain ⟨ed, hed, hek⟩ := ExifData.findKey_some hf
    have hf' : e.exifData_.findKey (ExifKey.ofTag penv object.entry.tag
        (penv.groupName object.entry.group)) = some p := hf
    unfold selectRecord
    simp only [hf', hed]
    have heg : ed.key.groupName = penv.groupName object.entry.group :=
      congrArg Prod.fst hek
    by_cases hne : object.entry.idx ≠ ed.key.idx
    · rw [if_pos hne]
      obtain ⟨q, _, hq⟩ := ExifData.findPos_exists
        (p := FindExifdatum2 penv object.entry.group object.entry.idx) hx
        (by simp [FindExifdatum2, hidx, hg])
      obtain ⟨ed2, hed2, hp2, _⟩ := ExifData.findPos_some hq
      simp only [FindExifdatum2, decide_eq_true_eq] at hp2
      have hqi : q = i := nodup_map_index hnd hed2 hx
        (by rw [hp2.2, hg, ← hp2.1, hidx])
      subst hqi
      rw [hx] at hed2
      cases hed2
      simp only [hq, hx, hk, if_true]
    · rw [if_neg hne]
      have hpi : p = i := nodup_map_index hnd hed hx
        (by rw [heg, hg, hidx]; simp only [Prod.mk.injEq, true_and]
            exact (not_not.mp hne).symm)
      rw [hpi]
  · intro hno
    unfold selectRecord
    cases hf : e.exifData_.findKey (ExifKey.ofTag penv object.entry.tag
        (penv.groupName object.entry.group)) with
    | none => simp only [hf]
    | some pos =>
      obtain ⟨ed, hed, hk⟩ := ExifData.findKey_some hf
      simp only [hf, hed]
      by_cases hne : object.entry.idx ≠ ed.key.idx
      · rw [if_pos hne]
        cases hp : ExifData.findPos (FindExifdatum2 penv object.entry.group object.entry.idx)
            e.exifData_ with
        | none => simp only [hp]
        | some pos2 =>
          obtain ⟨ed2, hed2, hp2, _⟩ := ExifData.findPos_some hp
          simp only [FindExifdatum2, decide_eq_true_eq] at hp2
          simp only [hp, hed2]
          rw [if_neg fun hk2 =>
            hno ed2 (List.mem_iff_getElem?.mpr ⟨pos2, hed2⟩) ⟨hk2, hp2.1.symm⟩]
      · rw [if_neg hne]
  · intro i hs
    obtain ⟨x, hx, hk⟩ := selectRecord_key hs
    refine ⟨x, hx, hk, ?_⟩
    have hm := encodeWith_marks penv e object x
    unfold encodeTiffComponent
    simp only [hs, hx]
    by_cases hdel : e.del_ = true
    · rw [if_pos (hm.del.trans hdel), if_pos hdel, hm.exifData]
    · rw [if_neg fun h => hdel (hm.del.symm.trans h), if_neg hdel, ← hm.exifData]

/-- Witness of C18 (amended): with the two `ImageWidth` records of index 1 and
2, the node with index 2 selects the second record. -/
theorem encodeTiffComponent_record_witness :
    selectRecord Sample.exifEnv (Sample.encoder Sample.dupRecords2) (Sample.entry4 0x0100 2) =
      some 1 :=
  (encodeTiffComponent_record Sample.exifEnv (Sample.encoder Sample.dupRecords2)
    (TiffNode.ofEntry .entry (Sample.entry4 0x0100 2))).1 (by decide) 1
    (Sample.record "Image" "ImageWidth" 0x0100 2 [3]) rfl (by decide) rfl

theorem makernoteByteOrder_eq (penv : ExifEnv) (e : TiffEncoder) (object : TiffIfdMakernote) :
    ((makernoteByteOrder penv e object).1.dirty_, (makernoteByteOrder penv e object).2) =
      match e.exifData_.lookup (ExifKey.ofName penv "MakerNote" "ByteOrder") with
      | some ed =>
        if stringToByteOrder (ed.toString penv) ≠ .invalidByteOrder ∧
            stringToByteOrder (ed.toString penv) ≠ object.byteOrder then
          (true, object.setByteOrder (stringToByteOrder (ed.toString penv)))
        else (e.dirty_, object)
      | none => (e.dirty_, object) := by
  rw [ExifData.lookup_eq_findKey]
  unfold makernoteByteOrder
  cases hf : e.exifData_.findKey (ExifKey.ofName penv "MakerNote" "ByteOrder") with
  | none => rfl
  | some pos =>
    obtain ⟨ed, hed, _⟩ := ExifData.findKey_some hf
    simp only [hed, Option.some_bind]
    by_cases hbo : stringToByteOrder (ed.toString penv) ≠ .invalidByteOrder ∧
        stringToByteOrder (ed.toString penv) ≠ object.byteOrder
    · rw [if_pos hbo, if_pos hbo]
      split <;> rfl
    · rw [if_neg hbo, if_neg hbo]
      split <;> rfl

theorem visitIfdMakernote_eq (penv : ExifEnv) (e : TiffEncoder) (object : TiffIfdMakernote) :
    (visitIfdMakernote penv e object).1.byteOrder_ =
        (makernoteByteOrder penv e object).2.byteOrder ∧
      (visitIfdMakernote penv e object).2 = (makernoteByteOrder penv e object).2 ∧
      (visitIfdMakernote penv e object).1.dirty_ = (makernoteByteOrder penv e object).1.dirty_ := by
  unfold visitIfdMakernote
  refine ⟨rfl, rfl, ?_⟩
  simp only []
  split
  · exact eraseKey_dirty _ _
  · rfl

theorem stringToByteOrder_valid (s : String) :
    stringToByteOrder s ≠ .invalidByteOrder ↔ s = "II" ∨ s = "MM" := by
  unfold stringToByteOrder
  by_cases h1 : s = "II"
  · simp [h1]
  · by_cases h2 : s = "MM"
    · simp [h2]
    · simp [h1, h2]

/-- C19: after `visitIfdMakernote`, when the first record with the key
`Exif.MakerNote.ByteOrder` names a byte order (its text is `II`, little endian,
or `MM`, big endian), the active byte order of the encoder and the byte order
of the makernote are that byte order, and the dirty flag is set exactly when it
was set before or the named byte order differs from the previous one of the
makernote; when there is no such record or its text is neither `II` nor `MM`,
the active byte order is the byte order of the makernote, which is unchanged
as is the dirty flag; and after `visitIfdMakernoteEnd`, at any point of an
encoder pass that started from a constructed encoder, the active byte order
is the header byte order given at construction. -/
theorem visitIfdMakernote_byteOrder (penv : ExifEnv) (e : TiffEncoder)
    (object : TiffIfdMakernote) :
    (∀ ed, e.exifData_.lookup (ExifKey.ofName penv "MakerNote" "ByteOrder") = some ed →
        stringToByteOrder (ed.toString penv) ≠ .invalidByteOrder →
        (visitIfdMakernote penv e object).1.byteOrder_ = stringToByteOrder (ed.toString penv) ∧
          (visitIfdMakernote penv e object).2.byteOrder =
            stringToByteOrder (ed.toString penv) ∧
          ((visitIfdMakernote penv e object).1.dirty_ = true ↔
            e.dirty_ = true ∨ stringToByteOrder (ed.toString penv) ≠ object.byteOrder)) ∧
      ((e.exifData_.lookup (ExifKey.ofName penv "MakerNote" "ByteOrder") = none ∨
          ∃ ed, e.exifData_.lookup (ExifKey.ofName penv "MakerNote" "ByteOrder") = some ed ∧
            stringToByteOrder (ed.toString penv) = .invalidByteOrder) →
        (visitIfdMakernote penv e object).1.byteOrder_ = object.byteOrder ∧
          (visitIfdMakernote penv e object).2 = object ∧
          (visitIfdMakernote penv e object).1.dirty_ = e.dirty_) ∧
      (∀ s, stringToByteOrder s ≠ .invalidByteOrder ↔ s = "II" ∨ s = "MM") ∧
      stringToByteOrder "II" = .littleEndian ∧ stringToByteOrder "MM" = .bigEndian ∧
      (∀ (exifData : ExifData) (headerByteOrder : ByteOrder) (isNewImage : Bool)
          (make : String) (vs : List EncVisit),
        (visitIfdMakernoteEnd
          (pass penv (new exifData headerByteOrder isNewImage make) vs).2).byteOrder_ =
          headerByteOrder) := by
  obtain ⟨h1, h2, h3⟩ := visitIfdMakernote_eq penv e object
  have hm := makernoteByteOrder_eq penv e object
  rw [h1, h2, h3]
  refine ⟨?_, ?_, stringToByteOrder_valid, by decide, by decide, ?_⟩
  · intro ed hed hvalid
    simp only [hed] at hm
    by_cases hne : stringToByteOrder (ed.toString penv) ≠ object.byteOrder
    · rw [if_pos ⟨hvalid, hne⟩] at hm
      have hd := congrArg Prod.fst hm
      have ho := congrArg Prod.snd hm
      simp only at hd ho
      rw [hd, ho]
      exact ⟨rfl, rfl, fun _ => Or.inr hne, fun _ => rfl⟩
    · rw [if_neg fun h => hne h.2] at hm
      have hd := congrArg Prod.fst hm
      have ho := congrArg Prod.snd hm
      simp only at hd ho
      rw [hd, ho]
      have heq := not_not.mp hne
      exact ⟨heq.symm, heq.symm, fun h => Or.inl h, fun h => h.elim id fun h => absurd h hne⟩
  · rintro (hnone | ⟨ed, hed, hinv⟩)
    · simp only [hnone] at hm
      have hd := congrArg Prod.fst hm
      have ho := congrArg Prod.snd hm
      simp only at hd ho
      rw [hd, ho]
      exact ⟨rfl, rfl, rfl⟩
    · simp only [hed] at hm
      rw [if_neg fun h => h.1 hinv] at hm
      have hd := congrArg Prod.fst hm
      have ho := congrArg Prod.snd hm
      simp only at hd ho
      rw [hd, ho]
      exact ⟨rfl, rfl, rfl⟩
  · intro exifData headerByteOrder isNewImage make vs
    exact (pass_keeps penv vs (new exifData headerByteOrder isNewImage make)).2.1

/-- Witness of C19: the record `Exif.MakerNote.ByteOrder` with the text `MM`
and a little endian makernote: the active byte order becomes big endian. -/
theorem visitIfdMakernote_byteOrder_witness :
    (visitIfdMakernote Sample.exifEnv (Sample.encoder [Sample.byteOrderRecord])
      Sample.makernote).1.byteOrder_ = .bigEndian ∧
      ((visitIfdMakernote Sample.exifEnv (Sample.encoder [Sample.byteOrderRecord])
        Sample.makernote).1.dirty_ = true ↔
        (Sample.encoder [Sample.byteOrderRecord]).dirty_ = true ∨
          ByteOrder.bigEndian ≠ Sample.makernote.byteOrder) :=
  have h := (visitIfdMakernote_byteOrder Sample.exifEnv
    (Sample.encoder [Sample.byteOrderRecord]) Sample.makernote).1 Sample.byteOrderRecord
    (by decide) (by decide)
  ⟨h.1, h.2.2⟩

/-- The claim C20 as stated fails: the sample array declares a cipher that
yields an empty buffer for its two bytes `1, 2`; `visitBinaryArrayEnd` then
installs these bytes, un-enciphered, as the stored bytes of the array, and
the encoder stays clean. -/
theorem visitBinaryArrayEnd_empty_cipher_counterexample :
    Sample.cipherArray.cfg = some { cryptFct_ := some (.other 1) } ∧
      Sample.cipherArray.decoded = true ∧ Sample.cipherArray.entry.size = 2 ∧
      Sample.exifEnv.crypt (.other 1) Sample.cipherArray.entry.tag [1, 2] = [] ∧
      (visitBinaryArrayEnd Sample.exifEnv (Sample.encoder []) Sample.cipherArray).2.origData_ =
        [1, 2] ∧
      (visitBinaryArrayEnd Sample.exifEnv (Sample.encoder []) Sample.cipherArray).1.dirty_ =
        false ∧
      (visitBinaryArrayEnd Sample.exifEnv (Sample.encoder []) Sample.cipherArray).1.dirty =
        false := by
  decide

theorem install_eq (penv : ExifEnv) (e : TiffEncoder) (object : TiffNode)
    (bytes : List Nat) :
    (if (updOrigDataBuf penv object bytes).1 = false then
        (e.setDirty true, (updOrigDataBuf penv object bytes).2)
      else (e, (updOrigDataBuf penv object bytes).2)) =
      if penv.canInstall object bytes = true then (e, { object with origData_ := bytes })
      else (e.setDirty true, object) := by
  unfold updOrigDataBuf
  by_cases hc : penv.canInstall object bytes = true
  · simp [hc]
  · simp [hc]

theorem writeCipher_eq (f : CryptFct) :
    (if some f = some CryptFct.sonyTagDecipher then some CryptFct.sonyTagEncipher
      else some f) =
      some (if f = .sonyTagDecipher then .sonyTagEncipher else f) := by
  by_cases hs : f = .sonyTagDecipher
  · simp [hs]
  · simp [hs]

/-- C20 (amended): for a decoded binary array of non-zero size whose layout
declares a cipher: when `initialize` fails, `visitBinaryArrayEnd` does nothing;
otherwise it applies the write-direction cipher (`sonyTagEncipher` when the
declared cipher is `sonyTagDecipher`, else the declared cipher) to the `size`
bytes at the data pointer; the bytes to install are the output of the cipher,
or the un-enciphered bytes when the cipher yields an empty buffer; when they
can be installed as the stored bytes of the array they are and the encoder is
left as it was, and when they cannot the encode is marked dirty and the
array is left as it was. -/
theorem visitBinaryArrayEnd_cipher (penv : ExifEnv) (e : TiffEncoder) (object : TiffNode)
    (cfg : ArrayCfg) (f : CryptFct) (hcfg : object.cfg = some cfg)
    (hdec : object.decoded = true) (hsize : object.entry.size ≠ 0)
    (hf : cfg.cryptFct_ = some f) :
    (penv.initOk object = false → visitBinaryArrayEnd penv e object = (e, object)) ∧
      (penv.initOk object = true →
        visitBinaryArrayEnd penv e object =
          if penv.canInstall object
              (if penv.crypt (if f = .sonyTagDecipher then .sonyTagEncipher else f)
                    object.entry.tag (object.data.take object.entry.size) ≠ [] then
                penv.crypt (if f = .sonyTagDecipher then .sonyTagEncipher else f)
                  object.entry.tag (object.data.take object.entry.size)
              else object.data.take object.entry.size) = true then
            (e, { object with origData_ :=
              (if penv.crypt (if f = .sonyTagDecipher then .sonyTagEncipher else f)
                    object.entry.tag (object.data.take object.entry.size) ≠ [] then
                penv.crypt (if f = .sonyTagDecipher then .sonyTagEncipher else f)
                  object.entry.tag (object.data.take object.entry.size)
              else object.data.take object.entry.size) })
          else (e.setDirty true, object)) := by
  have hnd : ¬ (object.decoded = false) := by simp [hdec]
  constructor
  · intro hinit
    unfold visitBinaryArrayEnd
    split
    · rename_i h
      exact absurd (hcfg.symm.trans h) (by simp)
    · rw [if_neg hnd]
      simp only []
      rw [if_neg hsize, if_pos hinit]
  · intro hinit
    have hni : ¬ (penv.initOk object = false) := by simp [hinit]
    unfold visitBinaryArrayEnd
    split
    · rename_i h
      exact absurd (hcfg.symm.trans h) (by simp)
    · rename_i cfg' h
      have hc := hcfg.symm.trans h
      cases hc
      rw [if_neg hnd]
      simp only []
      rw [if_neg hsize, if_neg hni, hf, writeCipher_eq]
      exact install_eq penv e object _

/-- Witness of C20 (amended): with ciphers that add 1 to every byte, the bytes
`2, 3` are installed for the sample array and the encoder stays clean. -/
theorem visitBinaryArrayEnd_cipher_witness :
    visitBinaryArrayEnd Sample.cipherEnv (Sample.encoder []) Sample.cipherArray =
      (Sample.encoder [], { Sample.cipherArray with origData_ := [2, 3] }) :=
  ((visitBinaryArrayEnd_cipher Sample.cipherEnv (Sample.encoder []) Sample.cipherArray
    { cryptFct_ := some (.other 1) } (.other 1) rfl rfl (by decide) rfl).2 rfl).trans
    (by decide)

end TiffEncoder

namespace TiffFinder

theorem acceptList_stopped (f : TiffFinder) (cs : List TiffComponent)
    (h : f.goTraverse = false) : acceptList f cs = f := by
  cases cs with
  | nil => rfl
  | cons c cs => simp [acceptList, h]

theorem findObject_eq (f : TiffFinder) (c : TiffComponent) :
    f.findObject c =
      if isMatch f.tag_ f.group_ c = true then
        { f with tiffComponent_ := some c, goTraverse := false }
      else f := by
  unfold findObject isMatch
  by_cases h : c.tag = f.tag_ ∧ c.group = f.group_
  · simp [h]
  · simp [h]

mutual
theorem accept_spec : ∀ (c : TiffComponent) (f : TiffFinder), f.goTraverse = true →
    accept f c =
      match c.preorder.find? (isMatch f.tag_ f.group_) with
      | some x => { f with tiffComponent_ := some x, goTraverse := false }
      | none => f
  | .entry object children, f, hgo => by
    unfold accept
    rw [if_pos hgo, findObject_eq]
    by_cases hm : isMatch f.tag_ f.group_ (.entry object children) = true
    · rw [if_pos hm, acceptList_stopped _ _ rfl]
      simp [TiffComponent.preorder, List.find?_cons, hm]
    · rw [if_neg hm, acceptList_spec children f hgo]
      simp [TiffComponent.preorder, List.find?_cons, hm]
  | .directory tag group children, f, hgo => by
    unfold accept
    rw [if_pos hgo, findObject_eq]
    by_cases hm : isMatch f.tag_ f.group_ (.directory tag group children) = true
    · rw [if_pos hm, acceptList_stopped _ _ rfl]
      simp [TiffComponent.preorder, List.find?_cons, hm]
    · rw [if_neg hm, acceptList_spec children f hgo]
      simp [TiffComponent.preorder, List.find?_cons, hm]
theorem acceptList_spec : ∀ (cs : List TiffComponent) (f : TiffFinder), f.goTraverse = true →
    acceptList f cs =
      match (TiffComponent.preorderList cs).find? (isMatch f.tag_ f.group_) with
      | some x => { f with tiffComponent_ := some x, goTraverse := false }
      | none => f
  | [], f, _ => by simp [acceptList, TiffComponent.preorderList]
  | c :: cs, f, hgo => by
    unfold acceptList
    rw [if_pos hgo, accept_spec c f hgo]
    cases hc : c.preorder.find? (isMatch f.tag_ f.group_) with
    | some x =>
      simp only []
      rw [acceptList_stopped _ _ rfl]
      simp [TiffComponent.preorderList, List.find?_append, hc]
    | none =>
      simp only []
      rw [acceptList_spec cs f hgo]
      simp [TiffComponent.preorderList, List.find?_append, hc]
end

/-- C21: a finder initialised for the key `(tag, group)` and accepted by the
root of a tree, where a component is visited only while the traversal flag is
set, has as result the first component in depth-first pre-order whose tag and
group both equal the key; the result has the tag and the group of the key;
there is no result exactly when no component of the tree has both; and
`init` clears an earlier result and sets the traversal flag, so that the
finder behaves as a newly constructed one. -/
theorem find_first_in_preorder (pRoot : TiffComponent) (f0 : TiffFinder) (tag : Nat)
    (group : IfdId) :
    (accept (f0.init tag group) pRoot).result = pRoot.preorder.find? (isMatch tag group) ∧
      (∀ c, (accept (f0.init tag group) pRoot).result = some c →
        c.tag = tag ∧ c.group = group) ∧
      ((accept (f0.init tag group) pRoot).result = none ↔
        ∀ c ∈ pRoot.preorder, ¬ (c.tag = tag ∧ c.group = group)) ∧
      (f0.init tag group).result = none ∧ (f0.init tag group).goTraverse = true ∧
      accept (f0.init tag group) pRoot = accept (new tag group) pRoot := by
  have h : (accept (f0.init tag group) pRoot).result =
      pRoot.preorder.find? (isMatch tag group) := by
    rw [accept_spec pRoot (f0.init tag group) rfl]
    show (match pRoot.preorder.find? (isMatch tag group) with
      | some x => ({ (f0.init tag group) with tiffComponent_ := some x, goTraverse := false } :
          TiffFinder)
      | none => f0.init tag group).tiffComponent_ = _
    cases pRoot.preorder.find? (isMatch tag group) <;> rfl
  refine ⟨h, ?_, ?_, rfl, rfl, rfl⟩
  · intro c hc
    rw [h] at hc
    have := List.find?_some hc
    simpa [isMatch] using this
  · rw [h, List.find?_eq_none]
    constructor
    · intro hn c hc
      simpa [isMatch] using hn c hc
    · intro hn c hc
      simpa [isMatch] using hn c hc

theorem find_eq (pRoot : TiffComponent) (tag : Nat) (group : IfdId) :
    find pRoot tag group = pRoot.preorder.find? (isMatch tag group) := by
  unfold find
  rw [accept_spec pRoot (new tag group) rfl]
  show (match pRoot.preorder.find? (isMatch tag group) with
    | some x => ({ new tag group with tiffComponent_ := some x, goTraverse := false } :
        TiffFinder)
    | none => new tag group).tiffComponent_ = _
  cases pRoot.preorder.find? (isMatch tag group) <;> rfl

end TiffFinder

namespace TiffReader

theorem nextIdx_idxSeq_other (r : TiffReader) (group g : IfdId) (h : g ≠ group) :
    (r.nextIdx group).2.idxSeq_ g = r.idxSeq_ g := by
  show (if g = group then r.idxSeq_ group + 1 else r.idxSeq_ g) = _
  rw [if_neg h]

/-- One visit that returns: a visit that assigns no index leaves the counters
and the triple of the node; a visit that assigns in group `g` gives the node
the counter of `g` plus one, raises that counter by one and leaves the
others. -/
theorem visit_assigns {env : Env} {r r' : TiffReader} {v v' : Visit}
    (h : visit env r v = .ok (v', r')) :
    (assigns r v = none → v'.key = v.key ∧ r'.idxSeq_ = r.idxSeq_) ∧
      ∀ g, assigns r v = some g →
        (∃ tag, v'.key = some (g, tag, r.idxSeq_ g + 1)) ∧
          r'.idxSeq_ g = r.idxSeq_ g + 1 ∧ ∀ g', g' ≠ g → r'.idxSeq_ g' = r.idxSeq_ g' := by
  cases v with
  | entry object =>
    simp only [visit] at h
    cases hre : readTiffEntry env r object with
    | error e => rw [hre] at h; cases h
    | ok res =>
      obtain ⟨o1, r1⟩ := res
      rw [hre] at h
      simp only [Except.ok.injEq, Prod.mk.injEq] at h
      obtain ⟨hv, hr⟩ := h
      subst hv hr
      by_cases hskip : object.start + 12 > r.pLast_ ∨ entryCount r object ≥ 0x10000000
      · have hn : assigns r (.entry object) = none := by simp only [assigns, if_pos hskip]
        have heq : o1 = object ∧ r1 = r := by
          unfold readTiffEntry readTiffEntryBody at hre
          by_cases hslot : object.start + 12 > r.pLast_
          · simp only [if_pos hslot, Except.ok.injEq, Prod.mk.injEq] at hre
            exact ⟨hre.1.symm, hre.2.symm⟩
          · have hcnt : entryCount r object ≥ 0x10000000 := by
              rcases hskip with h | h
              · exact absurd h hslot
              · exact h
            simp only [if_neg hslot, if_pos hcnt, Except.ok.injEq, Prod.mk.injEq] at hre
            exact ⟨hre.1.symm, hre.2.symm⟩
        obtain ⟨h1, h2⟩ := heq
        subst h1 h2
        refine ⟨fun _ => ⟨rfl, rfl⟩, fun g hg => ?_⟩
        rw [hn] at hg
        cases hg
      · have hs : assigns r (.entry object) = some object.group := by
          simp only [assigns, if_neg hskip]
        obtain ⟨t1, d1, -, -, -, -, ho, hr⟩ :=
          readTiffEntry_ok (by omega) (by omega) hre
        subst ho hr
        refine ⟨fun hn => ?_, fun g hg => ?_⟩
        · rw [hs] at hn
          cases hn
        · rw [hs] at hg
          simp only [Option.some.injEq] at hg
          subst hg
          exact ⟨⟨object.tag, rfl⟩, nextIdx_idxSeq_self r _,
            fun g' hg' => nextIdx_idxSeq_other r _ g' hg'⟩
  | binaryElement object =>
    simp only [visit] at h
    cases hre : visitBinaryElement env r object with
    | error e => rw [hre] at h; cases h
    | ok res =>
      obtain ⟨o1, r1⟩ := res
      rw [hre] at h
      simp only [Except.ok.injEq, Prod.mk.injEq] at h
      obtain ⟨hv, hr⟩ := h
      subst hv hr
      unfold visitBinaryElement at hre
      simp only at hre
      split at hre
      · cases hre
      · simp only [Except.ok.injEq, Prod.mk.injEq] at hre
        obtain ⟨ho, hr⟩ := hre
        subst ho hr
        refine ⟨fun hn => by simp [assigns] at hn, fun g hg => ?_⟩
        simp only [assigns, Option.some.injEq] at hg
        subst hg
        exact ⟨⟨object.entry.tag, rfl⟩, nextIdx_idxSeq_self r _,
          fun g' hg' => nextIdx_idxSeq_other r _ g' hg'⟩
  | directory object =>
    simp only [visit] at h
    cases hre : visitDirectory env r object with
    | error e => rw [hre] at h; cases h
    | ok res =>
      obtain ⟨o1, r1⟩ := res
      rw [hre] at h
      simp only [Except.ok.injEq, Prod.mk.injEq] at h
      obtain ⟨hv, hr⟩ := h
      subst hv hr
      rw [visitDirectory_reader hre]
      exact ⟨fun _ => ⟨rfl, circularReference_idxSeq r _ _⟩, fun g hg => by simp [assigns] at hg⟩
  | mnState state =>
    simp only [visit, Except.ok.injEq, Prod.mk.injEq] at h
    obtain ⟨hv, hr⟩ := h
    subst hv hr
    refine ⟨fun _ => ⟨rfl, ?_⟩, fun g hg => by simp [assigns] at hg⟩
    unfold setMnState
    split
    · split <;> rfl
    · rfl
  | origState =>
    simp only [visit, Except.ok.injEq, Prod.mk.injEq] at h
    obtain ⟨hv, hr⟩ := h
    subst hv hr
    exact ⟨fun _ => ⟨rfl, rfl⟩, fun g hg => by simp [assigns] at hg⟩

theorem pass_assignCount (env : Env) (g : IfdId) :
    ∀ (vs : List Visit) (r r' : TiffReader) (res : List Visit),
      pass env r vs = .ok (res, r') →
      r'.idxSeq_ g = r.idxSeq_ g + (assignCount env g r vs : Int) := by
  intro vs
  induction vs with
  | nil =>
    intro r r' res h
    simp only [pass, Except.ok.injEq, Prod.mk.injEq] at h
    rw [← h.2]
    simp [assignCount]
  | cons v vs ih =>
    intro r r' res h
    obtain ⟨v', r1, res', hv, hp, -⟩ := pass_cons h
    have hstep := visit_assigns hv
    rw [ih r1 r' res' hp]
    simp only [assignCount, hv]
    cases ha : assigns r v with
    | none =>
      rw [(hstep.1 ha).2]
      simp
    | some g' =>
      by_cases hg : g' = g
      · subst hg
        rw [(hstep.2 g' ha).2.1]
        simp
        omega
      · rw [(hstep.2 g' ha).2.2 g (fun h => hg h.symm)]
        have : ¬ (some g' = some g) := fun h => hg (Option.some.inj h)
        simp [this]

theorem pass_append {env : Env} :
    ∀ (pre : List Visit) (r r' : TiffReader) (v : Visit) (post res : List Visit),
      pass env r (pre ++ v :: post) = .ok (res, r') →
      ∃ respre rpre v' r1 respost, pass env r pre = .ok (respre, rpre) ∧
        visit env rpre v = .ok (v', r1) ∧ pass env r1 post = .ok (respost, r') ∧
        res = respre ++ v' :: respost ∧ respre.length = pre.length := by
  intro pre
  induction pre with
  | nil =>
    intro r r' v post res h
    obtain ⟨v', r1, res', hv, hp, hres⟩ := pass_cons h
    exact ⟨[], r, v', r1, res', rfl, hv, hp, hres, rfl⟩
  | cons a pre ih =>
    intro r r' v post res h
    obtain ⟨a', ra, res', hva, hp, hres⟩ := pass_cons h
    obtain ⟨respre, rpre, v', r1, respost, h1, h2, h3, h4, h5⟩ := ih ra r' v post res' hp
    refine ⟨a' :: respre, rpre, v', r1, respost, ?_, h2, h3, ?_, ?_⟩
    · simp only [pass, hva, h1]
    · rw [hres, h4]
      rfl
    · simp [h5]

/-- C25: in a pass of a freshly constructed reader, a visit that assigns a
duplicate index in group `g`, be it `readTiffEntry` for an entry it does not
skip or `visitBinaryElement`, gives the node the index `k + 1`, where `k` is
the number of assignments in group `g` that the visits before it in the pass
made: the `k`-th assignment within a group yields `k`, counting from 1,
whatever was assigned in other groups. A visit that assigns no index leaves
the triple of its node and all counters. -/
theorem pass_nextIdx_sequence (env : Env) (pData : Nat) (data : List Nat) (state : TiffRwState)
    (pre : List Visit) (v : Visit) (post res : List Visit) (r' : TiffReader)
    (hpass : pass env (TiffReader.new pData data state) (pre ++ v :: post) = .ok (res, r')) :
    ∃ respre rpre v' r1, pass env (TiffReader.new pData data state) pre = .ok (respre, rpre) ∧
      visit env rpre v = .ok (v', r1) ∧ res[pre.length]? = some v' ∧
      (∀ g, assigns rpre v = some g →
        ∃ tag, v'.key = some (g, tag,
          (assignCount env g (TiffReader.new pData data state) pre : Int) + 1)) ∧
      (assigns rpre v = none → v'.key = v.key ∧ r1.idxSeq_ = rpre.idxSeq_) := by
  obtain ⟨respre, rpre, v', r1, respost, h1, h2, -, h4, h5⟩ := pass_append pre _ r' v post res hpass
  refine ⟨respre, rpre, v', r1, h1, h2, ?_, ?_, (visit_assigns h2).1⟩
  · rw [h4, ← h5, List.getElem?_append_right (le_refl _)]
    simp
  · intro g hg
    obtain ⟨⟨tag, hk⟩, -, -⟩ := (visit_assigns h2).2 g hg
    refine ⟨tag, ?_⟩
    rw [hk, pass_assignCount env g pre _ rpre respre h1]
    show some (g, tag, (0 : Int) + _ + 1) = _
    rw [Int.zero_add]

/-- Witness of C25: the two entries of tag `0x0100` of the sample directory,
read after the directory; the second entry is the second assignment in group
1. -/
theorem pass_nextIdx_sequence_witness :
    ∃ res r',
      pass Sample.env64 (TiffReader.new 1000 Sample.dupData
          { byteOrder := .littleEndian, baseOffset := 0 })
          ([.directory (Sample.dirAt 1000), .entry (Sample.entryAt 0x0100 1002)] ++
            .entry (Sample.entryAt 0x0100 1014) :: []) = .ok (res, r') ∧
      (res[2]?).bind Visit.key = some (1, 0x0100, 2) ∧
      ∃ respre rpre v' r1,
        pass Sample.env64 (TiffReader.new 1000 Sample.dupData
            { byteOrder := .littleEndian, baseOffset := 0 })
            [.directory (Sample.dirAt 1000), .entry (Sample.entryAt 0x0100 1002)] =
          .ok (respre, rpre) ∧
        visit Sample.env64 rpre (.entry (Sample.entryAt 0x0100 1014)) = .ok (v', r1) ∧
        res[[Visit.directory (Sample.dirAt 1000),
          Visit.entry (Sample.entryAt 0x0100 1002)].length]? = some v' ∧
        (∀ g, assigns rpre (.entry (Sample.entryAt 0x0100 1014)) = some g →
          ∃ tag, v'.key = some (g, tag,
            (assignCount Sample.env64 g (TiffReader.new 1000 Sample.dupData
              { byteOrder := .littleEndian, baseOffset := 0 })
              [.directory (Sample.dirAt 1000), .entry (Sample.entryAt 0x0100 1002)] : Int) + 1)) ∧
        (assigns rpre (.entry (Sample.entryAt 0x0100 1014)) = none →
          v'.key = (Visit.entry (Sample.entryAt 0x0100 1014)).key ∧ r1.idxSeq_ = rpre.idxSeq_) :=
  ⟨_, _, rfl, rfl,
    pass_nextIdx_sequence Sample.env64 1000 Sample.dupData
      { byteOrder := .littleEndian, baseOffset := 0 }
      [.directory (Sample.dirAt 1000), .entry (Sample.entryAt 0x0100 1002)]
      (.entry (Sample.entryAt 0x0100 1014)) [] _ _ rfl⟩

theorem find?_sorted_le {p : ArrayDef → Bool} :
    ∀ {defs : List ArrayDef} {x y : ArrayDef},
      defs.Pairwise (fun a b => a.idx_ ≤ b.idx_) → defs.find? p = some x → y ∈ defs →
      p y = true → x.idx_ ≤ y.idx_ := by
  intro defs
  induction defs with
  | nil => intro x y _ h; simp at h
  | cons a as ih =>
    intro x y hs hf hy hp
    rw [List.pairwise_cons] at hs
    by_cases ha : p a = true
    · simp only [List.find?_cons, ha, Option.some.injEq] at hf
      subst hf
      rcases List.mem_cons.mp hy with h | h
      · rw [h]
      · exact hs.1 y h
    · have ha' : p a = false := by simpa using ha
      simp only [List.find?_cons, ha'] at hf
      rcases List.mem_cons.mp hy with h | h
      · subst h
        exact absurd hp ha
      · exact ih hs.2 hf h hp

theorem gapSize_smallest (defs : List ArrayDef) (size idx : Nat)
    (hsorted : defs.Pairwise (fun a b => a.idx_ ≤ b.idx_)) (m : Nat)
    (hm : m ∈ defs.map fun d => d.idx_) (hgt : idx < m)
    (hmin : ∀ m' ∈ defs.map (fun d => d.idx_), idx < m' → m ≤ m') :
    gapSize defs size idx = m - idx := by
  obtain ⟨d, hd, hdm⟩ := List.mem_map.mp hm
  have hpd : (fun xdef : ArrayDef => !decide (xdef.idx_ ≤ idx)) d = true := by
    simp only [Bool.not_eq_true', decide_eq_false_iff_not]
    omega
  cases hf : defs.find? (fun xdef => !decide (xdef.idx_ ≤ idx)) with
  | none =>
    have := List.find?_eq_none.mp hf d hd
    exact absurd hpd this
  | some x =>
    have hx := List.find?_some hf
    simp only [Bool.not_eq_true', decide_eq_false_iff_not] at hx
    have hxm : x ∈ defs := List.mem_of_find?_eq_some hf
    have h1 : x.idx_ ≤ d.idx_ := find?_sorted_le hsorted hf hd hpd
    have h2 : m ≤ x.idx_ := hmin x.idx_ (List.mem_map.mpr ⟨x, hxm, rfl⟩) (by omega)
    unfold gapSize
    simp only [hf]
    rw [if_pos (by omega)]
    omega

theorem gapSize_none (defs : List ArrayDef) (size idx : Nat)
    (hnone : ∀ m' ∈ defs.map (fun d => d.idx_), ¬ idx < m') :
    gapSize defs size idx = size - idx := by
  unfold gapSize
  cases hf : defs.find? (fun xdef => !decide (xdef.idx_ ≤ idx)) with
  | none => rfl
  | some x =>
    have hx := List.find?_some hf
    simp only [Bool.not_eq_true', decide_eq_false_iff_not] at hx
    have hxm : x ∈ defs := List.mem_of_find?_eq_some hf
    exact absurd (by omega) (hnone x.idx_ (List.mem_map.mpr ⟨x, hxm, rfl⟩))

theorem gapSize_pos (defs : List ArrayDef) (size idx : Nat) (hidx : idx < size) :
    0 < gapSize defs size idx := by
  unfold gapSize
  cases hf : defs.find? (fun xdef => !decide (xdef.idx_ ≤ idx)) with
  | none => simp only []; omega
  | some x =>
    simp only []
    split <;> omega

theorem count_mul_ne_iff (g t : Nat) : g / t * t ≠ g ↔ ¬ t ∣ g := by
  constructor
  · intro h hd
    exact h (Nat.div_mul_cancel hd)
  · intro h heq
    exact h ⟨g / t, by rw [Nat.mul_comm]; exact heq.symm⟩

/-- C26: for a binary array of `size` bytes whose layout permits concatenation
and has a positive `tagStep()`, and whose definition table is sorted by
ascending position, at a position `idx` below `size`: when the table has no
definition for `idx`, the loop of `visitBinaryArray` adds the element for a gap
definition that starts at `idx`, with the gap size the smallest position of the
table above `idx`, or `size` when there is none, minus `idx`, which is
positive; the gap definition has the default element type and the count
`gapSize / tagStep` when `tagStep` divides the gap size, and the type undefined
and the count `gapSize` otherwise; when the table has a definition for `idx`,
the first such definition is used. -/
theorem elementDef_gap (penv : ExifEnv) (cfg : ArrayCfg) (defs : List ArrayDef)
    (size idx : Nat) (hidx : idx < size) (hconcat : cfg.concat_ = true)
    (hstep : 0 < penv.tagStep cfg)
    (hsorted : defs.Pairwise (fun a b => a.idx_ ≤ b.idx_)) :
    ((∀ d ∈ defs, d.idx_ ≠ idx) →
        0 < gapSize defs size idx ∧
          (∀ m, m ∈ defs.map (fun d => d.idx_) → idx < m →
            (∀ m' ∈ defs.map (fun d => d.idx_), idx < m' → m ≤ m') →
            gapSize defs size idx = m - idx) ∧
          ((∀ m' ∈ defs.map (fun d => d.idx_), ¬ idx < m') →
            gapSize defs size idx = size - idx) ∧
          elementDef penv cfg (some defs) size idx =
            some (if penv.tagStep cfg ∣ gapSize defs size idx then
              { idx_ := idx, tiffType_ := cfg.elDefaultDef_.tiffType_,
                count_ := gapSize defs size idx / penv.tagStep cfg }
            else
              { idx_ := idx, tiffType_ := penv.ttUndefined,
                count_ := gapSize defs size idx })) ∧
      (∀ d, findDef defs idx = some d →
        elementDef penv cfg (some defs) size idx = some d ∧ d ∈ defs ∧ d.idx_ = idx) ∧
      (findDef defs idx = none ↔ ∀ d ∈ defs, d.idx_ ≠ idx) ∧
      ∃ d, elementDef penv cfg (some defs) size idx = some d ∧
        ∀ (fuel : Nat) (object : TiffBinaryArray), object.def_ = some defs →
          object.node.entry.size = size →
          addElements penv cfg (fuel + 1) idx object =
            if (object.addElement penv idx d).2 = 0 then none
            else
              addElements penv cfg fuel (idx + (object.addElement penv idx d).2)
                (object.addElement penv idx d).1 := by
  have hnone : findDef defs idx = none ↔ ∀ d ∈ defs, d.idx_ ≠ idx := by
    unfold findDef
    rw [List.find?_eq_none]
    constructor
    · intro h d hd
      simpa using h d hd
    · intro h d hd
      simpa using h d hd
  have hgap : findDef defs idx = none →
      elementDef penv cfg (some defs) size idx =
        some (if penv.tagStep cfg ∣ gapSize defs size idx then
          { idx_ := idx, tiffType_ := cfg.elDefaultDef_.tiffType_,
            count_ := gapSize defs size idx / penv.tagStep cfg }
        else
          { idx_ := idx, tiffType_ := penv.ttUndefined,
            count_ := gapSize defs size idx }) := by
    intro hf
    unfold elementDef
    simp only [hf, hconcat, if_true]
    rw [if_neg (by omega)]
    by_cases hd : penv.tagStep cfg ∣ gapSize defs size idx
    · rw [if_neg (not_not.mpr (Nat.div_mul_cancel hd)), if_pos hd]
    · rw [if_pos ((count_mul_ne_iff _ _).mpr hd), if_neg hd]
  have hsome : ∃ d, elementDef penv cfg (some defs) size idx = some d := by
    cases hf : findDef defs idx with
    | none => exact ⟨_, hgap hf⟩
    | some d =>
      refine ⟨d, ?_⟩
      unfold elementDef
      simp only [hf]
  refine ⟨?_, ?_, hnone, ?_⟩
  · intro hno
    exact ⟨gapSize_pos defs size idx hidx, gapSize_smallest defs size idx hsorted,
      gapSize_none defs size idx, hgap (hnone.mpr hno)⟩
  · intro d hd
    refine ⟨?_, ?_, ?_⟩
    · unfold elementDef
      simp only [hd]
    · exact List.mem_of_find?_eq_some hd
    · have := List.find?_some hd
      simpa using this
  · obtain ⟨d, hd⟩ := hsome
    refine ⟨d, hd, ?_⟩
    intro fuel object hdef hsize
    simp only [addElements, hdef, hsize, if_pos hidx, hd]

/-- Witness of C26: explicit definitions at the positions 0 and 4 of an array of
10 bytes and a `tagStep()` of 1; at position 2 the gap definition covers the 2
bytes up to position 4, and at position 5 the 5 bytes up to the end. -/
theorem elementDef_gap_witness :
    elementDef Sample.exifEnv Sample.concatCfg (some Sample.sortedDefs) 10 2 =
        some { idx_ := 2, tiffType_ := 1, count_ := 2 } ∧
      gapSize Sample.sortedDefs 10 5 = 10 - 5 :=
  ⟨((elementDef_gap Sample.exifEnv Sample.concatCfg Sample.sortedDefs 10 2 (by decide) rfl
      (by decide) (by decide)).1 (by decide)).2.2.2.trans (by decide),
    ((elementDef_gap Sample.exifEnv Sample.concatCfg Sample.sortedDefs 10 5 (by decide) rfl
      (by decide) (by decide)).1 (by decide)).2.2.1 (by decide)⟩

theorem addElements_elements (penv : ExifEnv) (cfg : ArrayCfg) :
    ∀ (fuel idx : Nat) (object o' : TiffBinaryArray),
      addElements penv cfg fuel idx object = some o' →
      ∃ added, o'.elements_ = object.elements_ ++ added ∧ o'.node = object.node ∧
        o'.def_ = object.def_ ∧ (idx < object.node.entry.size → added ≠ []) := by
  intro fuel
  induction fuel with
  | zero =>
    intro idx object o' h
    simp only [addElements] at h
    split at h
    · cases h
    · rename_i hlt
      simp only [Option.some.injEq] at h
      subst h
      exact ⟨[], by simp, rfl, rfl, fun hc => absurd hc hlt⟩
  | succ fuel ih =>
    intro idx object o' h
    simp only [addElements] at h
    by_cases hlt : idx < object.node.entry.size
    · rw [if_pos hlt] at h
      cases hd : elementDef penv cfg object.def_ object.node.entry.size idx with
      | none =>
        rw [hd] at h
        cases h
      | some d =>
        rw [hd] at h
        simp only [] at h
        split at h
        · cases h
        · obtain ⟨added, h1, h2, h3, -⟩ := ih _ _ _ h
          refine ⟨(penv.addElement object.node idx d).1 :: added, ?_, ?_, ?_,
            fun _ => by simp⟩
          · rw [h1]
            simp [TiffBinaryArray.addElement]
          · rw [h2]
            rfl
          · rw [h3]
            rfl
    · rw [if_neg hlt] at h
      simp only [Option.some.injEq] at h
      subst h
      exact ⟨[], by simp, rfl, rfl, fun hc => absurd hc hlt⟩

theorem elementDef_isSome (penv : ExifEnv) (cfg : ArrayCfg) (hstep : 0 < penv.tagStep cfg)
    (defs : Option (List ArrayDef)) (size idx : Nat) :
    ∃ d, elementDef penv cfg defs size idx = some d := by
  unfold elementDef
  cases defs with
  | none => exact ⟨_, rfl⟩
  | some defs =>
    simp only []
    cases findDef defs idx with
    | some d => exact ⟨_, rfl⟩
    | none =>
      simp only []
      split
      · rw [if_neg (by omega)]
        split
        · exact ⟨_, rfl⟩
        · exact ⟨_, rfl⟩
      · exact ⟨_, rfl⟩

/-- The loop of `visitBinaryArray` ends when every element has a positive
size and `tagStep()` is positive: with the size of the array as fuel the model
yields a result. -/
theorem addElements_isSome (penv : ExifEnv) (cfg : ArrayCfg)
    (hpos : ∀ node idx d, 0 < (penv.addElement node idx d).2)
    (hstep : 0 < penv.tagStep cfg) :
    ∀ (fuel idx : Nat) (object : TiffBinaryArray), object.node.entry.size ≤ idx + fuel →
      (addElements penv cfg fuel idx object).isSome = true := by
  intro fuel
  induction fuel with
  | zero =>
    intro idx object h
    simp only [addElements]
    rw [if_neg (by omega)]
    rfl
  | succ fuel ih =>
    intro idx object h
    simp only [addElements]
    split
    · obtain ⟨d, hd⟩ := elementDef_isSome penv cfg hstep object.def_ object.node.entry.size idx
      rw [hd]
      simp only []
      have hp := hpos object.node idx d
      have hne : ¬ ((object.addElement penv idx d).2 = 0) := by
        show ¬ ((penv.addElement object.node idx d).2 = 0)
        omega
      rw [if_neg hne]
      apply ih
      show object.node.entry.size ≤ idx + (penv.addElement object.node idx d).2 + fuel
      omega
    · rfl

theorem decipher_eq (penv : ExifEnv) (cfg : ArrayCfg) (object : TiffBinaryArray) :
    (decipher penv cfg object).elements_ = object.elements_ ∧
      (object.node.entry.size ≠ 0 → (decipher penv cfg object).node.entry.size ≠ 0) ∧
      ∀ f, cfg.cryptFct_ = some f →
        penv.crypt f object.node.entry.tag (object.node.data.take object.node.entry.size) ≠ [] →
        (decipher penv cfg object).node.data =
          penv.crypt f object.node.entry.tag (object.node.data.take object.node.entry.size) := by
  unfold decipher
  cases hcr : cfg.cryptFct_ with
  | none =>
    refine ⟨rfl, fun h => h, fun f hf => ?_⟩
    cases hf
  | some f =>
    simp only []
    by_cases hb : penv.crypt f object.node.entry.tag
        (object.node.data.take object.node.entry.size) ≠ []
    · rw [if_pos hb]
      refine ⟨rfl, fun _ => ?_, fun f' hf' _ => ?_⟩
      · show (penv.crypt f object.node.entry.tag
          (object.node.data.take object.node.entry.size)).length ≠ 0
        exact fun h => hb (List.length_eq_zero.mp h)
      · rw [Option.some.injEq] at hf'
        subst hf'
        rfl
    · rw [if_neg hb]
      refine ⟨rfl, fun h => h, fun f' hf' hne => ?_⟩
      rw [Option.some.injEq] at hf'
      subst hf'
      exact absurd hne hb

/-- One run of the post-processing part of `visitBinaryArray`: the elements it
adds come after those the array had; it adds at least one when the duplicate
check passes, the size is not `0`, `initialize` succeeds and there is a layout,
and then a cipher with a non-empty result replaces the bytes of the array;
otherwise it adds none. -/
theorem decodeBinaryArray_run (penv : ExifEnv) (pRoot : TiffComponent)
    (object o' : TiffBinaryArray) (h : decodeBinaryArray penv pRoot object = some o') :
    ∃ added, o'.elements_ = object.elements_ ++ added ∧
      (isDuplicate pRoot object = false → object.node.entry.size ≠ 0 →
        penv.initOk object.node = true → ∀ cfg, object.node.cfg = some cfg →
          added ≠ [] ∧
            ∀ f, cfg.cryptFct_ = some f →
              penv.crypt f object.node.entry.tag
                (object.node.data.take object.node.entry.size) ≠ [] →
              o'.node.data = penv.crypt f object.node.entry.tag
                (object.node.data.take object.node.entry.size)) ∧
      ((isDuplicate pRoot object = true ∨ object.node.entry.size = 0 ∨
          penv.initOk object.node = false ∨ object.node.cfg = none) → added = []) := by
  unfold decodeBinaryArray at h
  by_cases hd : isDuplicate pRoot object = true
  · rw [if_pos hd] at h
    simp only [Option.some.injEq] at h
    subst h
    exact ⟨[], by simp, fun hn => (by rw [hd] at hn; cases hn), fun _ => rfl⟩
  · rw [if_neg hd] at h
    by_cases hs : object.node.entry.size = 0
    · rw [if_pos hs] at h
      simp only [Option.some.injEq] at h
      subst h
      exact ⟨[], by simp, fun _ hne => absurd hs hne, fun _ => rfl⟩
    · rw [if_neg hs] at h
      by_cases hi : penv.initOk object.node = false
      · rw [if_pos hi] at h
        simp only [Option.some.injEq] at h
        subst h
        exact ⟨[], by simp, fun _ _ ht => (by rw [hi] at ht; cases ht), fun _ => rfl⟩
      · rw [if_neg hi] at h
        cases hc : object.node.cfg with
        | none =>
          simp only [hc, Option.some.injEq] at h
          subst h
          exact ⟨[], by simp, fun _ _ _ cfg hcfg => (by cases hcfg), fun _ => rfl⟩
        | some cfg =>
          simp only [hc] at h
          obtain ⟨added, h1, h2, -, h4⟩ := addElements_elements penv cfg _ _ _ _ h
          obtain ⟨e1, e2, e3⟩ := decipher_eq penv cfg object
          refine ⟨added, by rw [h1, e1], ?_, ?_⟩
          · intro _ _ _ cfg' hcfg'
            rw [Option.some.injEq] at hcfg'
            subst hcfg'
            refine ⟨h4 (Nat.pos_of_ne_zero (e2 hs)), fun f hf hne => ?_⟩
            rw [h2]
            exact e3 f hf hne
          · rintro (h | h | h | h)
            · exact absurd h hd
            · exact absurd h hs
            · exact absurd h hi
            · cases h

/-- The claim C23 as stated fails: a second run of the post-processing part of
`visitBinaryArray` on the sample array of two bytes, which got two elements in
the first run, adds two elements again; and on the sample array with a cipher
that adds 1 to every byte, the bytes `1, 2`, deciphered to `2, 3` by the first
run, are deciphered again to `3, 4` by the second. -/
theorem decodeBinaryArray_twice_counterexample :
    ∃ o1 o2 c1 c2,
      decodeBinaryArray Sample.exifEnv (Sample.rootOf [Sample.plainArray.node])
          Sample.plainArray = some o1 ∧
        decodeBinaryArray Sample.exifEnv (Sample.rootOf [Sample.plainArray.node]) o1 =
          some o2 ∧
        o1.elements_.length = 2 ∧ o2.elements_.length = 4 ∧
        decodeBinaryArray Sample.cipherEnv (Sample.rootOf [Sample.cipherBinaryArray.node])
          Sample.cipherBinaryArray = some c1 ∧
        decodeBinaryArray Sample.cipherEnv (Sample.rootOf [Sample.cipherBinaryArray.node]) c1 =
          some c2 ∧
        c1.node.data = [2, 3] ∧ c2.node.data = [3, 4] :=
  ⟨_, _, _, _, rfl, rfl, by decide, by decide, rfl, rfl, by decide, by decide⟩

/-- C23 (amended): a second run of the post-processing part of
`visitBinaryArray` on the node the first run left appends again: the children
after the second run are those after the first run followed by the elements
the second run adds. These are at least one when the duplicate check passes,
the size is not `0`, `initialize` succeeds and there is a layout, and then a
cipher of the layout whose result is not empty is applied to the bytes the
first run left; otherwise the second run adds no element. -/
theorem decodeBinaryArray_again (penv : ExifEnv) (pRoot pRoot' : TiffComponent)
    (object o1 o2 : TiffBinaryArray) (h1 : decodeBinaryArray penv pRoot object = some o1)
    (h2 : decodeBinaryArray penv pRoot' o1 = some o2) :
    ∃ added1 added2, o1.elements_ = object.elements_ ++ added1 ∧
      o2.elements_ = object.elements_ ++ added1 ++ added2 ∧
      (isDuplicate pRoot' o1 = false → o1.node.entry.size ≠ 0 →
        penv.initOk o1.node = true → ∀ cfg, o1.node.cfg = some cfg →
          added2 ≠ [] ∧
            ∀ f, cfg.cryptFct_ = some f →
              penv.crypt f o1.node.entry.tag (o1.node.data.take o1.node.entry.size) ≠ [] →
              o2.node.data =
                penv.crypt f o1.node.entry.tag (o1.node.data.take o1.node.entry.size)) ∧
      ((isDuplicate pRoot' o1 = true ∨ o1.node.entry.size = 0 ∨
          penv.initOk o1.node = false ∨ o1.node.cfg = none) → added2 = []) := by
  obtain ⟨added1, ha1, -, -⟩ := decodeBinaryArray_run penv pRoot object o1 h1
  obtain ⟨added2, ha2, hg, hn⟩ := decodeBinaryArray_run penv pRoot' o1 o2 h2
  exact ⟨added1, added2, ha1, by rw [ha2, ha1], hg, hn⟩

/-- Witness of C23 (amended): two runs on the sample array of two bytes. -/
theorem decodeBinaryArray_again_witness :
    ∃ o1 o2,
      decodeBinaryArray Sample.exifEnv (Sample.rootOf [Sample.plainArray.node])
          Sample.plainArray = some o1 ∧
        decodeBinaryArray Sample.exifEnv (Sample.rootOf [Sample.plainArray.node]) o1 =
          some o2 ∧
        ∃ added1 added2, o1.elements_ = Sample.plainArray.elements_ ++ added1 ∧
          o2.elements_ = Sample.plainArray.elements_ ++ added1 ++ added2 ∧
          (isDuplicate (Sample.rootOf [Sample.plainArray.node]) o1 = false →
            o1.node.entry.size ≠ 0 → Sample.exifEnv.initOk o1.node = true →
            ∀ cfg, o1.node.cfg = some cfg →
              added2 ≠ [] ∧
                ∀ f, cfg.cryptFct_ = some f →
                  Sample.exifEnv.crypt f o1.node.entry.tag
                    (o1.node.data.take o1.node.entry.size) ≠ [] →
                  o2.node.data = Sample.exifEnv.crypt f o1.node.entry.tag
                    (o1.node.data.take o1.node.entry.size)) ∧
          ((isDuplicate (Sample.rootOf [Sample.plainArray.node]) o1 = true ∨
              o1.node.entry.size = 0 ∨ Sample.exifEnv.initOk o1.node = false ∨
              o1.node.cfg = none) → added2 = []) :=
  ⟨_, _, rfl, rfl,
    decodeBinaryArray_again Sample.exifEnv (Sample.rootOf [Sample.plainArray.node])
      (Sample.rootOf [Sample.plainArray.node]) Sample.plainArray _ _ rfl rfl⟩

theorem sameState_refl (r : TiffReader) : SameState r r := ⟨rfl, rfl, rfl, rfl, rfl⟩

theorem sameState_trans {r r' r'' : TiffReader} (h : SameState r r') (h' : SameState r' r'') :
    SameState r r'' :=
  ⟨h'.1.trans h.1, h'.2.1.trans h.2.1, h'.2.2.1.trans h.2.2.1, h'.2.2.2.1.trans h.2.2.2.1,
    h'.2.2.2.2.trans h.2.2.2.2⟩

theorem readTiffEntry_sameState {env : Env} {r r' : TiffReader}
    {object object' : TiffEntryBase} (h : readTiffEntry env r object = .ok (object', r')) :
    SameState r r' := by
  rcases readTiffEntry_cases h with ⟨-, hr⟩ | ⟨-, -, -, hr⟩
  · rw [hr]; exact sameState_refl r
  · rw [hr]; exact ⟨rfl, rfl, rfl, rfl, rfl⟩

theorem visitBinaryElement_sameState {env : Env} {r r' : TiffReader}
    {object object' : TiffBinaryElement}
    (h : visitBinaryElement env r object = .ok (object', r')) : SameState r r' := by
  unfold visitBinaryElement at h
  simp only at h
  split at h
  · cases h
  · simp only [Except.ok.injEq, Prod.mk.injEq] at h
    rw [← h.2]
    exact ⟨rfl, rfl, rfl, rfl, rfl⟩

theorem visitElements_sameState (env : Env) :
    ∀ (els els' : List TiffBinaryElement) (r r' : TiffReader),
      visitElements env r els = .ok (els', r') → SameState r r' := by
  intro els
  induction els with
  | nil =>
    intro els' r r' h
    simp only [visitElements, Except.ok.injEq, Prod.mk.injEq] at h
    rw [← h.2]
    exact sameState_refl r
  | cons el els ih =>
    intro els' r r' h
    simp only [visitElements] at h
    cases hv : visitBinaryElement env r el with
    | error e => rw [hv] at h; cases h
    | ok p =>
      obtain ⟨el1, r1⟩ := p
      rw [hv] at h
      simp only at h
      cases hr : visitElements env r1 els with
      | error e => rw [hr] at h; cases h
      | ok q =>
        obtain ⟨els1, r2⟩ := q
        rw [hr] at h
        simp only [Except.ok.injEq, Prod.mk.injEq] at h
        rw [← h.2]
        exact sameState_trans (visitBinaryElement_sameState hv) (ih els1 r1 r2 hr)

theorem acceptBinaryArray_sameState {penv : ExifEnv} {pRoot : TiffComponent}
    {r r' : TiffReader} {object object' : TiffBinaryArray} (hpost : r.postProc_ = true)
    (h : acceptBinaryArray penv pRoot r object = .ok (some (object', r'))) :
    SameState r r' := by
  unfold acceptBinaryArray visitBinaryArray at h
  have hnf : ¬ (r.postProc_ = false) := by rw [hpost]; simp
  rw [if_neg hnf] at h
  cases hd : decodeBinaryArray penv pRoot object with
  | none => rw [hd] at h; cases h
  | some o =>
    rw [hd] at h
    simp only at h
    cases hv : visitElements penv.toEnv r o.elements_ with
    | error e => rw [hv] at h; cases h
    | ok q =>
      obtain ⟨els1, r2⟩ := q
      rw [hv] at h
      simp only [Except.ok.injEq, Option.some.injEq, Prod.mk.injEq] at h
      rw [← h.2]
      exact visitElements_sameState _ _ _ _ _ hv

end TiffReader

namespace TiffEncoder

theorem encodeOffsetEntry_tag (penv : ExifEnv) (e : TiffEncoder) (object : TiffEntryBase)
    (datum : Exifdatum) :
    (encodeOffsetEntry penv e object datum).2.tag = object.tag ∧
      (encodeOffsetEntry penv e object datum).2.group = object.group := by
  unfold encodeOffsetEntry TiffEntryBase.updateValue TiffEntryBase.setValuePtr
  simp only []
  split
  · cases datum.value with
    | none => exact ⟨rfl, rfl⟩
    | some v =>
      simp only []
      split <;> exact ⟨rfl, rfl⟩
  · cases datum.value with
    | none => exact ⟨rfl, rfl⟩
    | some v => exact ⟨rfl, rfl⟩

theorem marks_writeMethod {e e' : TiffEncoder} (h : Marks e e') :
    e'.writeMethod_ = e.writeMethod_ ∧ e'.pSourceTree_ = e.pSourceTree_ := by
  rcases h with h | h <;> simp [h, setDirty]

/-- The claim C30 as stated fails, in both directions. With a size record of
the components `10, 20` present and a value without data area, the strips of
the image entry are those of the image entry of the source tree, not one strip
per component of the size record; and with no size record and a value with a
data area of one byte, the strips are one strip of that size without data
pointer, not those of the source tree. -/
theorem encodeImageEntry_strips_counterexample :
    (Sample.intrusiveEncoder [Sample.record "Image" "Unknown" 0x0117 1 [10, 20]]).exifData_.lookup
        (ExifKey.ofTag Sample.stripEnv 0x0117 (Sample.stripEnv.groupName 1)) =
        some (Sample.record "Image" "Unknown" 0x0117 1 [10, 20]) ∧
      (encodeImageEntry Sample.stripEnv
        (Sample.intrusiveEncoder [Sample.record "Image" "Unknown" 0x0117 1 [10, 20]])
        (Sample.imageNode []) (Sample.record "Image" "Unknown" 0x0111 1 [1])).2.strips_ =
        [(5000, 7)] ∧
      (Sample.intrusiveEncoder []).exifData_.lookup
        (ExifKey.ofTag Sample.dataAreaEnv 0x0117 (Sample.dataAreaEnv.groupName 1)) = none ∧
      (encodeImageEntry Sample.dataAreaEnv (Sample.intrusiveEncoder [])
        (Sample.imageNode []) (Sample.record "Image" "Unknown" 0x0111 1 [1])).2.strips_ =
        [(0, 1)] := by
  decide

/-- C30 (amended): in intrusive mode, with `v` the value of the image entry
after `encodeOffsetEntry`: when `v` has a data area, the strips are replaced by
one strip without data pointer per component of the companion size record, in
order and with those lengths, if the size record is present, and by a single
strip without data pointer of the size of the data area if it is not; when `v`
has no data area, the strips become those of the first component in pre-order
of the source tree with the tag and group of the entry, if there is a source
tree and that component is an image entry, and stay as they are otherwise. -/
theorem encodeImageEntry_strips (penv : ExifEnv) (e : TiffEncoder) (object : TiffNode)
    (datum : Exifdatum) (v : Value) (hint : e.writeMethod_ = .wmIntrusive)
    (hv : (encodeOffsetEntry penv e object.entry datum).2.pValue = some v) :
    (0 < penv.sizeDataArea v →
        ∀ pos, e.exifData_.lookup
            (ExifKey.ofTag penv object.szTag (penv.groupName object.szGroup)) = some pos →
          (encodeImageEntry penv e object datum).2.strips_ =
            (match pos.value with
             | some sv => penv.toUint32s sv
             | none => []).map fun len => (0, len)) ∧
      (0 < penv.sizeDataArea v →
        e.exifData_.lookup
            (ExifKey.ofTag penv object.szTag (penv.groupName object.szGroup)) = none →
          (encodeImageEntry penv e object datum).2.strips_ = [(0, penv.sizeDataArea v)]) ∧
      (penv.sizeDataArea v = 0 →
        (encodeImageEntry penv e object datum).2.strips_ =
          match e.pSourceTree_ with
          | none => object.strips_
          | some pSourceTree =>
            match pSourceTree.preorder.find?
              (TiffFinder.isMatch object.entry.tag object.entry.group) with
            | some (.entry ti _) => if ti.kind = .imageEntry then ti.strips_ else object.strips_
            | _ => object.strips_) := by
  have hm := encodeOffsetEntry_marks penv e object.entry datum
  have hw : (encodeOffsetEntry penv e object.entry datum).1.writeMethod = .wmIntrusive := by
    show (encodeOffsetEntry penv e object.entry datum).1.writeMethod_ = _
    rw [(marks_writeMethod hm).1, hint]
  have hni : ¬ (penv.sizeDataArea v > 0 ∧
      (encodeOffsetEntry penv e object.entry datum).1.writeMethod = .wmNonIntrusive) := by
    rw [hw]; simp
  refine ⟨?_, ?_, ?_⟩
  · intro hpos pos hl
    have h0 : ¬ (penv.sizeDataArea v = 0 ∧
        (encodeOffsetEntry penv e object.entry datum).1.writeMethod = .wmIntrusive) :=
      fun h => by omega
    have h1 : penv.sizeDataArea v > 0 ∧
        (encodeOffsetEntry penv e object.entry datum).1.writeMethod = .wmIntrusive := ⟨hpos, hw⟩
    unfold encodeImageEntry
    simp only [hv, if_neg hni, if_pos h1, if_neg h0, hm.exifData, hl]
  · intro hpos hl
    have h0 : ¬ (penv.sizeDataArea v = 0 ∧
        (encodeOffsetEntry penv e object.entry datum).1.writeMethod = .wmIntrusive) :=
      fun h => by omega
    have h1 : penv.sizeDataArea v > 0 ∧
        (encodeOffsetEntry penv e object.entry datum).1.writeMethod = .wmIntrusive := ⟨hpos, hw⟩
    unfold encodeImageEntry
    simp only [hv, if_neg hni, if_pos h1, if_neg h0, hm.exifData, hl]
  · intro hz
    have h1 : ¬ (penv.sizeDataArea v > 0 ∧
        (encodeOffsetEntry penv e object.entry datum).1.writeMethod = .wmIntrusive) :=
      fun h => by omega
    have h0 : penv.sizeDataArea v = 0 ∧
        (encodeOffsetEntry penv e object.entry datum).1.writeMethod = .wmIntrusive := ⟨hz, hw⟩
    unfold encodeImageEntry
    simp only [hv, if_neg hni, if_neg h1, if_pos h0]
    unfold sourceStrips
    rw [(marks_writeMethod hm).2, (encodeOffsetEntry_tag penv e object.entry datum).1,
      (encodeOffsetEntry_tag penv e object.entry datum).2]
    cases hs : e.pSourceTree_ with
    | none => rfl
    | some pSourceTree =>
      simp only []
      rw [TiffFinder.find_eq]
      cases hf : pSourceTree.preorder.find?
          (TiffFinder.isMatch object.entry.tag object.entry.group) with
      | none => rfl
      | some c =>
        cases c with
        | entry ti cs =>
          simp only []
          by_cases hk : ti.kind = .imageEntry
          · simp only [hk, if_true]
          · simp only [hk, if_false]
        | directory t g cs => rfl

/-- Witness of C30 (amended): a size record with the components `10, 20` and a
value with a data area: two strips of 10 and 20 bytes without data pointer. -/
theorem encodeImageEntry_strips_witness :
    (encodeImageEntry Sample.dataAreaEnv
      (Sample.intrusiveEncoder [Sample.record "Image" "Unknown" 0x0117 1 [10, 20]])
      (Sample.imageNode []) (Sample.record "Image" "Unknown" 0x0111 1 [1])).2.strips_ =
      [(0, 10), (0, 20)] :=
  (encodeImageEntry_strips Sample.dataAreaEnv
    (Sample.intrusiveEncoder [Sample.record "Image" "Unknown" 0x0117 1 [10, 20]])
    (Sample.imageNode []) (Sample.record "Image" "Unknown" 0x0111 1 [1])
    { typeId := 1, bytes := [1], byteOrder := .littleEndian } rfl rfl).1 (by decide)
    (Sample.record "Image" "Unknown" 0x0117 1 [10, 20]) (by decide)

end TiffEncoder

namespace TiffDecoder

theorem findIdx?_start (p : Nat → Bool) :
    ∀ (l : List Nat) (i : Nat), l.findIdx? p i = (l.findIdx? p 0).map (· + i) := by
  intro l
  induction l with
  | nil => intro i; rfl
  | cons a as ih =>
    intro i
    simp only [List.findIdx?_cons]
    by_cases h : p a = true
    · simp [h]
    · simp only [h, Bool.false_eq_true, if_false]
      rw [ih (i + 1), ih (0 + 1)]
      cases List.findIdx? p as 0 with
      | none => rfl
      | some k => simp; omega

theorem trim_eq (block : List Nat) :
    (match block.findIdx? fun b => b == 60 with
      | some idx => if idx > 0 then block.drop idx else block
      | none => block) =
      if 60 ∈ block then block.dropWhile (fun b => b != 60) else block := by
  have key : ∀ l : List Nat,
      (∀ i, l.findIdx? (fun b => b == 60) 0 = some i → l.drop i = l.dropWhile fun b => b != 60) ∧
        (l.findIdx? (fun b => b == 60) 0 = none → 60 ∉ l) ∧
        (∀ i, l.findIdx? (fun b => b == 60) 0 = some i → 60 ∈ l) := by
    intro l
    induction l with
    | nil => simp
    | cons a as ih =>
      by_cases ha : a = 60
      · subst ha
        simp [List.findIdx?_cons]
      · have hb : (a == 60) = false := by simpa using ha
        simp only [List.findIdx?_cons, hb, Bool.false_eq_true, if_false]
        rw [findIdx?_start]
        cases hf : List.findIdx? (fun b => b == 60) as 0 with
        | none =>
          refine ⟨by simp, fun _ => ?_, by simp⟩
          simp only [List.mem_cons, not_or]
          exact ⟨fun h => ha h.symm, ih.2.1 hf⟩
        | some k =>
          refine ⟨?_, by simp, ?_⟩
          · intro i hi
            simp only [Option.map_some', Option.some.injEq] at hi
            subst hi
            have := ih.1 k hf
            simp [List.dropWhile_cons, ha, this]
          · intro i _
            exact List.mem_cons_of_mem _ (ih.2.2 k hf)
  cases hf : block.findIdx? (fun b => b == 60) with
  | none =>
    simp only []
    rw [if_neg ((key block).2.1 hf)]
  | some idx =>
    simp only []
    rw [if_pos ((key block).2.2 idx hf)]
    by_cases hpos : idx > 0
    · rw [if_pos hpos]
      exact (key block).1 idx hf
    · rw [if_neg hpos]
      have h0 : idx = 0 := by omega
      subst h0
      have := (key block).1 0 hf
      simpa using this

/-- C29: `decodeXmp` adds the generic record of the visited entry in every
case, whatever the packet parser returns; when it finds an XML-packet block
(`getObjData` for tag `0x02bc` of IFD0 yields a non-null data pointer), the
packet handed to the parser is the block from its first `<` byte on when the
block contains one, and the whole block when it contains none; without a
block no packet is handed over. -/
theorem decodeXmp_packet (penv : ExifEnv) (pRoot : TiffComponent) (dec : TiffDecoder)
    (object : TiffNode) :
    (decodeXmp penv pRoot dec object).exifData_ =
        (decodeStdTiffEntry penv dec object.entry).exifData_ ∧
      ((getObjData pRoot 0 0 [] 0x02bc penv.ifd0Id (some object)).1 ≠ 0 →
        (decodeXmp penv pRoot dec object).xmpData_ = dec.xmpData_ ++
          [if 60 ∈ (getObjData pRoot 0 0 [] 0x02bc penv.ifd0Id (some object)).2.2.take
                (getObjData pRoot 0 0 [] 0x02bc penv.ifd0Id (some object)).2.1 then
              ((getObjData pRoot 0 0 [] 0x02bc penv.ifd0Id (some object)).2.2.take
                (getObjData pRoot 0 0 [] 0x02bc penv.ifd0Id (some object)).2.1).dropWhile
                fun b => b != 60
            else (getObjData pRoot 0 0 [] 0x02bc penv.ifd0Id (some object)).2.2.take
                (getObjData pRoot 0 0 [] 0x02bc penv.ifd0Id (some object)).2.1]) ∧
      ((getObjData pRoot 0 0 [] 0x02bc penv.ifd0Id (some object)).1 = 0 →
        (decodeXmp penv pRoot dec object).xmpData_ = dec.xmpData_) := by
  refine ⟨?_, ?_, ?_⟩
  · unfold decodeXmp
    simp only []
    split <;> rfl
  · intro h
    unfold decodeXmp
    simp only []
    rw [if_pos h, trim_eq]
    rfl
  · intro h
    unfold decodeXmp
    simp only []
    rw [if_neg (by simpa using h)]
    rfl

/-- Witness of C29: the block `x x < a >` of the visited entry of tag `0x02bc`:
the packet handed to the parser is `< a >`. -/
theorem decodeXmp_packet_witness :
    (decodeXmp Sample.exifEnv (Sample.rootOf []) Sample.decoder
      (Sample.blockNode 0x02bc [120, 120, 60, 97, 62])).xmpData_ = [[60, 97, 62]] :=
  ((decodeXmp_packet Sample.exifEnv (Sample.rootOf []) Sample.decoder
    (Sample.blockNode 0x02bc [120, 120, 60, 97, 62])).2.1 (by decide)).trans (by decide)

theorem decodeIptcNaa_exifData (penv : ExifEnv) (pRoot : TiffComponent) (d : TiffDecoder)
    (object : TiffNode) : (decodeIptcNaa penv pRoot d object).1.exifData_ = d.exifData_ := by
  unfold decodeIptcNaa
  simp only []
  split <;> rfl

theorem decodeIptcIrb_exifData (penv : ExifEnv) (pRoot : TiffComponent) (d : TiffDecoder)
    (object : TiffNode) : (decodeIptcIrb penv pRoot d object).exifData_ = d.exifData_ := by
  unfold decodeIptcIrb
  simp only []
  split
  · split <;> rfl
  · rfl

theorem decodeIptcIrb_eq (penv : ExifEnv) (pRoot : TiffComponent) (d : TiffDecoder)
    (object : TiffNode) :
    (decodeIptcIrb penv pRoot d object).decodedIptc_ = d.decodedIptc_ ∧
      (decodeIptcIrb penv pRoot d object).iptcData_ = d.iptcData_ ++
        (if (getObjData pRoot 0 0 [] 0x8649 penv.ifd0Id (some object)).1 ≠ 0 ∧
            (penv.locateIptcIrb
              ((getObjData pRoot 0 0 [] 0x8649 penv.ifd0Id (some object)).2.2.take
                (getObjData pRoot 0 0 [] 0x8649 penv.ifd0Id (some object)).2.1)).1 = 0 then
          [(((getObjData pRoot 0 0 [] 0x8649 penv.ifd0Id (some object)).2.2.take
              (getObjData pRoot 0 0 [] 0x8649 penv.ifd0Id (some object)).2.1).drop
              ((penv.locateIptcIrb
                ((getObjData pRoot 0 0 [] 0x8649 penv.ifd0Id (some object)).2.2.take
                  (getObjData pRoot 0 0 [] 0x8649 penv.ifd0Id (some object)).2.1)).2.1 +
               (penv.locateIptcIrb
                ((getObjData pRoot 0 0 [] 0x8649 penv.ifd0Id (some object)).2.2.take
                  (getObjData pRoot 0 0 [] 0x8649 penv.ifd0Id
                    (some object)).2.1)).2.2.1)).take
              (penv.locateIptcIrb
                ((getObjData pRoot 0 0 [] 0x8649 penv.ifd0Id (some object)).2.2.take
                  (getObjData pRoot 0 0 [] 0x8649 penv.ifd0Id (some object)).2.1)).2.2.2]
        else []) := by
  unfold decodeIptcIrb
  simp only []
  generalize getObjData pRoot 0 0 [] 0x8649 penv.ifd0Id (some object) = irb
  by_cases hi : irb.1 ≠ 0
  · rw [if_pos hi]
    by_cases hl : (penv.locateIptcIrb (irb.2.2.take irb.2.1)).1 ≠ 0
    · rw [if_pos hl, if_neg fun h => hl h.2]
      simp
    · rw [if_neg hl, if_pos ⟨hi, not_not.mp hl⟩]
      exact ⟨rfl, rfl⟩
  · rw [if_neg hi, if_neg fun h => hi h.1]
    simp

theorem decodeIptc_first (penv : ExifEnv) (pRoot : TiffComponent) (d : TiffDecoder)
    (object : TiffNode) (hd : d.decodedIptc_ = true) :
    (if (decodeIptcNaa penv pRoot d object).2 = true then (decodeIptcNaa penv pRoot d object).1
      else decodeIptcIrb penv pRoot (decodeIptcNaa penv pRoot d object).1 object).decodedIptc_ =
        true ∧
      (if (decodeIptcNaa penv pRoot d object).2 = true then (decodeIptcNaa penv pRoot d object).1
        else decodeIptcIrb penv pRoot (decodeIptcNaa penv pRoot d object).1 object).iptcData_ =
        d.iptcData_ ++
          (if (getObjData pRoot 0 0 [] 0x83bb penv.ifd0Id (some object)).1 ≠ 0 then
            [(getObjData pRoot 0 0 [] 0x83bb penv.ifd0Id (some object)).2.2.take
              (getObjData pRoot 0 0 [] 0x83bb penv.ifd0Id (some object)).2.1]
          else []) ++
          (if ((getObjData pRoot 0 0 [] 0x83bb penv.ifd0Id (some object)).1 = 0 ∨
                penv.iptcDecode
                  ((getObjData pRoot 0 0 [] 0x83bb penv.ifd0Id (some object)).2.2.take
                    (getObjData pRoot 0 0 [] 0x83bb penv.ifd0Id (some object)).2.1) ≠ 0) ∧
              (getObjData pRoot 0 0 [] 0x8649 penv.ifd0Id (some object)).1 ≠ 0 ∧
              (penv.locateIptcIrb
                ((getObjData pRoot 0 0 [] 0x8649 penv.ifd0Id (some object)).2.2.take
                  (getObjData pRoot 0 0 [] 0x8649 penv.ifd0Id (some object)).2.1)).1 = 0 then
            [(((getObjData pRoot 0 0 [] 0x8649 penv.ifd0Id (some object)).2.2.take
                (getObjData pRoot 0 0 [] 0x8649 penv.ifd0Id (some object)).2.1).drop
                ((penv.locateIptcIrb
                  ((getObjData pRoot 0 0 [] 0x8649 penv.ifd0Id (some object)).2.2.take
                    (getObjData pRoot 0 0 [] 0x8649 penv.ifd0Id (some object)).2.1)).2.1 +
                 (penv.locateIptcIrb
                  ((getObjData pRoot 0 0 [] 0x8649 penv.ifd0Id (some object)).2.2.take
                    (getObjData pRoot 0 0 [] 0x8649 penv.ifd0Id
                      (some object)).2.1)).2.2.1)).take
                (penv.locateIptcIrb
                  ((getObjData pRoot 0 0 [] 0x8649 penv.ifd0Id (some object)).2.2.take
                    (getObjData pRoot 0 0 [] 0x8649 penv.ifd0Id (some object)).2.1)).2.2.2]
          else []) := by
  have hirb := fun d' => decodeIptcIrb_eq penv pRoot d' object
  generalize hgi : getObjData pRoot 0 0 [] 0x8649 penv.ifd0Id (some object) = irb at hirb ⊢
  unfold decodeIptcNaa
  simp only []
  generalize getObjData pRoot 0 0 [] 0x83bb penv.ifd0Id (some object) = naa
  by_cases hn : naa.1 ≠ 0
  · rw [if_pos hn, if_pos hn]
    by_cases hok : penv.iptcDecode (naa.2.2.take naa.2.1) = 0
    · simp [hok, hd, hn]
    · simp only [hok, decide_False, Bool.false_eq_true, if_false]
      rw [(hirb _).1, (hirb _).2]
      refine ⟨hd, ?_⟩
      simp [hok]
  · rw [if_neg hn, if_neg hn]
    simp only [Bool.false_eq_true, if_false]
    rw [(hirb _).1, (hirb _).2]
    refine ⟨hd, ?_⟩
    simp [not_not.mp hn]

/-- The claim C24 as stated fails: a decoder that has tried IPTC before
(`decodedIptc_` is set) visits the entry of tag `0x83bb` of IFD0, whose block is
present: `decodeIptc` adds the generic record and hands no block to the
parser. -/
theorem decodeIptc_again_counterexample :
    (getObjData (Sample.rootOf []) 0 0 [] 0x83bb Sample.exifEnv.ifd0Id
        (some (Sample.blockNode 0x83bb [28, 2, 0]))).1 ≠ 0 ∧
      (decodeIptc Sample.exifEnv (Sample.rootOf [])
        { Sample.decoder with decodedIptc_ := true }
        (Sample.blockNode 0x83bb [28, 2, 0])).iptcData_ = [] ∧
      (decodeIptc Sample.exifEnv (Sample.rootOf []) Sample.decoder
        (Sample.blockNode 0x83bb [28, 2, 0])).iptcData_ = [[28, 2, 0]] := by
  decide

/-- C24 (amended): `decodeIptc` adds the generic record of the visited entry in
every case and raises no error. When the decoder has tried IPTC before, it
does nothing else. On the first try it sets the flag and hands the block at
the primary location (tag `0x83bb` of IFD0), if present, to the parser first;
the block at the secondary location (tag `0x8649` of IFD0) is used exactly
when the primary block is absent or its parse failed, the secondary block is
present and the resource-block locator finds a record in it, and then the
sub-block the locator gives is the only part of it handed to the parser. -/
theorem decodeIptc_choices (penv : ExifEnv) (pRoot : TiffComponent) (dec : TiffDecoder)
    (object : TiffNode) :
    (decodeIptc penv pRoot dec object).exifData_ =
        (decodeStdTiffEntry penv dec object.entry).exifData_ ∧
      (dec.decodedIptc_ = true →
        decodeIptc penv pRoot dec object = decodeStdTiffEntry penv dec object.entry) ∧
      (dec.decodedIptc_ = false →
        (decodeIptc penv pRoot dec object).decodedIptc_ = true ∧
          (decodeIptc penv pRoot dec object).iptcData_ =
            dec.iptcData_ ++
              (if (getObjData pRoot 0 0 [] 0x83bb penv.ifd0Id (some object)).1 ≠ 0 then
                [(getObjData pRoot 0 0 [] 0x83bb penv.ifd0Id (some object)).2.2.take
                  (getObjData pRoot 0 0 [] 0x83bb penv.ifd0Id (some object)).2.1]
              else []) ++
              (if ((getObjData pRoot 0 0 [] 0x83bb penv.ifd0Id (some object)).1 = 0 ∨
                    penv.iptcDecode
                      ((getObjData pRoot 0 0 [] 0x83bb penv.ifd0Id (some object)).2.2.take
                        (getObjData pRoot 0 0 [] 0x83bb penv.ifd0Id (some object)).2.1) ≠ 0) ∧
                  (getObjData pRoot 0 0 [] 0x8649 penv.ifd0Id (some object)).1 ≠ 0 ∧
                  (penv.locateIptcIrb
                    ((getObjData pRoot 0 0 [] 0x8649 penv.ifd0Id (some object)).2.2.take
                      (getObjData pRoot 0 0 [] 0x8649 penv.ifd0Id (some object)).2.1)).1 = 0 then
                [(((getObjData pRoot 0 0 [] 0x8649 penv.ifd0Id (some object)).2.2.take
                    (getObjData pRoot 0 0 [] 0x8649 penv.ifd0Id (some object)).2.1).drop
                    ((penv.locateIptcIrb
                      ((getObjData pRoot 0 0 [] 0x8649 penv.ifd0Id (some object)).2.2.take
                        (getObjData pRoot 0 0 [] 0x8649 penv.ifd0Id (some object)).2.1)).2.1 +
                     (penv.locateIptcIrb
                      ((getObjData pRoot 0 0 [] 0x8649 penv.ifd0Id (some object)).2.2.take
                        (getObjData pRoot 0 0 [] 0x8649 penv.ifd0Id
                          (some object)).2.1)).2.2.1)).take
                    (penv.locateIptcIrb
                      ((getObjData pRoot 0 0 [] 0x8649 penv.ifd0Id (some object)).2.2.take
                        (getObjData pRoot 0 0 [] 0x8649 penv.ifd0Id (some object)).2.1)).2.2.2]
              else [])) := by
  have hflag : (decodeStdTiffEntry penv dec object.entry).decodedIptc_ = dec.decodedIptc_ := rfl
  have hiptc : (decodeStdTiffEntry penv dec object.entry).iptcData_ = dec.iptcData_ := rfl
  refine ⟨?_, ?_, ?_⟩
  · unfold decodeIptc
    simp only []
    split
    · rfl
    · split
      · rw [decodeIptcNaa_exifData]
      · rw [decodeIptcIrb_exifData, decodeIptcNaa_exifData]
  · intro h
    unfold decodeIptc
    simp only [hflag, h, if_true]
  · intro h
    have hnf : ¬ ((decodeStdTiffEntry penv dec object.entry).decodedIptc_ = true) := by
      rw [hflag, h]; simp
    unfold decodeIptc
    simp only []
    rw [if_neg hnf]
    generalize hd : ({ decodeStdTiffEntry penv dec object.entry with decodedIptc_ := true } :
      TiffDecoder) = d
    have hd1 : d.decodedIptc_ = true := by rw [← hd]
    have hd2 : d.iptcData_ = dec.iptcData_ := by rw [← hd]; exact hiptc
    rw [← hd2]
    exact decodeIptc_first penv pRoot d object hd1

/-- Witness of C24 (amended): a decoder that has not tried IPTC before visits
the entry of tag `0x8649` whose block starts with the text `8BIM`: there is no
primary block, and the bytes after the four header bytes are handed to the
parser. -/
theorem decodeIptc_choices_witness :
    (decodeIptc Sample.exifEnv (Sample.rootOf []) Sample.decoder
      (Sample.blockNode 0x8649 [56, 66, 73, 77, 28, 2])).iptcData_ = [[28, 2]] :=
  ((decodeIptc_choices Sample.exifEnv (Sample.rootOf []) Sample.decoder
    (Sample.blockNode 0x8649 [56, 66, 73, 77, 28, 2])).2.2 rfl).2.trans (by decide)

theorem splitRecords_eq (penv : ExifEnv) (size : Nat) (ints : Nat → Int) (uint : Nat → Nat)
    (groupName : String) :
    ∀ (recs : List (Nat × Nat × Bool)) (nStart : Nat) (d d' : ExifData),
      splitRecords penv size ints uint groupName recs nStart d = .ok d' →
      d' = (subRecordsEmitted penv ints uint recs nStart).foldl
        (fun d x => ExifData.assign (ExifKey.ofName penv groupName x.1) x.2 d) d := by
  intro recs
  induction recs with
  | nil =>
    intro nStart d d' h
    simp only [splitRecords, Except.ok.injEq] at h
    simp [subRecordsEmitted, h]
  | cons r rest ih =>
    intro nStart d d' h
    obtain ⟨tag, sz, bSigned⟩ := r
    simp only [splitRecords] at h
    simp only [subRecordsEmitted]
    cases hf : findTag penv.canonTags tag with
    | none =>
      simp only [hf] at h ⊢
      exact ih nStart d d' h
    | some pTag =>
      simp only [hf] at h ⊢
      by_cases hr : sz > 0 ∧ nStart + sz > size
      · rw [if_pos hr] at h
        cases h
      · rw [if_neg hr] at h
        rw [List.foldl_cons]
        exact ih (nStart + sz) _ d' h

theorem subRecordsEmitted_complete (penv : ExifEnv) (ints : Nat → Int) (uint : Nat → Nat) :
    ∀ (recs : List (Nat × Nat × Bool)) (o : Nat),
      (∀ r ∈ recs, findTag penv.canonTags r.1 ≠ none) →
      subRecordsEmitted penv ints uint recs o = subRecordsLayout penv ints uint recs o := by
  intro recs
  induction recs with
  | nil => intro o _; rfl
  | cons r rest ih =>
    intro o h
    obtain ⟨tag, sz, bSigned⟩ := r
    simp only [subRecordsEmitted, subRecordsLayout]
    cases hf : findTag penv.canonTags tag with
    | none => exact absurd hf (h (tag, sz, bSigned) (List.mem_cons_self _ _))
    | some pTag =>
      simp only [List.singleton_append]
      rw [ih (o + sz) fun r hr => h r (List.mem_cons_of_mem _ hr)]

/-- The claim C28 as stated fails: with a tag table that lacks the first
sub-record tag `0x2600`, the read position is not advanced over the first word,
and the record `AFAreaMode`, second in the layout, is made of the word at
position 0 (`30`) instead of the word at position 1 (`2`). -/
theorem decodeCanonAFInfo_shifted_counterexample :
    ∃ dec', decodeCanonAFInfo Sample.shortTableEnv Sample.decoder
        (Sample.valueEntry 0x0026 Sample.afSmallValue) = .ok dec' ∧
      (dec'.exifData_.lookup (ExifKey.ofName Sample.shortTableEnv "Canon" "AFAreaMode")).map
          (fun x => x.value) =
        some (some (Sample.shortTableEnv.numbersValue 8 [30])) ∧
      toInt16 (Sample.afSmallValue.ushortAt 0) = 30 ∧
      toInt16 (Sample.afSmallValue.ushortAt 1) = 2 :=
  ⟨_, rfl, by decide, by decide, by decide⟩

/-- C28 (amended): for a vendor tag table that has all 15 sub-record tags, when
`decodeCanonAFInfo` returns for an entry whose array passes the checks, the
collection is the one with the generic record to which the sub-records were
assigned in layout order, each made of its `sz` words from position `o`, the
sum of the lengths of all records that precede it in the layout. The layout is
8 single words, 4 runs of `nPoints` words, all signed, and 3 unsigned runs of
`nMasks` words, with `nMasks = (nPoints + 15) / 16`. -/
theorem decodeCanonAFInfo_subRecords (penv : ExifEnv) (dec dec' : TiffDecoder)
    (object : TiffEntryBase) (v : Value) (hv : object.pValue = some v)
    (hc1 : ¬ (penv.valueCount v.typeId v.bytes.length < 3 ∨ v.typeId ≠ penv.unsignedShort))
    (hc2 : toInt16 (v.ushortAt 0) = toInt16 (penv.valueCount v.typeId v.bytes.length) * 2)
    (hc3 : enoughData (penv.valueCount v.typeId v.bytes.length)
      (afRecords (v.ushortAt 2) ((v.ushortAt 2 + 15) / 16 % 65536)) 0 = true)
    (hfull : ∀ r ∈ afRecords (v.ushortAt 2) ((v.ushortAt 2 + 15) / 16 % 65536),
      findTag penv.canonTags r.1 ≠ none)
    (hok : decodeCanonAFInfo penv dec object = .ok dec') :
    dec'.exifData_ =
        (subRecordsLayout penv (fun i => toInt16 (v.ushortAt i)) (fun i => v.ushortAt i)
          (afRecords (v.ushortAt 2) ((v.ushortAt 2 + 15) / 16 % 65536)) 0).foldl
          (fun d x => ExifData.assign (ExifKey.ofName penv (penv.groupName object.group) x.1) x.2 d)
          (decodeStdTiffEntry penv dec object).exifData_ ∧
      (subRecordsLayout penv (fun i => toInt16 (v.ushortAt i)) (fun i => v.ushortAt i)
          (afRecords (v.ushortAt 2) ((v.ushortAt 2 + 15) / 16 % 65536)) 0).length = 15 ∧
      (afRecords (v.ushortAt 2) ((v.ushortAt 2 + 15) / 16 % 65536)).map (fun r => r.2) =
        List.replicate 8 (1, true) ++ List.replicate 4 (v.ushortAt 2, true) ++
          List.replicate 3 ((v.ushortAt 2 + 15) / 16 % 65536, false) := by
  have hlen : ∀ (recs : List (Nat × Nat × Bool)) (o : Nat),
      (∀ r ∈ recs, findTag penv.canonTags r.1 ≠ none) →
      (subRecordsLayout penv (fun i => toInt16 (v.ushortAt i)) (fun i => v.ushortAt i)
        recs o).length = recs.length := by
    intro recs
    induction recs with
    | nil => intro o _; rfl
    | cons r rest ih =>
      intro o h
      obtain ⟨tag, sz, bSigned⟩ := r
      simp only [subRecordsLayout]
      cases hf : findTag penv.canonTags tag with
      | none => exact absurd hf (h (tag, sz, bSigned) (List.mem_cons_self _ _))
      | some pTag =>
        simp only [List.singleton_append, List.length_cons]
        rw [ih (o + sz) fun r hr => h r (List.mem_cons_of_mem _ hr)]
  refine ⟨?_, by rw [hlen _ 0 hfull]; rfl, rfl⟩
  rw [← subRecordsEmitted_complete penv _ _ _ 0 hfull]
  unfold decodeCanonAFInfo at hok
  simp only [hv] at hok
  rw [if_neg hc1, if_neg (not_not.mpr hc2), if_neg (by rw [hc3]; simp)] at hok
  cases hs : splitRecords penv (penv.valueCount v.typeId v.bytes.length)
      (fun i => toInt16 (v.ushortAt i)) (fun i => v.ushortAt i) (penv.groupName object.group)
      (afRecords (v.ushortAt 2) ((v.ushortAt 2 + 15) / 16 % 65536)) 0
      (decodeStdTiffEntry penv dec object).exifData_ with
  | error e =>
    rw [hs] at hok
    cases hok
  | ok d =>
    rw [hs] at hok
    simp only [Except.ok.injEq] at hok
    rw [← hok]
    exact splitRecords_eq penv _ _ _ _ _ 0 _ d hs

/-- Witness of C28 (amended): the sample array of 15 words with the full tag
table: the record `AFAreaMode` is made of the word at position 1. -/
theorem decodeCanonAFInfo_subRecords_witness :
    ∃ dec', decodeCanonAFInfo Sample.exifEnv Sample.decoder
        (Sample.valueEntry 0x0026 Sample.afSmallValue) = .ok dec' ∧
      (dec'.exifData_.lookup (ExifKey.ofName Sample.exifEnv "Canon" "AFAreaMode")).map
          (fun x => x.value) =
        some (some (Sample.exifEnv.numbersValue 8 [2])) ∧
      dec'.exifData_ =
        (subRecordsLayout Sample.exifEnv (fun i => toInt16 (Sample.afSmallValue.ushortAt i))
          (fun i => Sample.afSmallValue.ushortAt i) (afRecords 1 1) 0).foldl
          (fun d x => ExifData.assign (ExifKey.ofName Sample.exifEnv "Canon" x.1) x.2 d)
          (decodeStdTiffEntry Sample.exifEnv Sample.decoder
            (Sample.valueEntry 0x0026 Sample.afSmallValue)).exifData_ :=
  ⟨_, rfl, by decide,
    (decodeCanonAFInfo_subRecords Sample.exifEnv Sample.decoder _
      (Sample.valueEntry 0x0026 Sample.afSmallValue) Sample.afSmallValue rfl (by decide)
      (by decide) (by decide) (by decide) rfl).1⟩

end TiffDecoder

namespace TiffReader

/-- An entry without a value that `readTiffEntry` returns with a value holds
type and count as `setValue` leaves them for this value, and the value has the
bytes of the size of the entry. -/
theorem readTiffEntry_setValue {env : Env} {r r' : TiffReader}
    {object object' : TiffEntryBase} (hnone : object.pValue = none)
    (h : readTiffEntry env r object = .ok (object', r')) (v : Value)
    (hv : object'.pValue = some v) :
    object'.setValue env v = object' ∧ v.bytes.length = object'.size := by
  by_cases hslot : object.start + 12 > r.pLast_
  · unfold readTiffEntry readTiffEntryBody at h
    simp only [if_pos hslot, Except.ok.injEq, Prod.mk.injEq] at h
    rw [← h.1, hnone] at hv
    cases hv
  · by_cases hcnt : entryCount r object ≥ 0x10000000
    · unfold readTiffEntry readTiffEntryBody at h
      simp only [if_neg hslot, if_pos hcnt, Except.ok.injEq, Prod.mk.injEq] at h
      rw [← h.1, hnone] at hv
      cases hv
    · obtain ⟨t1, d1, -, -, -, -, ho, -⟩ := readTiffEntry_ok (by omega) (by omega) h
      subst ho
      simp only [Option.some.injEq] at hv
      subst hv
      have hl : (r.bytes d1.1 d1.2).length = d1.2 := by simp [bytes]
      simp only [TiffEntryBase.setValue, hl, and_self]

end TiffReader

namespace ExifData

end ExifData

namespace TiffDecoder

end TiffDecoder

namespace ExifData

theorem findPos_eq_none (p : Exifdatum → Bool) :
    ∀ d : ExifData, (∀ x ∈ d, p x = false) → findPos p d = none := by
  intro d
  induction d with
  | nil => intro _; rfl
  | cons x xs ih =>
    intro h
    have hx : ¬ (p x = true) := by rw [h x (List.mem_cons_self _ _)]; simp
    simp only [findPos, if_neg hx, ih fun y hy => h y (List.mem_cons_of_mem _ hy),
      Option.map_none']

end ExifData

namespace TiffEncoder

end TiffEncoder

namespace TiffReader

/-- A visit other than `setMnState` with a state keeps the makernote state. -/
theorem visit_mnState {env : Env} {r r' : TiffReader} {v v' : Visit}
    (hv : ∀ s, v ≠ .mnState (some s)) (h : visit env r v = .ok (v', r')) :
    r'.mnState_ = r.mnState_ := by
  cases v with
  | entry object =>
    simp only [visit] at h
    cases hre : readTiffEntry env r object with
    | error e => rw [hre] at h; cases h
    | ok res =>
      obtain ⟨o1, r1⟩ := res
      rw [hre] at h
      simp only [Except.ok.injEq, Prod.mk.injEq] at h
      rw [← h.2]
      exact (readTiffEntry_sameState hre).2.1
  | binaryElement object =>
    simp only [visit] at h
    cases hre : visitBinaryElement env r object with
    | error e => rw [hre] at h; cases h
    | ok res =>
      obtain ⟨o1, r1⟩ := res
      rw [hre] at h
      simp only [Except.ok.injEq, Prod.mk.injEq] at h
      rw [← h.2]
      exact (visitBinaryElement_sameState hre).2.1
  | directory object =>
    simp only [visit] at h
    cases hre : visitDirectory env r object with
    | error e => rw [hre] at h; cases h
    | ok res =>
      obtain ⟨o1, r1⟩ := res
      rw [hre] at h
      simp only [Except.ok.injEq, Prod.mk.injEq] at h
      rw [← h.2, visitDirectory_reader hre]
      unfold circularReference
      split <;> rfl
  | mnState state =>
    cases state with
    | some s => exact absurd rfl (hv s)
    | none =>
      simp only [visit, Except.ok.injEq, Prod.mk.injEq] at h
      rw [← h.2]
      rfl
  | origState =>
    simp only [visit, Except.ok.injEq, Prod.mk.injEq] at h
    rw [← h.2]
    rfl

/-- A pass without `setMnState` with a state keeps the makernote state. -/
theorem pass_mnState (env : Env) :
    ∀ (vs : List Visit) (r r' : TiffReader) (res : List Visit),
      (∀ v ∈ vs, ∀ s, v ≠ .mnState (some s)) →
      pass env r vs = .ok (res, r') → r'.mnState_ = r.mnState_ := by
  intro vs
  induction vs with
  | nil =>
    intro r r' res _ h
    simp only [pass, Except.ok.injEq, Prod.mk.injEq] at h
    rw [← h.2]
  | cons v vs ih =>
    intro r r' res hvs h
    obtain ⟨v', r1, res', hv, hp, -⟩ := pass_cons h
    rw [ih r1 r' res' (fun w hw => hvs w (List.mem_cons_of_mem _ hw)) hp,
      visit_mnState (hvs v (List.mem_cons_self _ _)) hv]

/-- C35: for a reader constructed with the state `s0`, at any point of a pass,
and a makernote state `m` whose byte order is `invalidByteOrder`: after
`setMnState(m)` the byte order of the reader is that of `s0` and the base
offset is that of `m`. `setMnState()` without a state leaves the makernote
state as it is and selects it; the makernote state is `s0` when no
`setMnState` with a state came before in the pass, and then byte order and
base offset after `setMnState()` are those of `s0`. -/
theorem setMnState_invalidByteOrder (env : Env) (pData : Nat) (data : List Nat)
    (s0 m : TiffRwState) (vs res : List Visit) (r : TiffReader)
    (hm : m.byteOrder = .invalidByteOrder)
    (hpass : pass env (TiffReader.new pData data s0) vs = .ok (res, r)) :
    (r.setMnState (some m)).byteOrder = s0.byteOrder ∧
      (r.setMnState (some m)).baseOffset = m.baseOffset ∧
      (r.setMnState none).mnState_ = r.mnState_ ∧
      (r.setMnState none).byteOrder = r.mnState_.byteOrder ∧
      (r.setMnState none).baseOffset = r.mnState_.baseOffset ∧
      ((∀ v ∈ vs, ∀ s, v ≠ .mnState (some s)) →
        r.mnState_ = s0 ∧ (r.setMnState none).byteOrder = s0.byteOrder ∧
          (r.setMnState none).baseOffset = s0.baseOffset) := by
  have ho : r.origState_ = s0 := pass_origState env vs _ r res hpass
  have hs : r.setMnState (some m) =
      { r with mnState_ := { byteOrder := r.origState_.byteOrder, baseOffset := m.baseOffset },
               pState_ := .mn } := by
    simp only [setMnState, if_pos hm]
  refine ⟨?_, ?_, rfl, rfl, rfl, ?_⟩
  · rw [hs]
    show r.origState_.byteOrder = s0.byteOrder
    rw [ho]
  · rw [hs]
    rfl
  · intro hvs
    have hmn : r.mnState_ = s0 := pass_mnState env vs _ r res hvs hpass
    refine ⟨hmn, ?_, ?_⟩
    · show r.mnState_.byteOrder = _
      rw [hmn]
    · show r.mnState_.baseOffset = _
      rw [hmn]

/-- Witness of C35: outer state II with base offset 0 and a makernote state
without byte order and with base offset 26, entered after the sample directory
and its two entries were read. -/
theorem setMnState_invalidByteOrder_witness :
    ∃ res r,
      pass Sample.env64 (Sample.reader Sample.dupData 0)
          [.directory (Sample.dirAt 1000), .entry (Sample.entryAt 0x0100 1002),
            .entry (Sample.entryAt 0x0100 1014)] = .ok (res, r) ∧
      (r.setMnState (some { byteOrder := .invalidByteOrder, baseOffset := 26 })).byteOrder =
        .littleEndian ∧
      (r.setMnState (some { byteOrder := .invalidByteOrder, baseOffset := 26 })).baseOffset =
        26 ∧
      (r.setMnState none).byteOrder = .littleEndian ∧ (r.setMnState none).baseOffset = 0 :=
  have hno : ∀ v ∈ [Visit.directory (Sample.dirAt 1000), .entry (Sample.entryAt 0x0100 1002),
      .entry (Sample.entryAt 0x0100 1014)], ∀ s, v ≠ Visit.mnState (some s) := by
    intro v hv s
    simp only [List.mem_cons, List.mem_singleton, List.not_mem_nil, or_false] at hv
    rcases hv with rfl | rfl | rfl <;> simp
  have h := setMnState_invalidByteOrder Sample.env64 1000 Sample.dupData
      { byteOrder := .littleEndian, baseOffset := 0 }
      { byteOrder := .invalidByteOrder, baseOffset := 26 }
      [.directory (Sample.dirAt 1000), .entry (Sample.entryAt 0x0100 1002),
        .entry (Sample.entryAt 0x0100 1014)] _ _ rfl rfl
  ⟨_, _, rfl, h.1, h.2.1, (h.2.2.2.2.2 hno).2.1, (h.2.2.2.2.2 hno).2.2⟩

theorem truncateOutOfBounds_error {env : Env} {r : TiffReader} {object : TiffEntryBase}
    {typeId : TypeId} {size offset : Nat} {e : Exception}
    (h : truncateOutOfBounds env r object typeId size offset = .error e) :
    e = .overflow_error := by
  unfold truncateOutOfBounds Safe.add at h
  by_cases h4 : size > 4
  · rw [if_pos h4] at h
    by_cases hov : r.baseOffset + offset > env.sizeMax
    · rw [if_pos hov] at h
      cases h
      rfl
    · rw [if_neg hov] at h
      simp only at h
      split at h
      · split at h <;> cases h
      · cases h
  · rw [if_neg h4] at h
    cases h

theorem locateData_error {env : Env} {r : TiffReader} {p size offset : Nat} {e : Exception}
    (h : locateData env r p size offset = .error e) :
    e = .overflow_error ∨ e = .Error .kerCorruptedMetadata := by
  unfold locateData Safe.add at h
  by_cases h4 : size > 4
  · rw [if_pos h4] at h
    by_cases hov : r.baseOffset + offset > env.sizeMax
    · rw [if_pos hov] at h
      cases h
      exact Or.inl rfl
    · rw [if_neg hov] at h
      simp only at h
      by_cases hl : r.baseOffset + offset > r.pLast_ - r.pData_
      · rw [if_pos hl] at h
        cases h
        exact Or.inr rfl
      · rw [if_neg hl] at h
        split at h <;> cases h
  · rw [if_neg h4] at h
    cases h

theorem readTiffEntryBody_no_overflow (env : Env) (r : TiffReader) (object : TiffEntryBase)
    (hts : entryTypeSize env r object ≤ 8) :
    readTiffEntryBody env r object ≠ .error (.Error .kerArithmeticOverflow) := by
  intro herr
  by_cases hslot : object.start + 12 > r.pLast_
  · unfold readTiffEntryBody at herr
    simp only [if_pos hslot] at herr
    cases herr
  · by_cases hcnt : entryCount r object ≥ 0x10000000
    · unfold readTiffEntryBody at herr
      simp only [if_neg hslot, if_pos hcnt] at herr
      cases herr
    · have hpos : 0 < entryTypeSize env r object := by
        unfold entryTypeSize; split <;> omega
      have hdiv : ¬ (entryCount r object > env.sizeMax / entryTypeSize env r object) := by
        have hmul : entryCount r object * entryTypeSize env r object ≤ env.sizeMax := by
          have h1 : entryCount r object * entryTypeSize env r object ≤ 0xFFFFFFF * 8 :=
            Nat.mul_le_mul (by omega) hts
          have h2 := env.sizeMax_ge
          omega
        have := (Nat.le_div_iff_mul_le hpos).mpr hmul
        omega
      unfold readTiffEntryBody at herr
      simp only [if_neg hslot, if_neg hcnt, if_neg hdiv] at herr
      cases ht : truncateOutOfBounds env r object (entryTypeId env r object)
          (entryTypeSize env r object * entryCount r object)
          (r.getULong (object.start + 8) r.byteOrder) with
      | error e =>
        rw [ht] at herr
        have := truncateOutOfBounds_error ht
        subst this
        cases herr
      | ok t1 =>
        obtain ⟨t, s⟩ := t1
        rw [ht] at herr
        simp only at herr
        cases hl : locateData env r (object.start + 8) s
            (r.getULong (object.start + 8) r.byteOrder) with
        | error e =>
          rw [hl] at herr
          rcases locateData_error hl with he | he <;> subst he <;> cases herr
        | ok d1 =>
          obtain ⟨pd, sz⟩ := d1
          rw [hl] at herr
          simp only at herr
          split at herr <;> cases herr

/-- C32: for an entry whose count field is `0x10000000` or more,
`readTiffEntry` returns normally and leaves the entry and the reader as they
were: the entry gets no value and no duplicate index is consumed. For a type
size of at most 8 (a type size of 0 counts as 1) `readTiffEntry` never raises
`Error(kerArithmeticOverflow)`, whatever the count, the size type having at
least 32 bits. -/
theorem readTiffEntry_count_guard (env : Env) (r : TiffReader) (object : TiffEntryBase) :
    (0x10000000 ≤ entryCount r object →
        readTiffEntry env r object = .ok (object, r) ∧
          ∀ object' r', readTiffEntry env r object = .ok (object', r') →
            object'.pValue = object.pValue ∧ object'.idx = object.idx ∧
              r'.idxSeq_ = r.idxSeq_) ∧
      (entryTypeSize env r object ≤ 8 →
        readTiffEntry env r object ≠ .error (.Error .kerArithmeticOverflow)) := by
  constructor
  · intro hcount
    have hcnt : entryCount r object ≥ 0x10000000 := hcount
    have hres : readTiffEntry env r object = .ok (object, r) := by
      unfold readTiffEntry readTiffEntryBody
      by_cases hslot : object.start + 12 > r.pLast_
      · simp only [if_pos hslot]
      · simp only [if_neg hslot, if_pos hcnt]
    refine ⟨hres, ?_⟩
    intro object' r' h
    rw [hres] at h
    simp only [Except.ok.injEq, Prod.mk.injEq] at h
    rw [← h.1, ← h.2]
    exact ⟨rfl, rfl, rfl⟩
  · intro hts herr
    have hb := readTiffEntryBody_no_overflow env r object hts
    unfold readTiffEntry at herr
    split at herr
    · cases herr
    · exact hb herr

end TiffReader

namespace TiffEncoder

/-- C34: when the collection holds no record with the key of the node (the tag
was deleted), `encodeTiffComponent` without an explicit record marks the
encoder dirty, which stops the traversal, and leaves the node and the
collection as they are; so does the visit of the node. -/
theorem encodeTiffComponent_deleted (penv : ExifEnv) (e : TiffEncoder) (object : TiffNode)
    (h : ∀ x ∈ e.exifData_, x.key.key ≠
      (ExifKey.ofTag penv object.entry.tag (penv.groupName object.entry.group)).key) :
    encodeTiffComponent penv e object none = (e.setDirty true, object) ∧
      (encodeTiffComponent penv e object none).1.dirty_ = true ∧
      (encodeTiffComponent penv e object none).1.goTraverse = false ∧
      (encodeTiffComponent penv e object none).1.exifData_ = e.exifData_ ∧
      (encodeTiffComponent penv e object none).2 = object ∧
      visit penv e (.component object) = (.component object, e.setDirty true) := by
  have hk : ExifData.findKey e.exifData_
      (ExifKey.ofTag penv object.entry.tag (penv.groupName object.entry.group)) = none := by
    apply ExifData.findPos_eq_none
    intro x hx
    simp only [decide_eq_false_iff_not]
    exact h x hx
  have hs : selectRecord penv e object.entry = none := by
    simp only [selectRecord, hk]
  have hr : encodeTiffComponent penv e object none = (e.setDirty true, object) := by
    simp only [encodeTiffComponent, hs]
  refine ⟨hr, ?_, ?_, ?_, ?_, ?_⟩
  · rw [hr]; rfl
  · rw [hr]; rfl
  · rw [hr]; rfl
  · rw [hr]
  · simp only [visit, hr]

/-- Witness of C34: the entry of tag `0x0100` of group 1 and a collection whose
only record is that of tag `0x010f`. -/
theorem encodeTiffComponent_deleted_witness :
    encodeTiffComponent Sample.exifEnv (Sample.encoder [Sample.record "Image" "Make" 0x010f 1 [67]])
        (TiffNode.ofEntry .entry (Sample.entry4 0x0100 1)) none =
      ((Sample.encoder [Sample.record "Image" "Make" 0x010f 1 [67]]).setDirty true,
        TiffNode.ofEntry .entry (Sample.entry4 0x0100 1)) :=
  (encodeTiffComponent_deleted Sample.exifEnv
    (Sample.encoder [Sample.record "Image" "Make" 0x010f 1 [67]])
    (TiffNode.ofEntry .entry (Sample.entry4 0x0100 1)) (by decide)).1

end TiffEncoder

namespace TiffReader

theorem visitDirectoryEntries_starts (env : Env) (r : TiffReader) (g : IfdId)
    (hc : ∀ tag, env.create tag g ≠ none) :
    ∀ (k p : Nat) (object : TiffDirectory), object.group = g →
      ∃ added, (visitDirectoryEntries env r k p object).1.components_ =
          object.components_ ++ added ∧
        (visitDirectoryEntries env r k p object).1.start = object.start ∧
        ∀ (j : Nat) c, added[j]? = some c → c.start = p + 12 * j := by
  intro k
  induction k with
  | zero =>
    intro p object _
    exact ⟨[], by simp [visitDirectoryEntries], rfl, fun j c h => by simp at h⟩
  | succ k ih =>
    intro p object hg
    unfold visitDirectoryEntries
    by_cases hp : p + 12 > r.pLast_
    · rw [if_pos hp]
      exact ⟨[], by simp, rfl, fun j c h => by simp at h⟩
    · rw [if_neg hp]
      simp only
      cases hcr : env.create (r.getUShort p r.byteOrder) object.group with
      | none => rw [hg] at hcr; exact absurd hcr (hc _)
      | some tc =>
        simp only
        obtain ⟨added, h1, h2, h3⟩ := ih (p + 12) (object.addChild (tc.setStart p)) hg
        refine ⟨tc.setStart p :: added, ?_, ?_, ?_⟩
        · rw [h1]
          simp [TiffDirectory.addChild]
        · rw [h2]
          rfl
        · intro j c hj
          cases j with
          | zero =>
            simp only [List.getElem?_cons_zero, Option.some.injEq] at hj
            rw [← hj]
            rfl
          | succ j =>
            simp only [List.getElem?_cons_succ] at hj
            rw [h3 j c hj]
            omega

theorem linkNext_start (env : Env) (r : TiffReader) (object : TiffDirectory) (p : Nat) :
    (linkNext env r object p).start = object.start := by
  unfold linkNext
  split
  · split
    · rfl
    · split
      · split <;> rfl
      · rfl
  · rfl

/-- The children of a directory that `visitDirectory` populated, when the
factory creates a node for every tag of the group: the `k`-th child has the
address of the `k`-th slot as its start. -/
theorem visitDirectory_starts {env : Env} {r r' : TiffReader} {object dir : TiffDirectory}
    (hc : ∀ tag, env.create tag object.group ≠ none) (hnew : object.components_ = [])
    (h : visitDirectory env r object = .ok (dir, r')) :
    dir.start = object.start ∧
      ∀ (k : Nat) c, dir.components_[k]? = some c → c.start = object.start + 2 + 12 * k := by
  have hobj : object.start = object.start ∧
      ∀ (k : Nat) c, object.components_[k]? = some c →
        c.start = object.start + 2 + 12 * k := by
    refine ⟨rfl, ?_⟩
    intro k c hk
    rw [hnew] at hk
    simp at hk
  unfold visitDirectory at h
  simp only at h
  split at h
  · cases h; exact hobj
  · split at h
    · cases h; exact hobj
    · split at h
      · cases h; exact hobj
      · obtain ⟨added, h1, h2, h3⟩ := visitDirectoryEntries_starts env
          (r.circularReference object.start object.group).2 object.group hc
          ((r.circularReference object.start object.group).2.getUShort object.start
            (r.circularReference object.start object.group).2.byteOrder)
          (object.start + 2) object rfl
        rw [hnew, List.nil_append] at h1
        split at h
        · rename_i o1 heq
          cases h
          rw [heq] at h1 h2
          exact ⟨h2, fun k c hk => h3 k c (by rw [← h1]; exact hk)⟩
        · rename_i o1 p1 heq
          cases h
          rw [heq] at h1 h2
          refine ⟨by rw [linkNext_start]; exact h2, fun k c hk => h3 k c ?_⟩
          rw [linkNext_components] at hk
          rw [← h1]
          exact hk

end TiffReader

namespace TiffEncoder

theorem updateDirEntry_snd (mem : Memory) (buf : Nat) (bo : ByteOrder) (c : TiffEntryBase) :
    (updateDirEntry mem buf bo (some c)).2 = 12 := by
  unfold updateDirEntry
  simp only
  split
  · split <;> rfl
  · rfl

theorem visitDirectoryLoop_append (bo : ByteOrder) :
    ∀ (pre : List TiffEntryBase) (c : TiffEntryBase) (post : List TiffEntryBase) (p : Nat)
      (mem : Memory),
      visitDirectoryLoop bo (pre ++ c :: post) p mem =
        visitDirectoryLoop bo post (p + 12 * pre.length + 12)
          (updateDirEntry (visitDirectoryLoop bo pre p mem) (p + 12 * pre.length) bo
            (some c)).1 := by
  intro pre
  induction pre with
  | nil =>
    intro c post p mem
    simp only [List.nil_append, visitDirectoryLoop, updateDirEntry_snd, List.length_nil,
      Nat.mul_zero, Nat.add_zero]
  | cons a pre ih =>
    intro c post p mem
    have h := ih c post (p + 12) (updateDirEntry mem p bo (some a)).1
    have h1 : p + 12 + 12 * pre.length = p + 12 * (pre.length + 1) := by omega
    rw [h1] at h
    show visitDirectoryLoop bo (a :: (pre ++ c :: post)) p mem = _
    simp only [visitDirectoryLoop, updateDirEntry_snd, List.length_cons]
    exact h

theorem us2Data_frame (mem : Memory) (buf s : Nat) (bo : ByteOrder) (a : Nat)
    (h : a < buf ∨ buf + 2 ≤ a) : mem.us2Data buf s bo a = mem a := by
  have h0 : a ≠ buf := by omega
  have h1 : a ≠ buf + 1 := by omega
  unfold Memory.us2Data
  split <;> simp [Memory.set, h0, h1]

theorem ul2Data_frame (mem : Memory) (buf l : Nat) (bo : ByteOrder) (a : Nat)
    (h : a < buf ∨ buf + 4 ≤ a) : mem.ul2Data buf l bo a = mem a := by
  have h0 : a ≠ buf := by omega
  have h1 : a ≠ buf + 1 := by omega
  have h2 : a ≠ buf + 2 := by omega
  have h3 : a ≠ buf + 3 := by omega
  unfold Memory.ul2Data
  split <;> simp [Memory.set, h0, h1, h2, h3]

theorem copy_n_frame (mem : Memory) (src : Nat) :
    ∀ (n dst a : Nat), (a < dst ∨ dst + n ≤ a) → mem.copy_n src n dst a = mem a := by
  intro n
  induction n with
  | zero => intro dst a _; rfl
  | succ n ih =>
    intro dst a h
    have h0 : a ≠ dst + n := by omega
    simp only [Memory.copy_n, Memory.set, if_neg h0]
    exact ih dst a (by omega)

theorem updateDirEntry_frame (mem : Memory) (buf : Nat) (bo : ByteOrder) (c : TiffEntryBase)
    (a : Nat) (hslot : a < buf + 2 ∨ buf + 12 ≤ a)
    (hdata : a < c.pData ∨ c.pData + c.size ≤ a ∨ 4 < c.size ∨ c.pData = buf + 8) :
    (updateDirEntry mem buf bo (some c)).1 a = mem a := by
  have hu : ((mem.us2Data (buf + 2) (c.tiffType % 65536) bo).ul2Data (buf + 4)
      (c.count % 4294967296) bo) a = mem a := by
    rw [ul2Data_frame _ _ _ _ _ (by omega), us2Data_frame _ _ _ _ _ (by omega)]
  unfold updateDirEntry
  simp only
  by_cases hm : c.size ≤ 4 ∧ buf + 8 ≠ c.pData
  · rw [if_pos hm]
    have h8 : ¬ (buf + 8 ≤ a ∧ a < buf + 8 + 4) := by omega
    by_cases hs : c.size > 0
    · rw [if_pos hs]
      have hd : ¬ (c.pData ≤ a ∧ a < c.pData + c.size) := by
        have := hm.2
        omega
      simp only [Memory.memset, if_neg hd]
      rw [copy_n_frame _ _ _ _ _ (by omega)]
      simp only [Memory.memset, if_neg h8]
      exact hu
    · rw [if_neg hs]
      simp only [Memory.memset, if_neg h8]
      exact hu
  · rw [if_neg hm]
    exact hu

theorem updateDirEntry_in_place (mem : Memory) (buf : Nat) (bo : ByteOrder)
    (c : TiffEntryBase) (h : 4 < c.size ∨ c.pData = buf + 8) :
    (updateDirEntry mem buf bo (some c)).1 =
      (mem.us2Data (buf + 2) (c.tiffType % 65536) bo).ul2Data (buf + 4)
        (c.count % 4294967296) bo := by
  have hm : ¬ (c.size ≤ 4 ∧ buf + 8 ≠ c.pData) := by
    intro hm
    rcases h with h | h
    · omega
    · exact hm.2 h.symm
  simp only [updateDirEntry, if_neg hm]

/-- The claim C36 as stated fails: with a factory that creates no node for the
tag `0x0100` of the first of the two slots of the sample directory,
`visitDirectory` gives the directory one child, the entry of the second slot
at address `1014`. `visitDirectoryNext` rewrites for this child the first slot,
at address `1002`: the type field of the first slot changes from `3` to `4`,
its offset field from `42` to the value `7` of the child, the value of the child
in the second slot is cleared, and the tag bytes of the rewritten slot are not
those of the child. -/
theorem visitDirectoryNext_shifted_counterexample :
    ∃ dir r child r',
      TiffReader.visitDirectory Sample.env64NoWidth (Sample.reader Sample.twoSlotData 0)
          (Sample.dirAt 1000) = .ok (dir, r) ∧
        dir.components_ = [Sample.entryAt 0x0101 1014] ∧
        TiffReader.readTiffEntry Sample.env64NoWidth r (Sample.entryAt 0x0101 1014) =
          .ok (child, r') ∧
        child.start = 1014 ∧ child.tag = 0x0101 ∧ dir.start + 2 + 12 * 0 = 1002 ∧
        Sample.memoryOf r 1002 = 0 ∧ Sample.memoryOf r 1003 = 1 ∧
        Sample.memoryOf r 1004 = 3 ∧ Sample.memoryOf r 1010 = 42 ∧
        Sample.memoryOf r 1022 = 7 ∧
        visitDirectoryNext (Sample.encoder []) (Sample.memoryOf r)
          { dir with components_ := [child] } 1002 = 0 ∧
        visitDirectoryNext (Sample.encoder []) (Sample.memoryOf r)
          { dir with components_ := [child] } 1004 = 4 ∧
        visitDirectoryNext (Sample.encoder []) (Sample.memoryOf r)
          { dir with components_ := [child] } 1010 = 7 ∧
        visitDirectoryNext (Sample.encoder []) (Sample.memoryOf r)
          { dir with components_ := [child] } 1022 = 0 :=
  ⟨_, _, _, _, rfl, rfl, rfl, rfl, rfl, rfl, by decide, by decide, by decide, by decide,
    by decide, by decide, by decide, by decide, by decide⟩

/-- C36 (amended): for a directory without children that `visitDirectory`
populates, when the factory creates a node for every tag of the group, the
`k`-th child has the address `start + 2 + 12 * k` of the `k`-th slot as its
start; and for every directory with this start whose children have these
starts, `visitDirectoryNext` rewrites for each child the slot at the start of
the child, after the slots of the children before it. `updateDirEntry` for a
slot at `buf` leaves every byte outside the type, count and offset fields of
the slot as it is, except the bytes of a value of 1 to 4 bytes that is not in
the offset field, which it moves there and clears; for a value of more than 4
bytes or one that is in the offset field it writes the type and the count
fields only. The two tag bytes of the slot are among the bytes left. -/
theorem visitDirectoryNext_slots (env : Env) (r r' : TiffReader) (object dir : TiffDirectory)
    (hc : ∀ tag, env.create tag object.group ≠ none) (hnew : object.components_ = [])
    (h : TiffReader.visitDirectory env r object = .ok (dir, r')) :
    (∀ (k : Nat) c, dir.components_[k]? = some c → c.start = dir.start + 2 + 12 * k) ∧
      (∀ (e : TiffEncoder) (mem : Memory) (d : TiffDirectory) pre c post,
        d.start = dir.start →
        d.components_.map (fun x => x.start) = dir.components_.map (fun x => x.start) →
        d.components_ = pre ++ c :: post →
        c.start = d.start + 2 + 12 * pre.length ∧
          visitDirectoryNext e mem d =
            visitDirectoryLoop e.byteOrder post (c.start + 12)
              (updateDirEntry (visitDirectoryLoop e.byteOrder pre (d.start + 2) mem) c.start
                e.byteOrder (some c)).1) ∧
      (∀ (mem : Memory) (buf : Nat) (bo : ByteOrder) (c : TiffEntryBase) (a : Nat),
        (a < buf + 2 ∨ buf + 12 ≤ a) →
        (a < c.pData ∨ c.pData + c.size ≤ a ∨ 4 < c.size ∨ c.pData = buf + 8) →
        (updateDirEntry mem buf bo (some c)).1 a = mem a) ∧
      (∀ (mem : Memory) (buf : Nat) (bo : ByteOrder) (c : TiffEntryBase),
        (4 < c.size ∨ c.pData = buf + 8) →
        (updateDirEntry mem buf bo (some c)).1 =
            (mem.us2Data (buf + 2) (c.tiffType % 65536) bo).ul2Data (buf + 4)
              (c.count % 4294967296) bo ∧
          ∀ a, (a < buf + 2 ∨ buf + 8 ≤ a) →
            (updateDirEntry mem buf bo (some c)).1 a = mem a) := by
  obtain ⟨hstart, hk⟩ := TiffReader.visitDirectory_starts hc hnew h
  refine ⟨fun k c hkc => by rw [hstart]; exact hk k c hkc, ?_, updateDirEntry_frame, ?_⟩
  · intro e mem d pre c post hd hmap hsplit
    have hcs : c.start = d.start + 2 + 12 * pre.length := by
      have h1 : (d.components_.map (fun x => x.start))[pre.length]? = some c.start := by
        rw [hsplit, List.map_append, List.map_cons,
          List.getElem?_append_right (by simp)]
        simp
      rw [hmap, List.getElem?_map] at h1
      cases hc' : dir.components_[pre.length]? with
      | none => rw [hc'] at h1; cases h1
      | some c' =>
        rw [hc'] at h1
        simp only [Option.map_some', Option.some.injEq] at h1
        rw [← h1, hk _ _ hc', hd, hstart]
    refine ⟨hcs, ?_⟩
    unfold visitDirectoryNext
    rw [hsplit, visitDirectoryLoop_append, hcs]
  · intro mem buf bo c hin
    refine ⟨updateDirEntry_in_place mem buf bo c hin, ?_⟩
    intro a ha
    rw [updateDirEntry_in_place mem buf bo c hin, ul2Data_frame _ _ _ _ _ (by omega),
      us2Data_frame _ _ _ _ _ (by omega)]

/-- Witness of C36 (amended): the sample directory with two slots, read with a
factory that creates a node for every tag; its children start at `1002` and
`1014`. -/
theorem visitDirectoryNext_slots_witness :
    ∃ dir r',
      TiffReader.visitDirectory Sample.env64 (Sample.reader Sample.dupData 0)
          (Sample.dirAt 1000) = .ok (dir, r') ∧
        dir.components_.map (fun x => x.start) = [1002, 1014] ∧
        ∀ (k : Nat) c, dir.components_[k]? = some c → c.start = dir.start + 2 + 12 * k :=
  ⟨_, _, rfl, rfl,
    (visitDirectoryNext_slots Sample.env64 (Sample.reader Sample.dupData 0) _
      (Sample.dirAt 1000) _
      (fun tag => by
        show (if tag = 0x20000 then some (Sample.fresh tag (1 + 1))
          else some (Sample.fresh tag 1)) ≠ none
        split <;> simp)
      rfl rfl).1⟩

end TiffEncoder

namespace TiffEncoder

theorem Marks.chain {e e' e'' : TiffEncoder} (h : Marks e e') (h' : Marks e' e'') :
    Marks e e'' := by
  rcases h' with h' | h'
  · rw [h']; exact h
  · rw [h']; exact Marks.trans_dirty h

theorem Marks.isNewImage {e e' : TiffEncoder} (h : Marks e e') :
    e'.isNewImage_ = e.isNewImage_ := by
  rcases h with h | h <;> simp [h, setDirty]

theorem addRecord_marks (penv : ExifEnv) (root : Nat) (e : TiffEncoder) (tree : TiffComponent)
    (i : Exifdatum) : Marks e (addRecord penv root e tree i).1 := by
  unfold addRecord
  simp only
  split
  · exact Marks.refl e
  · split
    · exact encodeWith_marks penv e _ i
    · exact Marks.refl e

theorem addStep_marks (penv : ExifEnv) (root : Nat) (s : AddState) (pos : Nat)
    (i : Exifdatum) : Marks s.e (addStep penv root s pos i).e := by
  unfold addStep
  split
  · split
    · exact Marks.refl _
    · exact Marks.refl _
  · split
    · exact Marks.refl _
    · exact addRecord_marks penv root s.e s.tree i

/-- The loop of `add` as a fold over the records from position `pos` on. -/
theorem addLoop_eq_foldl (penv : ExifEnv) (root : Nat) :
    ∀ (fuel pos : Nat) (s : AddState), s.e.exifData_.length ≤ pos + fuel →
      addLoop penv root fuel pos s =
        ((s.e.exifData_.drop pos).enumFrom pos).foldl
          (fun s p => addStep penv root s p.1 p.2) s := by
  intro fuel
  induction fuel with
  | zero =>
    intro pos s h
    rw [List.drop_of_length_le (by omega)]
    rfl
  | succ fuel ih =>
    intro pos s h
    unfold addLoop
    cases hi : s.e.exifData_[pos]? with
    | none =>
      rw [List.drop_of_length_le (List.getElem?_eq_none_iff.mp hi)]
      rfl
    | some i =>
      simp only
      have hm := (addStep_marks penv root s pos i).exifData
      rw [ih (pos + 1) _ (by rw [hm]; omega), hm]
      have hd : s.e.exifData_.drop pos = i :: s.e.exifData_.drop (pos + 1) := by
        rw [List.drop_eq_getElem?_toList_append, hi]
        rfl
      rw [hd]
      rfl

theorem addFold_marks (penv : ExifEnv) (root : Nat) :
    ∀ (l : List (Nat × Exifdatum)) (s : AddState),
      Marks s.e (l.foldl (fun s p => addStep penv root s p.1 p.2) s).e := by
  intro l
  induction l with
  | nil => intro s; exact Marks.refl _
  | cons p l ih =>
    intro s
    exact Marks.chain (addStep_marks penv root s p.1 p.2) (ih _)

theorem added_congr (penv : ExifEnv) {e e' : TiffEncoder} (h : e'.isNewImage_ = e.isNewImage_) :
    added penv e' = added penv e := by
  funext i
  simp only [added, isImageTag, h]

/-- The loop of `add` applies `addRecord` to the records it does not skip, in
order, and to no other record. -/
theorem addFold_filter (penv : ExifEnv) (root : Nat) :
    ∀ (l : List (Nat × Exifdatum)) (s : AddState),
      ((l.foldl (fun s p => addStep penv root s p.1 p.2) s).e,
        (l.foldl (fun s p => addStep penv root s p.1 p.2) s).tree) =
        ((l.map fun p => p.2).filter (added penv s.e)).foldl
          (fun q i => addRecord penv root q.1 q.2 i) (s.e, s.tree) := by
  intro l
  induction l with
  | nil => intro s; rfl
  | cons p l ih =>
    intro s
    simp only [List.foldl_cons, List.map_cons]
    rw [ih, added_congr penv (addStep_marks penv root s p.1 p.2).isNewImage]
    by_cases hg : penv.groupId p.2.key.groupName = penv.mnId
    · have ha : added penv s.e p.2 = false := by simp [added, hg]
      rw [List.filter_cons_of_neg (by rw [ha]; simp)]
      unfold addStep
      rw [if_pos hg]
      split <;> rfl
    · by_cases hi : isImageTag penv s.e p.2.key.tag (penv.groupId p.2.key.groupName) = true
      · have ha : added penv s.e p.2 = false := by simp [added, hi]
        rw [List.filter_cons_of_neg (by rw [ha]; simp)]
        unfold addStep
        rw [if_neg hg, if_pos hi]
      · have ha : added penv s.e p.2 = true := by
          simp only [added, Bool.and_eq_true, decide_eq_true_eq, Bool.not_eq_true']
          exact ⟨hg, by simpa using hi⟩
        rw [List.filter_cons_of_pos ha]
        unfold addStep
        rw [if_neg hg, if_neg hi]
        rfl

theorem addStep_posBo (penv : ExifEnv) (root : Nat) (s : AddState) (pos : Nat)
    (i : Exifdatum) :
    (addStep penv root s pos i).posBo =
      if isByteOrderRecord penv i = true then some pos else s.posBo := by
  unfold addStep isByteOrderRecord
  by_cases hg : penv.groupId i.key.groupName = penv.mnId
  · rw [if_pos hg]
    by_cases ht : i.key.tag = 0x0002
    · rw [if_pos ht]
      simp [hg, ht]
    · rw [if_neg ht]
      simp [hg, ht]
  · rw [if_neg hg]
    simp only [hg, decide_False, Bool.false_and, Bool.false_eq_true, if_false]
    split <;> rfl

theorem addFold_posBo (penv : ExifEnv) (root : Nat) :
    ∀ (l : List (Nat × Exifdatum)) (s : AddState),
      (∀ p ∈ l, isByteOrderRecord penv p.2 = false) →
      (l.foldl (fun s p => addStep penv root s p.1 p.2) s).posBo = s.posBo := by
  intro l
  induction l with
  | nil => intro s _; rfl
  | cons p l ih =>
    intro s h
    simp only [List.foldl_cons]
    rw [ih _ fun q hq => h q (List.mem_cons_of_mem _ hq), addStep_posBo,
      h p (List.mem_cons_self _ _)]
    simp

theorem mem_enumFrom_snd {α : Type} {x : Nat × α} :
    ∀ {l : List α} {n : Nat}, x ∈ l.enumFrom n → x.2 ∈ l := by
  intro l
  induction l with
  | nil => intro n h; simp at h
  | cons a l ih =>
    intro n h
    simp only [List.enumFrom_cons, List.mem_cons] at h
    rcases h with h | h
    · rw [h]; exact List.mem_cons_self _ _
    · exact List.mem_cons_of_mem _ (ih h)

/-- The iterator `posBo` after the loop of `add` over a collection whose last
makernote byte-order record is `ed`, at position `pre.length`. -/
theorem addFold_posBo_last (penv : ExifEnv) (root : Nat) (pre : List Exifdatum)
    (ed : Exifdatum) (post : List Exifdatum) (s : AddState)
    (hed : isByteOrderRecord penv ed = true)
    (hpost : ∀ x ∈ post, isByteOrderRecord penv x = false) :
    (((pre ++ ed :: post).enumFrom 0).foldl (fun s p => addStep penv root s p.1 p.2) s).posBo =
      some pre.length := by
  rw [List.enumFrom_append, List.foldl_append, List.enumFrom_cons, List.foldl_cons,
    addFold_posBo penv root _ _ (fun p hp => hpost _ (mem_enumFrom_snd hp)), addStep_posBo,
    if_pos hed, Nat.zero_add]

theorem addLoop_all (penv : ExifEnv) (root : Nat) (s : AddState) :
    addLoop penv root s.e.exifData_.length 0 s =
      (s.e.exifData_.enumFrom 0).foldl (fun s p => addStep penv root s p.1 p.2) s := by
  rw [addLoop_eq_foldl penv root _ 0 s (by omega), List.drop_zero]

/-- C31: `add` sets the intrusive write method and leaves the collection as it
is. Its loop applies `addPath` and `encodeTiffComponent` to the records whose
group is not the makernote-provenance group and whose tag is not an image tag
of an existing image, in order, and to no other record; for a new image no tag
is an image tag. When the collection has no makernote byte-order record (tag
`0x0002` of the provenance group), the last block does nothing. When `ed` is the
last such record and the final lookup of `(0x927c, Exif)` in the tree finds a
makernote entry that owns a makernote, the byte order of that makernote is set
to little endian for the text `II` and to big endian for the text `MM`, and is
left as it is for any other text. -/
theorem add_records (penv : ExifEnv) (e : TiffEncoder) (pRootDir : TiffComponent)
    (pSourceDir : Option TiffComponent) (root : Nat) :
    (add penv e pRootDir pSourceDir root).e.writeMethod_ = .wmIntrusive ∧
      (add penv e pRootDir pSourceDir root).e.exifData_ = e.exifData_ ∧
      ((add penv e pRootDir pSourceDir root).e, (add penv e pRootDir pSourceDir root).tree) =
        (e.exifData_.filter (added penv e)).foldl (fun q i => addRecord penv root q.1 q.2 i)
          ({ e with writeMethod_ := .wmIntrusive, pSourceTree_ := pSourceDir, del_ := false },
            pRootDir) ∧
      (∀ i, added penv e i = true ↔
        penv.groupId i.key.groupName ≠ penv.mnId ∧
          (e.isNewImage_ = true ∨
            penv.isImageTag i.key.tag (penv.groupId i.key.groupName) = false)) ∧
      ((∀ i ∈ e.exifData_, isByteOrderRecord penv i = false) →
        (add penv e pRootDir pSourceDir root).mnEntry = none) ∧
      (∀ pre ed post, e.exifData_ = pre ++ ed :: post → isByteOrderRecord penv ed = true →
        (∀ x ∈ post, isByteOrderRecord penv x = false) →
        ∀ te ch,
          TiffFinder.find (add penv e pRootDir pSourceDir root).tree 0x927c penv.exifId =
            some (.entry te ch) →
          te.kind = .mnEntry → te.mn_ = true →
          (ed.toString penv = "II" →
            (add penv e pRootDir pSourceDir root).mnEntry =
              some (te.setMnByteOrder .littleEndian)) ∧
          (ed.toString penv = "MM" →
            (add penv e pRootDir pSourceDir root).mnEntry =
              some (te.setMnByteOrder .bigEndian)) ∧
          (ed.toString penv ≠ "II" → ed.toString penv ≠ "MM" →
            (add penv e pRootDir pSourceDir root).mnEntry = some te)) := by
  have hloop := addLoop_all penv root
    { e := { e with writeMethod_ := .wmIntrusive, pSourceTree_ := pSourceDir, del_ := false },
      tree := pRootDir, posBo := none }
  have hm := addFold_marks penv root (e.exifData_.enumFrom 0)
    { e := { e with writeMethod_ := .wmIntrusive, pSourceTree_ := pSourceDir, del_ := false },
      tree := pRootDir, posBo := none }
  have hfil := addFold_filter penv root (e.exifData_.enumFrom 0)
    { e := { e with writeMethod_ := .wmIntrusive, pSourceTree_ := pSourceDir, del_ := false },
      tree := pRootDir, posBo := none }
  have hmap : (e.exifData_.enumFrom 0).map (fun p => p.2) = e.exifData_ :=
    List.enumFrom_map_snd 0 e.exifData_
  have hadd : added penv
      { e with writeMethod_ := .wmIntrusive, pSourceTree_ := pSourceDir, del_ := false } =
      added penv e := added_congr penv rfl
  have hres :
      (add penv e pRootDir pSourceDir root).e =
        (addLoop penv root e.exifData_.length 0
          { e := { e with writeMethod_ := .wmIntrusive, pSourceTree_ := pSourceDir,
                          del_ := false },
            tree := pRootDir, posBo := none }).e ∧
      (add penv e pRootDir pSourceDir root).tree =
        (addLoop penv root e.exifData_.length 0
          { e := { e with writeMethod_ := .wmIntrusive, pSourceTree_ := pSourceDir,
                          del_ := false },
            tree := pRootDir, posBo := none }).tree := by
    unfold add
    simp only
    split
    · exact ⟨rfl, rfl⟩
    · split
      · split
        · split <;> exact ⟨rfl, rfl⟩
        · exact ⟨rfl, rfl⟩
      · exact ⟨rfl, rfl⟩
  obtain ⟨hre, hrt⟩ := hres
  rw [hloop] at hre hrt
  refine ⟨?_, ?_, ?_, ?_, ?_, ?_⟩
  · rw [hre, (marks_writeMethod hm).1]
  · rw [hre, hm.exifData]
  · rw [hre, hrt, hfil, hmap, hadd]
  · intro i
    simp only [added, isImageTag, Bool.and_eq_true, decide_eq_true_eq, Bool.not_eq_true',
      Bool.and_eq_false_iff, Bool.not_eq_false', ne_eq]
  · intro hno
    have hp := addFold_posBo penv root (e.exifData_.enumFrom 0)
      { e := { e with writeMethod_ := .wmIntrusive, pSourceTree_ := pSourceDir,
                      del_ := false },
        tree := pRootDir, posBo := none }
      (fun p hp => hno _ (mem_enumFrom_snd hp))
    unfold add
    simp only
    rw [hloop, hp]
  · intro pre ed post hsplit hed hpost te ch hfind hkind hmn
    have hp := addFold_posBo_last penv root pre ed post
      { e := { e with writeMethod_ := .wmIntrusive, pSourceTree_ := pSourceDir,
                      del_ := false },
        tree := pRootDir, posBo := none } hed hpost
    rw [← hsplit] at hp
    rw [hrt] at hfind
    have hget : ((e.exifData_.enumFrom 0).foldl (fun s p => addStep penv root s p.1 p.2)
        { e := { e with writeMethod_ := .wmIntrusive, pSourceTree_ := pSourceDir,
                        del_ := false },
          tree := pRootDir, posBo := none }).e.exifData_[pre.length]? = some ed := by
      rw [hm.exifData]
      show e.exifData_[pre.length]? = some ed
      rw [hsplit, List.getElem?_append_right (le_refl _)]
      simp
    have hval : (add penv e pRootDir pSourceDir root).mnEntry =
        if stringToByteOrder (ed.toString penv) ≠ .invalidByteOrder then
          some (te.setMnByteOrder (stringToByteOrder (ed.toString penv)))
        else some te := by
      unfold add
      simp only
      rw [hloop, hp]
      simp only [hfind, hget]
      rw [if_pos ⟨hkind, hmn⟩]
      split <;> rfl
    refine ⟨?_, ?_, ?_⟩
    · intro h
      rw [hval, h]
      rfl
    · intro h
      rw [hval, h]
      rfl
    · intro h1 h2
      rw [hval, if_neg]
      rw [stringToByteOrder_valid]
      simp [h1, h2]

/-- Witness of C31: a collection with a record of the Image group and the
makernote byte-order record `MM`, added to the sample tree with a little endian
makernote: the makernote is big endian afterwards. -/
theorem add_records_witness :
    (add Sample.exifEnv
        (Sample.encoder [Sample.record "Image" "ImageWidth" 0x0100 1 [1, 2],
          Sample.byteOrderRecord])
        Sample.mnTree none 0).mnEntry =
      some ({ TiffNode.ofEntry .mnEntry (Sample.fresh 0x927c 5) with
              mn_ := true, mnByteOrder := .littleEndian }.setMnByteOrder .bigEndian) :=
  ((add_records Sample.exifEnv
      (Sample.encoder [Sample.record "Image" "ImageWidth" 0x0100 1 [1, 2],
        Sample.byteOrderRecord])
      Sample.mnTree none 0).2.2.2.2.2
    [Sample.record "Image" "ImageWidth" 0x0100 1 [1, 2]] Sample.byteOrderRecord [] rfl
    (by decide) (fun x hx => by cases hx) _ _ rfl rfl rfl).2.1 (by decide)

end TiffEncoder

namespace TiffEncoder

theorem flags_of_eq {e e' : TiffEncoder} (hd : e'.dirty_ = e.dirty_)
    (hg : e'.goTraverse = e.goTraverse) : Flags e e' :=
  ⟨fun h => by rw [hd, hg]; exact h, fun h => by rw [hd]; exact h⟩

theorem flags_refl (e : TiffEncoder) : Flags e e := flags_of_eq rfl rfl

theorem flags_trans {e e' e'' : TiffEncoder} (h : Flags e e') (h' : Flags e' e'') :
    Flags e e'' :=
  ⟨fun hi => h'.1 (h.1 hi), fun hd => h'.2 (h.2 hd)⟩

theorem marks_flags {e e' : TiffEncoder} (h : Marks e e') : Flags e e' := by
  rcases h with h | h
  · rw [h]; exact flags_refl e
  · rw [h]; exact ⟨fun _ => rfl, fun _ => rfl⟩

theorem encodeTiffComponent_flags (penv : ExifEnv) (e : TiffEncoder) (object : TiffNode)
    (datum : Option Exifdatum) : Flags e (encodeTiffComponent penv e object datum).1 := by
  unfold encodeTiffComponent
  cases datum with
  | some ed => exact marks_flags (encodeWith_marks penv e _ ed)
  | none =>
    simp only
    cases hs : selectRecord penv e object.entry with
    | none => exact marks_flags (Marks.dirty e)
    | some pos =>
      simp only
      cases hed : e.exifData_[pos]? with
      | none => exact flags_refl e
      | some ed =>
        simp only
        have hm := marks_flags (encodeWith_marks penv e object ed)
        split
        · exact flags_trans hm (flags_of_eq rfl rfl)
        · exact hm

theorem eraseKey_flags (e : TiffEncoder) (key : ExifKey) : Flags e (eraseKey e key) := by
  unfold eraseKey
  split
  · exact flags_of_eq rfl rfl
  · exact flags_refl e

theorem flags_byteOrder (e : TiffEncoder) (bo : ByteOrder) :
    Flags e { e with byteOrder_ := bo } := flags_of_eq rfl rfl

theorem flags_set (e : TiffEncoder) : Flags e (e.setDirty true) :=
  marks_flags (Marks.dirty e)

theorem makernoteByteOrder_flags (penv : ExifEnv) (e : TiffEncoder)
    (object : TiffIfdMakernote) : Flags e (makernoteByteOrder penv e object).1 := by
  unfold makernoteByteOrder
  cases hf : e.exifData_.findKey (ExifKey.ofName penv "MakerNote" "ByteOrder") with
  | none => exact flags_refl e
  | some pos =>
    obtain ⟨ed, hed, -⟩ := ExifData.findKey_some hf
    simp only [hed]
    by_cases hbo : stringToByteOrder (ed.toString penv) ≠ .invalidByteOrder ∧
        stringToByteOrder (ed.toString penv) ≠ object.byteOrder
    · rw [if_pos hbo]
      split
      · exact flags_trans (flags_set e) (flags_of_eq rfl rfl)
      · exact flags_set e
    · rw [if_neg hbo]
      split
      · exact flags_of_eq rfl rfl
      · exact flags_refl e

theorem visitIfdMakernote_flags (penv : ExifEnv) (e : TiffEncoder)
    (object : TiffIfdMakernote) : Flags e (visitIfdMakernote penv e object).1 := by
  unfold visitIfdMakernote
  simp only []
  refine flags_trans ?_ (flags_byteOrder _ _)
  refine flags_trans (makernoteByteOrder_flags penv e object) ?_
  split
  · exact eraseKey_flags _ _
  · exact flags_refl _

theorem visitBinaryElement_flags (penv : ExifEnv) (e : TiffEncoder) (object : TiffNode) :
    Flags e (visitBinaryElement penv e object).1 := by
  unfold visitBinaryElement
  simp only []
  refine flags_trans ?_ (flags_byteOrder _ _)
  split
  · exact flags_trans (flags_byteOrder e _) (encodeTiffComponent_flags penv _ object none)
  · exact encodeTiffComponent_flags penv e object none

theorem visit_flags (penv : ExifEnv) (e : TiffEncoder) (v : EncVisit) :
    Flags e (visit penv e v).2 := by
  cases v with
  | component object => exact encodeTiffComponent_flags penv e object none
  | mnEntry object =>
    show Flags e (visitMnEntry penv e object).1
    unfold visitMnEntry
    split
    · exact encodeTiffComponent_flags penv e object none
    · split
      · exact eraseKey_flags e _
      · exact flags_refl e
  | ifdMakernote object => exact visitIfdMakernote_flags penv e object
  | ifdMakernoteEnd => exact flags_of_eq rfl rfl
  | binaryArray object =>
    show Flags e (visitBinaryArray penv e object).1
    unfold visitBinaryArray
    split
    · exact encodeTiffComponent_flags penv e object none
    · exact flags_refl e
  | binaryArrayEnd object => exact marks_flags (visitBinaryArrayEnd_marks penv e object)
  | binaryElement object => exact visitBinaryElement_flags penv e object

theorem pass_flags (penv : ExifEnv) :
    ∀ (vs : List EncVisit) (e : TiffEncoder), Flags e (pass penv e vs).2 := by
  intro vs
  induction vs with
  | nil => intro e; exact flags_refl e
  | cons v vs ih =>
    intro e
    exact flags_trans (visit_flags penv e v) (ih (visit penv e v).2)

theorem add_flags (penv : ExifEnv) (e : TiffEncoder) (pRootDir : TiffComponent)
    (pSourceDir : Option TiffComponent) (root : Nat) :
    Flags e (add penv e pRootDir pSourceDir root).e := by
  have hm := addFold_marks penv root (e.exifData_.enumFrom 0)
    { e := { e with writeMethod_ := .wmIntrusive, pSourceTree_ := pSourceDir, del_ := false },
      tree := pRootDir, posBo := none }
  have hloop := addLoop_all penv root
    { e := { e with writeMethod_ := .wmIntrusive, pSourceTree_ := pSourceDir, del_ := false },
      tree := pRootDir, posBo := none }
  have hf : Flags e (addLoop penv root e.exifData_.length 0
      { e := { e with writeMethod_ := .wmIntrusive, pSourceTree_ := pSourceDir,
                      del_ := false },
        tree := pRootDir, posBo := none }).e := by
    rw [hloop]
    have h0 : Flags e
        { e with writeMethod_ := .wmIntrusive, pSourceTree_ := pSourceDir, del_ := false } :=
      flags_of_eq rfl rfl
    exact flags_trans h0 (marks_flags hm)
  unfold add
  simp only
  split
  · exact hf
  · split
    · split
      · split <;> exact hf
      · exact hf
    · exact hf

/-- C33: a newly constructed encoder has the traversal flag set and the dirty
flag clear, and `setDirty(flag)` makes the traversal flag the negation of the
dirty flag. For the encoder `e'` that a visit, a pass of visits,
`encodeTiffComponent` with or without a record, the `encode` of a node or `add`
leaves of an encoder `e`: if the traversal flag of `e` is the negation of its
dirty flag, so is that of `e'`; if the dirty flag of `e` is set, so is that of
`e'`; and if `dirty()` holds for `e` and the collection of `e'` is that of `e`,
then `dirty()` holds for `e'`. -/
theorem dirty_traverse_invariant (penv : ExifEnv) (e e' : TiffEncoder)
    (hop : (∃ v, e' = (visit penv e v).2) ∨ (∃ vs, e' = (pass penv e vs).2) ∨
      (∃ object datum, e' = (encodeTiffComponent penv e object datum).1) ∨
      (∃ object ed, e' = (encode penv e object ed).1) ∨
      (∃ pRootDir pSourceDir root, e' = (add penv e pRootDir pSourceDir root).e)) :
    (∀ d bo isNew make, (TiffEncoder.new d bo isNew make).goTraverse = true ∧
        (TiffEncoder.new d bo isNew make).dirty_ = false) ∧
      (∀ flag, (e.setDirty flag).goTraverse = !(e.setDirty flag).dirty_) ∧
      (e.goTraverse = !e.dirty_ → e'.goTraverse = !e'.dirty_) ∧
      (e.dirty_ = true → e'.dirty_ = true) ∧
      (e'.exifData_ = e.exifData_ → e.dirty = true → e'.dirty = true) := by
  have hf : Flags e e' := by
    rcases hop with ⟨v, h⟩ | ⟨vs, h⟩ | ⟨object, datum, h⟩ | ⟨object, ed, h⟩ |
      ⟨pRootDir, pSourceDir, root, h⟩
    · rw [h]; exact visit_flags penv e v
    · rw [h]; exact pass_flags penv vs e
    · rw [h]; exact encodeTiffComponent_flags penv e object datum
    · rw [h]; exact marks_flags (encode_marks penv e object ed)
    · rw [h]; exact add_flags penv e pRootDir pSourceDir root
  refine ⟨fun _ _ _ _ => ⟨rfl, rfl⟩, fun _ => rfl, hf.1, hf.2, ?_⟩
  intro hd hdirty
  unfold dirty at hdirty ⊢
  rw [hd]
  cases hdf : e.dirty_ with
  | true => rw [hf.2 hdf]; rfl
  | false =>
    rw [hdf] at hdirty
    simp only [Bool.false_or] at hdirty
    rw [hdirty]
    simp

/-- Witness of C33: a freshly constructed encoder with an empty collection
visits an entry; the encoder after the visit is dirty and does not traverse. -/
theorem dirty_traverse_invariant_witness :
    (visit Sample.exifEnv (Sample.encoder [])
        (.component (TiffNode.ofEntry .entry (Sample.entry4 0x0100 1)))).2.dirty_ = true ∧
      ((Sample.encoder []).goTraverse = !(Sample.encoder []).dirty_ →
        (visit Sample.exifEnv (Sample.encoder [])
          (.component (TiffNode.ofEntry .entry (Sample.entry4 0x0100 1)))).2.goTraverse =
          !(visit Sample.exifEnv (Sample.encoder [])
            (.component (TiffNode.ofEntry .entry (Sample.entry4 0x0100 1)))).2.dirty_) :=
  ⟨by decide,
    (dirty_traverse_invariant Sample.exifEnv (Sample.encoder []) _
      (Or.inl ⟨.component (TiffNode.ofEntry .entry (Sample.entry4 0x0100 1)), rfl⟩)).2.2.1⟩

end TiffEncoder

namespace TiffReader

theorem postProcessLoop_chain (penv : ExifEnv) (pRoot : TiffComponent) :
    ∀ (l res : List TiffBinaryArray) (r r' : TiffReader), r.postProc_ = true →
      postProcessLoop penv pRoot r l = .ok (some (res, r')) →
      SameState r r' ∧
        ∃ rs : Nat → TiffReader, rs 0 = r ∧ res.length = l.length ∧
          (∀ (i : Nat) o, l[i]? = some o → (rs i).postProc_ = true ∧
            ∃ o', res[i]? = some o' ∧
              acceptBinaryArray penv pRoot (rs i) o = .ok (some (o', rs (i + 1)))) ∧
          r' = rs l.length := by
  intro l
  induction l with
  | nil =>
    intro res r r' _ h
    simp only [postProcessLoop, Except.ok.injEq, Option.some.injEq, Prod.mk.injEq] at h
    rw [← h.1, ← h.2]
    exact ⟨sameState_refl r, fun _ => r, rfl, rfl, fun i o hi => by simp at hi, rfl⟩
  | cons pos rest ih =>
    intro res r r' hpost h
    simp only [postProcessLoop] at h
    cases ha : acceptBinaryArray penv pRoot r pos with
    | error e => rw [ha] at h; cases h
    | ok p =>
      cases p with
      | none => rw [ha] at h; cases h
      | some p =>
        obtain ⟨pos1, r1⟩ := p
        rw [ha] at h
        simp only at h
        have hs1 := acceptBinaryArray_sameState hpost ha
        have hpost1 : r1.postProc_ = true := hs1.2.2.2.1.trans hpost
        cases hl : postProcessLoop penv pRoot r1 rest with
        | error e => rw [hl] at h; cases h
        | ok q =>
          cases q with
          | none => rw [hl] at h; cases h
          | some q =>
            obtain ⟨rest1, r2⟩ := q
            rw [hl] at h
            simp only [Except.ok.injEq, Option.some.injEq, Prod.mk.injEq] at h
            obtain ⟨hres, hr⟩ := h
            subst hres hr
            obtain ⟨hs2, rs, h0, hlen, hall, hlast⟩ := ih rest1 r1 r2 hpost1 hl
            refine ⟨sameState_trans hs1 hs2, fun i => match i with | 0 => r | i + 1 => rs i,
              rfl, by simp [hlen], ?_, ?_⟩
            · intro i o hi
              cases i with
              | zero =>
                simp only [List.getElem?_cons_zero, Option.some.injEq] at hi
                subst hi
                refine ⟨hpost, pos1, by simp, ?_⟩
                show acceptBinaryArray penv pRoot r pos = .ok (some (pos1, rs 0))
                rw [h0]
                exact ha
              | succ i =>
                simp only [List.getElem?_cons_succ] at hi
                obtain ⟨hp, o', h3, h4⟩ := hall i o hi
                exact ⟨hp, o', by simpa using h3, h4⟩
            · exact hlast

theorem postProcessLoop_of_chain (penv : ExifEnv) (pRoot : TiffComponent) :
    ∀ (l res : List TiffBinaryArray) (rs : Nat → TiffReader),
      res.length = l.length →
      (∀ (i : Nat) o, l[i]? = some o → ∃ o', res[i]? = some o' ∧
        acceptBinaryArray penv pRoot (rs i) o = .ok (some (o', rs (i + 1)))) →
      postProcessLoop penv pRoot (rs 0) l = .ok (some (res, rs l.length)) := by
  intro l
  induction l with
  | nil =>
    intro res rs hlen _
    have : res = [] := List.length_eq_zero.mp hlen
    subst this
    rfl
  | cons pos rest ih =>
    intro res rs hlen hall
    obtain ⟨o', h1, h2⟩ := hall 0 pos (by simp)
    cases res with
    | nil => simp at h1
    | cons o1 res1 =>
      simp only [List.getElem?_cons_zero, Option.some.injEq] at h1
      subst h1
      have hrest := ih res1 (fun i => rs (i + 1)) (by simpa using hlen)
        (fun i o hi => by
          obtain ⟨o', h3, h4⟩ := hall (i + 1) o (by simpa using hi)
          exact ⟨o', by simpa using h3, h4⟩)
      simp only [postProcessLoop, h2]
      have hrest' : postProcessLoop penv pRoot (rs 1) rest =
          .ok (some (res1, rs (rest.length + 1))) := hrest
      rw [hrest']
      rfl

/-- C27: in the main pass (post-processing flag clear) `visitBinaryArray` reads
the array as an entry with `readTiffEntry`, whose error it passes on, appends
the array once, at the end of the post-processing queue, and leaves its
element children as they are. `postProcess` returns exactly when the queued
arrays are accepted one after the other in queue order: the first on the
reader with the makernote state and the flag set, each next one on the reader
the visit before left, all with the flag set; its result are the arrays these
visits leave, and the reader the last visit left with the flag clear and the
original state. The flag of this reader is clear, and its byte order and base
offset are those of its original state, which is the state given at
construction. -/
theorem visitBinaryArray_queue (penv : ExifEnv) (pRoot : TiffComponent) (r : TiffReader)
    (object : TiffBinaryArray) (hmain : r.postProc_ = false) :
    (∀ e, readTiffEntry penv.toEnv r object.node.entry = .error e →
        visitBinaryArray penv pRoot r object = .error e) ∧
      (∀ entry r1, readTiffEntry penv.toEnv r object.node.entry = .ok (entry, r1) →
        ∃ o' r', visitBinaryArray penv pRoot r object = .ok (some (o', r')) ∧
          o'.node.entry = entry ∧ o'.elements_ = object.elements_ ∧
          r'.postList_ = r.postList_ ++ [o'] ∧ r'.idxSeq_ = r1.idxSeq_ ∧
          r'.postProc_ = false ∧ r'.origState_ = r.origState_) ∧
      (∀ res r', postProcess penv pRoot r = .ok (some (res, r')) ↔
        ∃ rs : Nat → TiffReader,
          rs 0 = { r.setMnState none with postProc_ := true } ∧
          res.length = r.postList_.length ∧
          (∀ (i : Nat) o, r.postList_[i]? = some o → (rs i).postProc_ = true ∧
            ∃ o', res[i]? = some o' ∧
              acceptBinaryArray penv pRoot (rs i) o = .ok (some (o', rs (i + 1)))) ∧
          r' = ({ rs r.postList_.length with postProc_ := false, postList_ := res } :
            TiffReader).setOrigState) ∧
      (∀ res r', postProcess penv pRoot r = .ok (some (res, r')) →
        r'.postProc_ = false ∧ r'.postList_ = res ∧
          r'.byteOrder = r.origState_.byteOrder ∧
          r'.baseOffset = r.origState_.baseOffset) ∧
      (∀ pData data state, (TiffReader.new pData data state).origState_ = state ∧
        (TiffReader.new pData data state).postList_ = [] ∧
        (TiffReader.new pData data state).postProc_ = false) := by
  refine ⟨?_, ?_, ?_, ?_, fun _ _ _ => ⟨rfl, rfl, rfl⟩⟩
  · intro e he
    unfold visitBinaryArray readBinaryArray
    rw [if_pos hmain, he]
  · intro entry r1 he
    have hs := readTiffEntry_sameState he
    unfold visitBinaryArray readBinaryArray
    rw [if_pos hmain, he]
    refine ⟨_, _, rfl, rfl, rfl, ?_, rfl, ?_, ?_⟩
    · show r1.postList_ ++ _ = r.postList_ ++ _
      rw [hs.2.2.2.2]
    · exact hs.2.2.2.1.trans hmain
    · exact hs.1
  · intro res r'
    constructor
    · intro h
      unfold postProcess at h
      simp only at h
      cases hl : postProcessLoop penv pRoot
          { r.setMnState none with postProc_ := true }
          ({ r.setMnState none with postProc_ := true } : TiffReader).postList_ with
      | error e => rw [hl] at h; cases h
      | ok q =>
        cases q with
        | none => rw [hl] at h; cases h
        | some q =>
          obtain ⟨res1, r2⟩ := q
          rw [hl] at h
          simp only [Except.ok.injEq, Option.some.injEq, Prod.mk.injEq] at h
          obtain ⟨hres, hr⟩ := h
          subst hres hr
          obtain ⟨-, rs, h0, hlen, hall, hlast⟩ :=
            postProcessLoop_chain penv pRoot _ _ _ _ rfl hl
          exact ⟨rs, h0, hlen, hall, by rw [hlast]; rfl⟩
    · rintro ⟨rs, h0, hlen, hall, hlast⟩
      have hl := postProcessLoop_of_chain penv pRoot r.postList_ res rs hlen
        (fun i o hi => (hall i o hi).2)
      rw [h0] at hl
      unfold postProcess
      simp only []
      have hl' : postProcessLoop penv pRoot { r.setMnState none with postProc_ := true }
          ({ r.setMnState none with postProc_ := true } : TiffReader).postList_ =
          .ok (some (res, rs r.postList_.length)) := hl
      rw [hl', hlast]
  · intro res r' h
    unfold postProcess at h
    simp only at h
    cases hl : postProcessLoop penv pRoot
        { r.setMnState none with postProc_ := true }
        ({ r.setMnState none with postProc_ := true } : TiffReader).postList_ with
    | error e => rw [hl] at h; cases h
    | ok q =>
      cases q with
      | none => rw [hl] at h; cases h
      | some q =>
        obtain ⟨res1, r2⟩ := q
        rw [hl] at h
        simp only [Except.ok.injEq, Option.some.injEq, Prod.mk.injEq] at h
        obtain ⟨hres, hr⟩ := h
        subst hres hr
        obtain ⟨hs, -⟩ := postProcessLoop_chain penv pRoot _ _ _ _ rfl hl
        have ho : r2.origState_ = r.origState_ := hs.1
        refine ⟨rfl, rfl, ?_, ?_⟩
        · show r2.origState_.byteOrder = _
          rw [ho]
        · show r2.origState_.baseOffset = _
          rw [ho]

/-- Witness of C27: the sample array read in the main pass from the slot at
address `1000` is queued at the end of the queue; and `postProcess` on a queue
of two arrays of two bytes returns the two arrays with two elements each, the
elements of the first array with the indices 1 and 2 and those of the second
with the indices 3 and 4 of the sequence of their group. -/
theorem visitBinaryArray_queue_witness :
    Sample.queueReader.postProc_ = false ∧
      (∃ entry r1, readTiffEntry Sample.exifEnv.toEnv Sample.queueReader
          Sample.arrayAt.node.entry = .ok (entry, r1) ∧
        ∃ o' r', visitBinaryArray Sample.exifEnv (Sample.rootOf [])
            Sample.queueReader Sample.arrayAt = .ok (some (o', r')) ∧
          o'.node.entry = entry ∧ o'.elements_ = Sample.arrayAt.elements_ ∧
          r'.postList_ = Sample.queueReader.postList_ ++ [o'] ∧
          r'.idxSeq_ = r1.idxSeq_ ∧ r'.postProc_ = false ∧
          r'.origState_ = Sample.queueReader.origState_) ∧
      ∃ res r', postProcess Sample.exifEnv (Sample.rootOf []) Sample.queueReader =
          .ok (some (res, r')) ∧
        res.map (fun o => o.node.entry.tag) = [0x0001, 0x0002] ∧
        res.map (fun o => o.elements_.map fun el => el.entry.idx) = [[1, 2], [3, 4]] ∧
        ∃ rs : Nat → TiffReader,
          rs 0 = { Sample.queueReader.setMnState none with postProc_ := true } ∧
          res.length = Sample.queueReader.postList_.length ∧
          (∀ (i : Nat) o, Sample.queueReader.postList_[i]? = some o →
            (rs i).postProc_ = true ∧
            ∃ o', res[i]? = some o' ∧
              acceptBinaryArray Sample.exifEnv (Sample.rootOf []) (rs i) o =
                .ok (some (o', rs (i + 1)))) ∧
          r' = ({ rs Sample.queueReader.postList_.length with
            postProc_ := false, postList_ := res } : TiffReader).setOrigState :=
  ⟨rfl,
    ⟨_, _, rfl,
      (visitBinaryArray_queue Sample.exifEnv (Sample.rootOf []) Sample.queueReader
        Sample.arrayAt rfl).2.1 _ _ rfl⟩,
    _, _, rfl, by decide, by decide,
    ((visitBinaryArray_queue Sample.exifEnv (Sample.rootOf []) Sample.queueReader
      Sample.arrayAt rfl).2.2.1 _ _).mp rfl⟩

end TiffReader

namespace TiffEncoder

end TiffEncoder

end Exiv2
